import Mathlib

/-!
Binding tags of `generic/tkCmds.c`

A shallow embedding of the binding code of `tkCmds.c` (`Tk_BindObjCmd`,
`TkBindEventProc`, `Tk_BindtagsObjCmd`, `TkFreeBindingTags`,
`TkGetDisplayOf`, `GetTopHierarchy`) and theorems about it.

Modelling conventions.

* A `char *` that points at a string is a `CStr`: either the canonical
  pointer handed out by `Tk_GetUid` for a text (one pointer per text), or a
  string stored at some other address (a window's path name, a `ckalloc`
  copy).  Two `CStr` values are the same pointer exactly when they are
  equal.  A nullable pointer is an `Option CStr`.
* `TkWindow *` and `TkMainInfo *` are indices into the tables of `TkState`;
  `none` is `NULL`.
* Every function returns an `Option`; `none` stands for behaviour the C
  program does not define (a `NULL` or dangling pointer is dereferenced, an
  array is read or written outside its bounds) or for a loop that does not
  come to an end.
* An array (`tagPtr`, the buffer of `TkBindEventProc`) is the list of its
  slots; its length is its capacity.  Only string blocks carry an address.
* `Tcl_Size` counters are natural numbers.
* `TkBindEventProc` is given twice: as the function from the state to the
  calls of `Tk_BindEvent` it makes, and (`TkBindEventProcIn`) statement by
  statement on the memory it works in, with `Tk_BindEvent` a parameter that
  maps the state at the call to the state at its return.
-/

namespace TkCmds

/-! ## Data model -/

/-- A non-null pointer to a NUL-terminated string. -/
inductive CStr where
  /-- The pointer `Tk_GetUid` returns for `text`. -/
  | uid (text : String)
  /-- A string `text` held in the storage block at address `addr`. -/
  | mem (addr : Nat) (text : String)
  deriving DecidableEq, Repr

/-- The characters a string pointer points at. -/
def CStr.text : CStr → String
  | .uid t => t
  | .mem _ t => t

/-- The test `p[0] == '.'` on the characters of a string (the first byte of
the empty string is the terminating NUL, which is not a dot). -/
def startsWithDot (s : String) : Bool :=
  match s.data with
  | c :: _ => c == '.'
  | [] => false

/-- The interned pointer for a text: equal texts give the same pointer. -/
def Tk_GetUid (s : String) : CStr := CStr.uid s

/-- Modelled from the spec: the bit of `flags` that marks a hierarchy root;
the mask is declared in `tkInt.h`, which is not among the sources. -/
def TK_TOP_HIERARCHY : Nat := 0x20000

/-- The fields of `TkWindow` that the binding-tag code reads or writes. -/
structure TkWindow where
  pathName : CStr
  classUid : CStr
  flags : Nat
  parentPtr : Option Nat
  mainPtr : Option Nat
  numTags : Nat
  tagPtr : Option (List (Option CStr))
  deriving DecidableEq, Repr

/-- Modelled from the spec: the macro `Tk_TopWinHierarchy` of `tk.h`
(not among the sources) tests the hierarchy-root bit of the flags. -/
def Tk_TopWinHierarchy (w : TkWindow) : Bool :=
  (w.flags &&& TK_TOP_HIERARCHY) != 0

/-- The fields of `TkMainInfo` used here: the window-name table (path text
to window) and the binding table handle (`none` for `NULL`). -/
structure TkMainInfo where
  nameTable : List (String × Nat)
  bindingTable : Option Nat
  deriving DecidableEq, Repr

/-- The program state: the windows, the main-info records, the address of
the next block `ckalloc` hands out for a string copy, and the string
pointers given to `ckfree` so far (latest first). -/
structure TkState where
  windows : List TkWindow
  mainInfos : List TkMainInfo
  nextBlock : Nat
  freeLog : List CStr
  deriving DecidableEq, Repr

/-- A `Tcl_Obj` argument: its string representation (`Tcl_GetString`) and
what `Tcl_ListObjGetElements` makes of it: `none` when it is not a
well-formed list, else the string representations of its elements. -/
structure Tcl_Obj where
  bytes : String
  elements : Option (List String)
  deriving DecidableEq, Repr

/-- Completion codes of a Tcl command. -/
inductive TclCode where
  | TCL_OK
  | TCL_ERROR
  deriving DecidableEq, Repr

/-- What a command leaves behind: its completion code, the list object it
set as the interpreter result (if it set one), and the state. -/
structure CmdOutcome where
  code : TclCode
  result : Option (List String)
  state : TkState
  deriving DecidableEq, Repr

/-- One call of `Tk_BindEvent(bindingTable, eventPtr, tkwin, numObjects,
objectPtr)`; `objectPtr` holds the `numObjects` slots the callee reads. -/
structure BindEventCall where
  bindingTable : Nat
  eventPtr : Nat
  tkwin : Nat
  numObjects : Nat
  objectPtr : List (Option CStr)
  deriving DecidableEq, Repr

/-- What `TkBindEventProc` did: its calls of `Tk_BindEvent`, the capacity of
the buffer it took with `ckalloc` (if it took one), and whether it gave a
buffer back with `ckfree`. -/
structure BindEventOutcome where
  calls : List BindEventCall
  heapBuffer : Option Nat
  heapFreed : Bool
  deriving DecidableEq, Repr

/-! ## Control structure -/

/-- Runs `body i` for `k` consecutive indices starting at `i`. -/
def forFrom {σ : Type} (body : Nat → σ → Option σ) : Nat → Nat → σ → Option σ
  | 0, _, s => some s
  | k + 1, i, s => (body i s).bind (forFrom body k (i + 1))

/-- The loop `for (i = 0; i < n; i++) body`. -/
def forLoop {σ : Type} (n : Nat) (body : Nat → σ → Option σ) (s : σ) : Option σ :=
  forFrom body n 0 s

/-- The read `*tagPtr[i]` of a window: the string pointer in slot `i`. -/
def readTag (win : TkWindow) (i : Nat) : Option CStr := do
  let tags ← win.tagPtr
  let slot ← tags[i]?
  slot

/-- The write `objPtr[i] = p` into a buffer of fixed capacity. -/
def writeSlot (buf : List (Option CStr)) (i : Nat) (p : Option CStr) :
    Option (List (Option CStr)) :=
  if i < buf.length then some (buf.set i p) else none

/-- The `count` leading slots of a buffer, as the callee reads them. -/
def readSlots (buf : List (Option CStr)) (count : Nat) : Option (List (Option CStr)) :=
  if count ≤ buf.length then some (buf.take count) else none

/-- Modelled from the spec: `Tk_NameToWindow` (in `tkWindow.c`, not among the
sources) resolves a path in the window-name table of the application that
`tkwin` belongs to; the outer `none` is a fault, the inner one `NULL`. -/
def Tk_NameToWindow (st : TkState) (pathName : String) (tkwin : Option Nat) :
    Option (Option Nat) :=
  match tkwin with
  | none => some none
  | some t => do
    let win ← st.windows[t]?
    let mi ← win.mainPtr
    let main ← st.mainInfos[mi]?
    some (main.nameTable.lookup pathName)

/-! ## `TkBindEventProc` -/

/-- The capacity of the inline buffer. -/
def MAX_OBJS : Nat := 20

/-- The body of the tag loop of `TkBindEventProc` without the store: a tag
that starts with a dot is looked up in the name table and replaced by the
path name of the window found, or by `NULL`; any other tag is kept. -/
def resolveTag (st : TkState) (main : TkMainInfo) (p : CStr) : Option (Option CStr) :=
  if startsWithDot p.text then
    match main.nameTable.lookup p.text with
    | some v => do
      let tw ← st.windows[v]?
      some (some tw.pathName)
    | none => some none
  else some (some p)

/-- The body of the tag loop of `TkBindEventProc`: slot `i` of the buffer
receives the resolution of tag `i`. -/
def copyTag (st : TkState) (main : TkMainInfo) (win : TkWindow) (i : Nat)
    (buf : List (Option CStr)) : Option (List (Option CStr)) := do
  let p ← readTag win i
  let q ← resolveTag st main p
  writeSlot buf i q

/-- The ancestor loop of `TkBindEventProc`, from `topLevPtr`.  The first
argument bounds the number of windows visited; the result is `none` when the
bound is used up or a window pointer dangles. -/
def topLevLoop (ws : List TkWindow) : Nat → Option Nat → Option (Option Nat)
  | _, none => some none
  | 0, some _ => none
  | k + 1, some t => do
    let tw ← ws[t]?
    if (tw.flags &&& TK_TOP_HIERARCHY) != 0 then some (some t)
    else topLevLoop ws k tw.parentPtr

/-- The function `TkBindEventProc(winPtr, eventPtr)`.  The ancestor loop is
given as many steps as there are windows, which is enough for every parent
chain that does not run in a circle. -/
def TkBindEventProc (st : TkState) (winPtr : Nat) (eventPtr : Nat) :
    Option BindEventOutcome := do
  let win ← st.windows[winPtr]?
  match win.mainPtr with
  | none => some ⟨[], none, false⟩
  | some mi =>
    let main ← st.mainInfos[mi]?
    match main.bindingTable with
    | none => some ⟨[], none, false⟩
    | some table =>
      let objects : List (Option CStr) := List.replicate MAX_OBJS none
      if win.numTags ≠ 0 then
        let heap : Bool := decide (win.numTags > MAX_OBJS)
        let objPtr0 := if heap then List.replicate win.numTags none else objects
        let objPtr ← forLoop win.numTags (copyTag st main win) objPtr0
        let count := win.numTags
        let objs ← readSlots objPtr count
        some ⟨[⟨table, eventPtr, winPtr, count, objs⟩],
          if heap then some win.numTags else none, heap⟩
      else
        let objPtr ← writeSlot objects 0 (some win.pathName)
        let objPtr ← writeSlot objPtr 1 (some win.classUid)
        let topLevPtr ← topLevLoop st.windows st.windows.length (some winPtr)
        let (count, objPtr) ← (match topLevPtr with
          | some t =>
            if winPtr ≠ t then do
              let tw ← st.windows[t]?
              let buf ← writeSlot objPtr 2 (some tw.pathName)
              some (4, buf)
            else some (3, objPtr)
          | none => some (3, objPtr))
        let objPtr ← writeSlot objPtr (count - 1) (some (Tk_GetUid "all"))
        let objs ← readSlots objPtr count
        some ⟨[⟨table, eventPtr, winPtr, count, objs⟩], none, false⟩

/-! ## `TkBindEventProc`, statement by statement -/

/-- The memory `TkBindEventProc` runs in: the windows and tables of the
program, and the buffer `objPtr` points at.  The buffer is the array
`objects` of the function or the block it has just taken with `ckalloc`, so
it shares no storage with the windows and their tag arrays. -/
structure DispatchMem where
  st : TkState
  objPtr : List (Option CStr)
  deriving DecidableEq, Repr

/-- The external function `Tk_BindEvent` of `tkBind.c`, a parameter of what
follows: it invokes the bindings that match the event for the objects given,
and their scripts may run any command.  It maps the state at the call and the
arguments to the state at its return; `none`: it does not return. -/
abbrev BindEventFn : Type := TkState → BindEventCall → Option TkState

/-- The store `objPtr[i] = p`. -/
def storeSlot (i : Nat) (p : Option CStr) (m : DispatchMem) : Option DispatchMem := do
  let buf ← writeSlot m.objPtr i p
  some { m with objPtr := buf }

/-- One pass of the tag loop of `TkBindEventProc`, every read made in the
memory as it is when the pass begins: `p = winPtr->tagPtr[i]`, the lookup of
a `p` that starts with a dot in `winPtr->mainPtr->nameTable`, and the store
`objPtr[i] = p`. -/
def copyTagIn (winPtr i : Nat) (m : DispatchMem) : Option DispatchMem := do
  let win ← m.st.windows[winPtr]?
  let p ← readTag win i
  if startsWithDot p.text then
    let mi ← win.mainPtr
    let main ← m.st.mainInfos[mi]?
    let q ← resolveTag m.st main p
    storeSlot i q m
  else storeSlot i (some p) m

/-- The loop `for (i = 0; i < winPtr->numTags; i++)` of `TkBindEventProc`
from index `i` on; `winPtr->numTags` is read at every test of the loop
condition, and the first argument bounds the number of tests. -/
def tagLoopIn (winPtr : Nat) : Nat → Nat → DispatchMem → Option DispatchMem
  | 0, _, _ => none
  | k + 1, i, m =>
    match m.st.windows[winPtr]? with
    | none => none
    | some win =>
      if i < win.numTags then
        match copyTagIn winPtr i m with
        | none => none
        | some m2 => tagLoopIn winPtr k (i + 1) m2
      else some m

/-- The call `Tk_BindEvent(winPtr->mainPtr->bindingTable, eventPtr,
(Tk_Window) winPtr, count, objPtr)`: the arguments are read in the memory as
it is at the call, the callee reads the `count` leading slots of the buffer,
and the program goes on in the state the callee leaves. -/
def callBindEvent (Tk_BindEvent : BindEventFn) (winPtr eventPtr count : Nat)
    (m : DispatchMem) : Option (BindEventCall × TkState) := do
  let win ← m.st.windows[winPtr]?
  let mi ← win.mainPtr
  let main ← m.st.mainInfos[mi]?
  let table ← main.bindingTable
  let objs ← readSlots m.objPtr count
  let st2 ← Tk_BindEvent m.st ⟨table, eventPtr, winPtr, count, objs⟩
  some (⟨table, eventPtr, winPtr, count, objs⟩, st2)

/-- The function `TkBindEventProc(winPtr, eventPtr)` with the memory passed
from statement to statement and `Tk_BindEvent` called in it: the result is
what the function did and the state of the program at its return.  The tag
loop tests its condition `numTags + 1` times at most, the ancestor loop
visits as many windows as there are at most. -/
def TkBindEventProcIn (Tk_BindEvent : BindEventFn) (st : TkState) (winPtr eventPtr : Nat) :
    Option (BindEventOutcome × TkState) := do
  let win ← st.windows[winPtr]?
  match win.mainPtr with
  | none => some (⟨[], none, false⟩, st)
  | some mi =>
    let main ← st.mainInfos[mi]?
    match main.bindingTable with
    | none => some (⟨[], none, false⟩, st)
    | some _ =>
      let objects : List (Option CStr) := List.replicate MAX_OBJS none
      if win.numTags ≠ 0 then
        let heap : Bool := decide (win.numTags > MAX_OBJS)
        let m : DispatchMem := ⟨st, if heap then List.replicate win.numTags none else objects⟩
        let m ← tagLoopIn winPtr (win.numTags + 1) 0 m
        let win2 ← m.st.windows[winPtr]?
        let count := win2.numTags
        let (call, st2) ← callBindEvent Tk_BindEvent winPtr eventPtr count m
        some (⟨[call], if heap then some win.numTags else none, heap⟩, st2)
      else
        let m : DispatchMem := ⟨st, objects⟩
        let m ← storeSlot 0 (some win.pathName) m
        let win1 ← m.st.windows[winPtr]?
        let m ← storeSlot 1 (some win1.classUid) m
        let topLevPtr ← topLevLoop m.st.windows m.st.windows.length (some winPtr)
        let (count, m) ← (match topLevPtr with
          | some t =>
            if winPtr ≠ t then do
              let tw ← m.st.windows[t]?
              let m2 ← storeSlot 2 (some tw.pathName) m
              some (4, m2)
            else some (3, m)
          | none => some (3, m))
        let m ← storeSlot (count - 1) (some (Tk_GetUid "all")) m
        let (call, st2) ← callBindEvent Tk_BindEvent winPtr eventPtr count m
        some (⟨[call], none, false⟩, st2)

/-! ## `TkFreeBindingTags` -/

/-- The body of the loop of `TkFreeBindingTags`: tag `i` is given to `ckfree`
when its text starts with a dot. -/
def freeTag (win : TkWindow) (i : Nat) (log : List CStr) : Option (List CStr) := do
  let p ← readTag win i
  if startsWithDot p.text then some (p :: log) else some log

/-- The function `TkFreeBindingTags(winPtr)`: every tag whose text starts with
a dot is given to `ckfree`, then the window is left without tags. -/
def TkFreeBindingTags (st : TkState) (winPtr : Nat) : Option TkState := do
  let win ← st.windows[winPtr]?
  let freeLog ← forLoop win.numTags (freeTag win) st.freeLog
  some { st with
    windows := st.windows.set winPtr { win with numTags := 0, tagPtr := none }
    freeLog := freeLog }

/-! ## `Tk_BindtagsObjCmd` -/

/-- The ancestor loop of the query form of `bindtags`, from `winPtr2`, with the
same bound on the number of windows visited. -/
def winPtr2Loop (ws : List TkWindow) : Nat → Option Nat → Option (Option Nat)
  | _, none => some none
  | 0, some _ => none
  | k + 1, some t => do
    let tw ← ws[t]?
    if Tk_TopWinHierarchy tw then some (some t)
    else winPtr2Loop ws k tw.parentPtr

/-- The body of the query loop of `bindtags`: the text of tag `i` is appended
to the result list. -/
def appendTag (win : TkWindow) (i : Nat) (listPtr : List String) : Option (List String) := do
  let p ← readTag win i
  some (listPtr ++ [p.text])

/-- The body of the store loop of `bindtags`: a text that starts with a dot
is copied into a fresh block, any other text is interned. -/
def storeTag (tags : List String) (i : Nat) (s : List (Option CStr) × Nat) :
    Option (List (Option CStr) × Nat) := do
  let p ← tags[i]?
  if startsWithDot p then
    let copy := CStr.mem s.2 p
    let arr ← writeSlot s.1 i (some copy)
    some (arr, s.2 + 1)
  else do
    let arr ← writeSlot s.1 i (some (Tk_GetUid p))
    some (arr, s.2)

/-- The function `Tk_BindtagsObjCmd(clientData, interp, objc, objv)`, with
`objc` the length of `objv`.  The source writes `numTags` and `tagPtr` before
it fills the new array; nothing reads the window in between, and here the
filled array is put in place after the store loop. -/
def Tk_BindtagsObjCmd (st : TkState) (clientData : Option Nat) (objv : List Tcl_Obj) :
    Option CmdOutcome :=
  if objv.length < 2 ∨ objv.length > 3 then some ⟨TclCode.TCL_ERROR, none, st⟩
  else do
    let name ← objv[1]?
    let found ← Tk_NameToWindow st name.bytes clientData
    match found with
    | none => some ⟨TclCode.TCL_ERROR, none, st⟩
    | some winPtr =>
      let win ← st.windows[winPtr]?
      if objv.length = 2 then
        if win.numTags = 0 then do
          let listPtr : List String := []
          let listPtr := listPtr ++ [win.pathName.text]
          let listPtr := listPtr ++ [win.classUid.text]
          let winPtr2 ← winPtr2Loop st.windows st.windows.length (some winPtr)
          let listPtr ← (match winPtr2 with
            | some t =>
              if winPtr ≠ t then do
                let tw ← st.windows[t]?
                some (listPtr ++ [tw.pathName.text])
              else some listPtr
            | none => some listPtr)
          let listPtr := listPtr ++ ["all"]
          some ⟨TclCode.TCL_OK, some listPtr, st⟩
        else do
          let listPtr ← forLoop win.numTags (appendTag win) []
          some ⟨TclCode.TCL_OK, some listPtr, st⟩
      else do
        let st1 ← (if win.tagPtr ≠ none then TkFreeBindingTags st winPtr else some st)
        let arg ← objv[2]?
        match arg.elements with
        | none => some ⟨TclCode.TCL_ERROR, none, st1⟩
        | some tags =>
          if tags.length = 0 then some ⟨TclCode.TCL_OK, none, st1⟩
          else do
            let win1 ← st1.windows[winPtr]?
            let (arr, next) ← forLoop tags.length (storeTag tags)
              (List.replicate tags.length none, st1.nextBlock)
            some ⟨TclCode.TCL_OK, none,
              { st1 with
                windows := st1.windows.set winPtr
                  { win1 with numTags := tags.length, tagPtr := some arr }
                nextBlock := next }⟩

/-! ## `Tk_BindObjCmd` -/

/-- One call of a binding-table function by `bind`, with its arguments after
the interpreter: the binding table, the object, the event string, and for a
new binding the script and the append flag. -/
inductive BindCall where
  | Tk_DeleteBinding (bindingTable : Option Nat) (object : CStr) (eventString : String)
  | Tk_CreateBinding (bindingTable : Option Nat) (object : CStr) (eventString : String)
      (script : String) (append : Nat)
  | Tk_GetBinding (bindingTable : Option Nat) (object : CStr) (eventString : String)
  | Tk_GetAllBindings (bindingTable : Option Nat) (object : CStr)
  deriving DecidableEq, Repr

/-- The object a binding-table call is about. -/
def BindCall.object : BindCall → CStr
  | .Tk_DeleteBinding _ o _ => o
  | .Tk_CreateBinding _ o _ _ _ => o
  | .Tk_GetBinding _ o _ => o
  | .Tk_GetAllBindings _ o => o

/-- Modelled from the spec: the binding-table functions of `tkBind.c` (not
among the sources) are given by what they return: `delete` a status, `create`
the mask of the events matched or 0 for a failure, `query` the script or
nothing.  A value of this type stands for the binding tables as they are when
one `bind` command runs, which makes at most one such call. -/
structure BindingOps where
  Tk_DeleteBinding : Option Nat → CStr → String → TclCode
  Tk_CreateBinding : Option Nat → CStr → String → String → Nat → Nat
  Tk_GetBinding : Option Nat → CStr → String → Option String

/-- What `bind` leaves behind: its completion code, the interpreter result it
set itself (`none` when it left the result to the function it called, the
empty string after `Tcl_ResetResult`), and its binding-table calls. -/
structure BindOutcome where
  code : TclCode
  result : Option String
  calls : List BindCall
  deriving DecidableEq, Repr

/-- The read `winPtr->mainPtr->bindingTable`. -/
def bindingTableOf (st : TkState) (winPtr : Option Nat) : Option (Option Nat) := do
  let w ← winPtr
  let win ← st.windows[w]?
  let mi ← win.mainPtr
  let main ← st.mainInfos[mi]?
  some main.bindingTable

/-- The first part of `Tk_BindObjCmd`: what the first argument stands for.
A string that starts with a dot names a window and stands for the path name
of that window (`NULL` window: the inner `none`, the command fails); any other
string is a tag and stands for its uid, with `winPtr` the main window. -/
def bindTarget (st : TkState) (clientData : Option Nat) (string : String) :
    Option (Option (Option Nat × CStr)) :=
  if startsWithDot string then do
    let found ← Tk_NameToWindow st string clientData
    match found with
    | none => some none
    | some w => do
      let win ← st.windows[w]?
      some (some (some w, win.pathName))
  else some (some (clientData, Tk_GetUid string))

/-- The function `Tk_BindObjCmd(clientData, interp, objc, objv)`, with `objc`
the length of `objv`. -/
def Tk_BindObjCmd (ops : BindingOps) (st : TkState) (clientData : Option Nat)
    (objv : List Tcl_Obj) : Option BindOutcome :=
  if objv.length < 2 ∨ objv.length > 4 then some ⟨TclCode.TCL_ERROR, none, []⟩
  else do
    let arg1 ← objv[1]?
    let target ← bindTarget st clientData arg1.bytes
    match target with
    | none => some ⟨TclCode.TCL_ERROR, none, []⟩
    | some (winPtr, object) =>
      if objv.length = 4 then do
        let arg2 ← objv[2]?
        let arg3 ← objv[3]?
        let sequence := arg2.bytes
        let script := arg3.bytes
        match script.data with
        | [] => do
          let table ← bindingTableOf st winPtr
          some ⟨ops.Tk_DeleteBinding table object sequence, none,
            [BindCall.Tk_DeleteBinding table object sequence]⟩
        | c :: rest => do
          let (script, append) := if c = '+' then (String.mk rest, 1) else (script, 0)
          let table ← bindingTableOf st winPtr
          let mask := ops.Tk_CreateBinding table object sequence script append
          if mask = 0 then
            some ⟨TclCode.TCL_ERROR, none,
              [BindCall.Tk_CreateBinding table object sequence script append]⟩
          else
            some ⟨TclCode.TCL_OK, none,
              [BindCall.Tk_CreateBinding table object sequence script append]⟩
      else if objv.length = 3 then do
        let arg2 ← objv[2]?
        let table ← bindingTableOf st winPtr
        match ops.Tk_GetBinding table object arg2.bytes with
        | none =>
          some ⟨TclCode.TCL_OK, some "", [BindCall.Tk_GetBinding table object arg2.bytes]⟩
        | some command =>
          some ⟨TclCode.TCL_OK, some command,
            [BindCall.Tk_GetBinding table object arg2.bytes]⟩
      else do
        let table ← bindingTableOf st winPtr
        some ⟨TclCode.TCL_OK, none, [BindCall.Tk_GetAllBindings table object]⟩

/-! ## `TkGetDisplayOf` -/

/-- Modelled from the spec: the value `TCL_INDEX_NONE` of `tcl.h` (not among
the sources), the index that stands for "none". -/
def TCL_INDEX_NONE : Int := -1

/-- The C library function `strncmp` on character sequences: at most `n`
characters are compared, and the end of a string counts as a NUL, which no
character of a Tcl string equals.  The result is zero, negative or positive. -/
def strncmp : List Char → List Char → Nat → Int
  | _, _, 0 => 0
  | [], [], _ + 1 => 0
  | [], _ :: _, _ + 1 => -1
  | _ :: _, [], _ + 1 => 1
  | a :: as, b :: bs, n + 1 =>
    if a = b then strncmp as bs n else if a < b then -1 else 1

/-- The function `TkGetDisplayOf(interp, objc, objv, tkwinPtr)`, with `objc`
the length of `objv`: the value returned and the window that `*tkwinPtr`
holds afterwards (`tkwin` is what it held before). -/
def TkGetDisplayOf (st : TkState) (objv : List Tcl_Obj) (tkwin : Option Nat) :
    Option (Int × Option Nat) :=
  if objv.length + 1 < 2 then some (0, tkwin)
  else do
    let arg0 ← objv[0]?
    let string := arg0.bytes
    let length := string.length
    if length ≥ 2 ∧ strncmp string.data "-displayof".data length = 0 then
      if objv.length < 2 then some (TCL_INDEX_NONE, tkwin)
      else do
        let arg1 ← objv[1]?
        let found ← Tk_NameToWindow st arg1.bytes tkwin
        match found with
        | none => some (TCL_INDEX_NONE, none)
        | some w => some (2, some w)
    else some (0, tkwin)

/-! ## `GetTopHierarchy` -/

/-- The loop of `GetTopHierarchy`, from `winPtr`; the first argument bounds
the number of windows visited, as in the other two ancestor loops. -/
def topHierarchyLoop (ws : List TkWindow) : Nat → Option Nat → Option (Option Nat)
  | _, none => some none
  | 0, some _ => none
  | k + 1, some t => do
    let tw ← ws[t]?
    if (tw.flags &&& TK_TOP_HIERARCHY) != 0 then some (some t)
    else topHierarchyLoop ws k tw.parentPtr

/-- The function `GetTopHierarchy(tkwin)`; the loop is given as many steps as
there are windows. -/
def GetTopHierarchy (st : TkState) (tkwin : Option Nat) : Option (Option Nat) :=
  topHierarchyLoop st.windows st.windows.length tkwin

/-! ## Predicates used in the statements -/

/-- The walk from `p` up the parent pointers visits the windows `l` and stops
with `r`: at the first window flagged as hierarchy root, or with `NULL` when
the parent pointers run out before one is found. -/
inductive TopChain (ws : List TkWindow) : Option Nat → List Nat → Option Nat → Prop
  | null : TopChain ws none [] none
  | top (t : Nat) (tw : TkWindow) : ws[t]? = some tw → Tk_TopWinHierarchy tw = true →
      TopChain ws (some t) [t] (some t)
  | up (t : Nat) (tw : TkWindow) (l : List Nat) (r : Option Nat) : ws[t]? = some tw →
      Tk_TopWinHierarchy tw = false → TopChain ws tw.parentPtr l r →
      TopChain ws (some t) (t :: l) r

/-- The window that the walk from `winPtr` stopped at, when it stopped at a
window other than `winPtr` itself. -/
def otherTop (ws : List TkWindow) (winPtr : Nat) (r : Option Nat) : Option TkWindow :=
  match r with
  | some t => if winPtr ≠ t then ws[t]? else none
  | none => none

/-- The default tag rule of the spec, as texts: window path, class, path of
the top-level (when there is one besides the window), `all`. -/
def defaultTexts (win : TkWindow) (top : Option TkWindow) : List String :=
  match top with
  | some tw => [win.pathName.text, win.classUid.text, tw.pathName.text, "all"]
  | none => [win.pathName.text, win.classUid.text, "all"]

/-- The default tag rule of the spec, as binding objects. -/
def defaultObjects (win : TkWindow) (top : Option TkWindow) : List (Option CStr) :=
  match top with
  | some tw => [some win.pathName, some win.classUid, some tw.pathName, some (Tk_GetUid "all")]
  | none => [some win.pathName, some win.classUid, some (Tk_GetUid "all")]

/-- The tag state of a window is consistent: without a tag array the count is
zero; with one, the array holds `numTags` entries, at least one, none `NULL`. -/
def TagsConsistent (win : TkWindow) : Prop :=
  match win.tagPtr with
  | none => win.numTags = 0
  | some tags => tags.length = win.numTags ∧ win.numTags ≠ 0 ∧ ∀ p ∈ tags, p ≠ none

/-- The window holds exactly the explicit tags `cs`. -/
def HoldsTags (win : TkWindow) (cs : List CStr) : Prop :=
  win.tagPtr = some (cs.map some) ∧ win.numTags = cs.length

/-- Every entry of the name table refers to a window of the state. -/
def NameTableValid (st : TkState) (main : TkMainInfo) : Prop :=
  ∀ e ∈ main.nameTable, e.2 < st.windows.length

/-- The tag objects the store loop of `bindtags` makes of the texts `tags`
when the next free block is `next`, with the next free block afterwards. -/
def storedTags : List String → Nat → List CStr × Nat
  | [], next => ([], next)
  | p :: rest, next =>
    if startsWithDot p then
      (CStr.mem next p :: (storedTags rest (next + 1)).1, (storedTags rest (next + 1)).2)
    else (Tk_GetUid p :: (storedTags rest next).1, (storedTags rest next).2)

/-- The non-null entries of the tag array of a window, in order. -/
def heldTags (win : TkWindow) : List CStr :=
  (win.tagPtr.getD []).filterMap id

/-- The state after the tags of window `winPtr` (whose record is `win`) have
been released: the window has no tags, and its tags that start with a dot
have gone to `ckfree`, in slot order. -/
def clearTags (st : TkState) (winPtr : Nat) (win : TkWindow) : TkState :=
  { st with
    windows := st.windows.set winPtr { win with numTags := 0, tagPtr := none }
    freeLog := ((heldTags win).filter (fun c => startsWithDot c.text)).reverse ++ st.freeLog }

/-- The state after the texts `tags` have been stored as the tags of window
`winPtr`, starting from the state `st` in which the window has none. -/
def installTags (st : TkState) (winPtr : Nat) (win : TkWindow) (tags : List String) : TkState :=
  { st with
    windows := st.windows.set winPtr
      { win with numTags := tags.length,
                 tagPtr := some ((storedTags tags st.nextBlock).1.map some) }
    nextBlock := (storedTags tags st.nextBlock).2 }

/-! ## Example states -/

/-- The command word of a `bindtags` call. -/
def bindtagsWord : Tcl_Obj := ⟨"bindtags", some ["bindtags"]⟩

/-- An argument that is a window path. -/
def pathArg (s : String) : Tcl_Obj := ⟨s, some [s]⟩

/-- The main window `.`, a hierarchy root. -/
def demoRoot : TkWindow :=
  ⟨CStr.mem 100 ".", CStr.uid "Tk", 0x20000, none, some 0, 0, none⟩

/-- The top-level `.top`, a hierarchy root whose parent is the main window. -/
def demoTop : TkWindow :=
  ⟨CStr.mem 101 ".top", CStr.uid "Toplevel", 0x20000, some 0, some 0, 0, none⟩

/-- The button `.top.btn` inside `.top`, without explicit tags. -/
def demoBtn : TkWindow :=
  ⟨CStr.mem 102 ".top.btn", CStr.uid "Button", 0, some 1, some 0, 0, none⟩

/-- The three windows of the example, at the indices 0, 1 and 2. -/
def demoWindows : List TkWindow := [demoRoot, demoTop, demoBtn]

/-- The application record of the example: all three windows are named. -/
def demoMain : TkMainInfo := ⟨[(".", 0), (".top", 1), (".top.btn", 2)], some 7⟩

/-- The example state without explicit tags. -/
def demoState : TkState := ⟨demoWindows, [demoMain], 1000, []⟩

/-- A state in which the window `.x` is not a hierarchy root and has lost its
parent, so that no window of its parent chain is a hierarchy root. -/
def orphanState : TkState :=
  ⟨[ ⟨CStr.mem 100 ".", CStr.uid "Tk", 0x20000, none, some 0, 0, none⟩,
     ⟨CStr.mem 103 ".x", CStr.uid "Frame", 0, none, some 0, 0, none⟩ ],
   [⟨[(".", 0), (".x", 1)], some 7⟩], 1000, []⟩

/-- The four tags of the button in the examples. -/
def demoTags : List CStr :=
  [CStr.uid "Button", CStr.mem 1000 ".top", CStr.mem 1001 ".gone", CStr.uid "all"]

/-- The example state after `bindtags .top.btn {Button .top .gone all}`:
the two tags that start with a dot are copies in the blocks 1000 and 1001. -/
def taggedState : TkState :=
  ⟨[demoRoot, demoTop, { demoBtn with numTags := 4, tagPtr := some (demoTags.map some) }],
   [demoMain], 1002, []⟩

/-- A tag-list argument with the given elements. -/
def listArg (bytes : String) (tags : List String) : Tcl_Obj := ⟨bytes, some tags⟩

/-- An argument that is not a well-formed list: an open brace. -/
def malformedArg : Tcl_Obj := ⟨"\x7b", none⟩

/-- The consistency of a tag state can be checked. -/
instance TagsConsistent.decidable (win : TkWindow) : Decidable (TagsConsistent win) :=
  match h : win.tagPtr with
  | none =>
    if hn : win.numTags = 0 then isTrue (by unfold TagsConsistent; rw [h]; exact hn)
    else isFalse (by unfold TagsConsistent; rw [h]; exact hn)
  | some tags =>
    if hc : tags.length = win.numTags ∧ win.numTags ≠ 0 ∧ ∀ p ∈ tags, p ≠ none then
      isTrue (by unfold TagsConsistent; rw [h]; exact hc)
    else isFalse (by unfold TagsConsistent; rw [h]; exact hc)

/-- The validity of a name table can be checked. -/
instance NameTableValid.decidable (st : TkState) (main : TkMainInfo) :
    Decidable (NameTableValid st main) := by
  unfold NameTableValid
  infer_instance

/-- The top-level `.top` created anew after the first one was destroyed: the
same path text, held in another block. -/
def newTop : TkWindow :=
  ⟨CStr.mem 201 ".top", CStr.uid "Toplevel", 0x20000, some 0, some 0, 0, none⟩

/-- The name table once `.top` has been destroyed and created anew: the path
`.top` now belongs to the window at index 3. -/
def recreatedMain : TkMainInfo := ⟨[(".", 0), (".top", 3), (".top.btn", 2)], some 7⟩

/-- The state of `taggedState` once `.top` has been destroyed and created
anew; the tags of the button are as they were assigned. -/
def recreatedState : TkState :=
  ⟨[demoRoot, demoTop, { demoBtn with numTags := 4, tagPtr := some (demoTags.map some) }, newTop],
   [recreatedMain], 1002, []⟩

/-- Twenty-five tags, one of them the path of the top-level. -/
def manyTags : List CStr :=
  [CStr.uid "t0", CStr.uid "t1", CStr.uid "t2", CStr.uid "t3", CStr.uid "t4",
   CStr.uid "t5", CStr.uid "t6", CStr.uid "t7", CStr.uid "t8", CStr.uid "t9",
   CStr.uid "t10", CStr.uid "t11", CStr.mem 1000 ".top", CStr.uid "t13", CStr.uid "t14",
   CStr.uid "t15", CStr.uid "t16", CStr.uid "t17", CStr.uid "t18", CStr.uid "t19",
   CStr.uid "t20", CStr.uid "t21", CStr.uid "t22", CStr.uid "t23", CStr.uid "t24"]

/-- The objects that the twenty-five tags resolve to in the example. -/
def manyObjects : List (Option CStr) :=
  [some (CStr.uid "t0"), some (CStr.uid "t1"), some (CStr.uid "t2"), some (CStr.uid "t3"),
   some (CStr.uid "t4"), some (CStr.uid "t5"), some (CStr.uid "t6"), some (CStr.uid "t7"),
   some (CStr.uid "t8"), some (CStr.uid "t9"), some (CStr.uid "t10"), some (CStr.uid "t11"),
   some (CStr.mem 101 ".top"), some (CStr.uid "t13"), some (CStr.uid "t14"),
   some (CStr.uid "t15"), some (CStr.uid "t16"), some (CStr.uid "t17"), some (CStr.uid "t18"),
   some (CStr.uid "t19"), some (CStr.uid "t20"), some (CStr.uid "t21"), some (CStr.uid "t22"),
   some (CStr.uid "t23"), some (CStr.uid "t24")]

/-- The button with the twenty-five tags. -/
def manyBtn : TkWindow :=
  { demoBtn with numTags := 25, tagPtr := some (manyTags.map some) }

/-- The example state in which the button holds the twenty-five tags. -/
def manyState : TkState := ⟨[demoRoot, demoTop, manyBtn], [demoMain], 1001, []⟩

/-! ## Further predicates and examples -/

/-- The tag array of a window can be read: without an array the count is zero;
with one, the array holds `numTags` entries, none of them `NULL`. -/
def TagsReadable (win : TkWindow) : Prop :=
  match win.tagPtr with
  | none => win.numTags = 0
  | some tags => tags.length = win.numTags ∧ ∀ p ∈ tags, p ≠ none

/-- The number of texts of a list that start with a dot. -/
def dotCount (tags : List String) : Nat :=
  (tags.filter startsWithDot).length

/-- An argument that names no window of the examples. -/
def noSuchArg : Tcl_Obj := ⟨".nosuch", some [".nosuch"]⟩

/-- The first argument `string` of `bind` stands for the object `object`,
whose bindings are kept in the binding table `table`: either the string
starts with a dot and names a window, the object is the path name of that
window and the table that of its application; or the string does not start
with a dot, the object is its uid and the table that of the main window. -/
inductive BindsTo (st : TkState) (clientData : Option Nat) (string : String) :
    CStr → Option Nat → Prop
  | window (w : Nat) (win : TkWindow) (mi : Nat) (main : TkMainInfo) :
      startsWithDot string = true →
      Tk_NameToWindow st string clientData = some (some w) →
      st.windows[w]? = some win → win.mainPtr = some mi → st.mainInfos[mi]? = some main →
      BindsTo st clientData string win.pathName main.bindingTable
  | tag (t : Nat) (win : TkWindow) (mi : Nat) (main : TkMainInfo) :
      startsWithDot string = false → clientData = some t →
      st.windows[t]? = some win → win.mainPtr = some mi → st.mainInfos[mi]? = some main →
      BindsTo st clientData string (Tk_GetUid string) main.bindingTable

/-- The command word of a `bind` call. -/
def bindWord : Tcl_Obj := ⟨"bind", some ["bind"]⟩

/-- An argument given by its string. -/
def strArg (s : String) : Tcl_Obj := ⟨s, none⟩

/-- Binding-table functions for the examples: `delete` succeeds, `create`
fails on the script `bad`, and only `<Key>` has a binding. -/
def demoOps : BindingOps :=
  ⟨fun _ _ _ => TclCode.TCL_OK,
   fun _ _ _ script _ => if script = "bad" then 0 else 1,
   fun _ _ eventString => if eventString = "<Key>" then some "puts hi" else none⟩

/-- The number of words of a `bind` command (the command word counted) that
makes a binding-table call of this kind. -/
def BindCall.objc : BindCall → Nat
  | .Tk_GetAllBindings _ _ => 2
  | .Tk_GetBinding _ _ _ => 3
  | .Tk_DeleteBinding _ _ _ => 4
  | .Tk_CreateBinding _ _ _ _ _ => 4

/-- The spec of the option test of `TkGetDisplayOf`: the string is a leading
part of `-displayof` that is at least two characters long. -/
def isDisplayofOption (s : String) : Prop :=
  2 ≤ s.length ∧ ∃ rest, "-displayof".data = s.data ++ rest

/-- An operation on the tag store: a `bindtags` command (any form) or a call
of `TkFreeBindingTags`. -/
inductive TagOp where
  | bindtags (clientData : Option Nat) (objv : List Tcl_Obj)
  | free (winPtr : Nat)
  deriving DecidableEq, Repr

/-- The state after one operation on the tag store. -/
def runOp (st : TkState) : TagOp → Option TkState
  | .bindtags clientData objv => (Tk_BindtagsObjCmd st clientData objv).map CmdOutcome.state
  | .free winPtr => TkFreeBindingTags st winPtr

/-- The state after a sequence of operations on the tag store. -/
def runOps : TkState → List TagOp → Option TkState
  | st, [] => some st
  | st, op :: ops => (runOp st op).bind (fun st2 => runOps st2 ops)

/-- The tag state of every window is consistent. -/
def AllConsistent (st : TkState) : Prop :=
  ∀ win ∈ st.windows, TagsConsistent win

/-- The pointers of the state lead somewhere: every name-table entry refers
to a window, and the parent chain of every window ends. -/
def PointersSound (st : TkState) : Prop :=
  (∀ main ∈ st.mainInfos, NameTableValid st main) ∧
  ∀ w, w < st.windows.length → ∃ l r, TopChain st.windows (some w) l r

/-- The operation is called on something that exists: the main window given
to `bindtags` is `NULL` or a window with an application record, the window
given to `TkFreeBindingTags` is a window. -/
def TagOp.defined (st : TkState) : TagOp → Prop
  | .bindtags clientData _ =>
    clientData = none ∨ ∃ (t : Nat) (win : TkWindow) (mi : Nat) (main : TkMainInfo),
      clientData = some t ∧ st.windows[t]? = some win ∧ win.mainPtr = some mi ∧
      st.mainInfos[mi]? = some main
  | .free winPtr => winPtr < st.windows.length

/-- The state `st2` differs from `st` at most in the tag list of one window,
the allocator and the release log. -/
def TagUpdate (st st2 : TkState) : Prop :=
  st2 = st ∨ ∃ (w : Nat) (win win2 : TkWindow), st.windows[w]? = some win ∧
    st2.windows = st.windows.set w win2 ∧ st2.mainInfos = st.mainInfos ∧
    win2.pathName = win.pathName ∧ win2.classUid = win.classUid ∧ win2.flags = win.flags ∧
    win2.parentPtr = win.parentPtr ∧ win2.mainPtr = win.mainPtr ∧ TagsConsistent win2

/-- A run on the example state: tags are assigned to the button, queried,
replaced by a malformed list, released, and an empty list is assigned to the
top-level. -/
def demoRun : List TagOp :=
  [ TagOp.bindtags (some 0)
      [bindtagsWord, pathArg ".top.btn", listArg "Button .top" ["Button", ".top"]],
    TagOp.bindtags (some 0) [bindtagsWord, pathArg ".top.btn"],
    TagOp.bindtags (some 0) [bindtagsWord, pathArg ".top.btn", malformedArg],
    TagOp.free 2,
    TagOp.bindtags (some 0) [bindtagsWord, pathArg ".top", listArg "" []] ]

/-- The pointer is to a block of storage (a copy), not a uid. -/
def CStr.isCopy : CStr → Bool
  | .mem _ _ => true
  | .uid _ => false

/-! ## Parent chains and counted loops -/

/-- The parent chain from `p` up to `NULL`: the window `p`, its parent, its
grandparent and so on, in order.  There is such a list exactly when the chain
is finite: no pointer of it dangles and it does not run in a circle. -/
inductive ParentChain (ws : List TkWindow) : Option Nat → List Nat → Prop
  | null : ParentChain ws none []
  | step (t : Nat) (tw : TkWindow) (l : List Nat) : ws[t]? = some tw →
      ParentChain ws tw.parentPtr l → ParentChain ws (some t) (t :: l)

/-- The window at index `t` is flagged as a hierarchy root. -/
def flaggedAt (ws : List TkWindow) (t : Nat) : Bool :=
  match ws[t]? with
  | some tw => Tk_TopWinHierarchy tw
  | none => false

/-- A loop body that also counts its executions. -/
def counted {σ : Type} (body : Nat → σ → Option σ) (i : Nat) (s : σ × Nat) :
    Option (σ × Nat) :=
  (body i s.1).map (fun x => (x, s.2 + 1))

/-- The name table maps every path text to a window whose path name has that
text. -/
def NameTableNamed (st : TkState) (main : TkMainInfo) : Prop :=
  ∀ e ∈ main.nameTable, (st.windows[e.2]?).map (fun tw => tw.pathName.text) = some e.1

instance NameTableNamed.decidable (st : TkState) (main : TkMainInfo) :
    Decidable (NameTableNamed st main) :=
  inferInstanceAs (Decidable (∀ e ∈ main.nameTable,
    (st.windows[e.2]?).map (fun tw => tw.pathName.text) = some e.1))

/-- What `Tk_BindEvent` makes of the state `st` when it is called as the
outcome `out` records: nothing without a call. -/
def afterCalls (T : BindEventFn) (st : TkState) (out : BindEventOutcome) :
    Option (BindEventOutcome × TkState) :=
  match out.calls with
  | [] => some (out, st)
  | call :: _ => (T st call).map (fun st2 => (out, st2))

/-- The function `Tk_BindEvent` leaves the windows and the application
records as they are: no binding it invokes changes a tag list, a window or a
name table. -/
def LeavesWindows (T : BindEventFn) : Prop :=
  ∀ (s : TkState) (call : BindEventCall) (s2 : TkState), T s call = some s2 →
    s2.windows = s.windows ∧ s2.mainInfos = s.mainInfos

/-- An operation that reads tag lists: the query form of `bindtags`, or the
dispatch of an event to a window. -/
inductive ReadOp
  | query (clientData : Option Nat) (cmd name : Tcl_Obj)
  | dispatch (winPtr eventPtr : Nat)

/-- The state after one reading operation: the state the query form of
`bindtags` returns in, or the state `TkBindEventProc` returns in when
`Tk_BindEvent` is `T`. -/
def runRead (T : BindEventFn) (st : TkState) : ReadOp → Option TkState
  | .query clientData cmd name =>
    (Tk_BindtagsObjCmd st clientData [cmd, name]).map CmdOutcome.state
  | .dispatch winPtr eventPtr => (TkBindEventProcIn T st winPtr eventPtr).map Prod.snd

/-- The state after a sequence of reading operations. -/
def runReads (T : BindEventFn) : TkState → List ReadOp → Option TkState
  | st, [] => some st
  | st, op :: ops => (runRead T st op).bind (fun st2 => runReads T st2 ops)

/-- Modelled from the spec: `Tk_BindEvent` (`tkBind.c`) is not among the
sources.  The binding table stores scripts and fires them at dispatch; this
is its dispatch when the script bound to the event is `bindtags .top.btn {}`:
the script runs the `bindtags` command in the state at the call. -/
def clearingBinding : BindEventFn := fun s _ =>
  (Tk_BindtagsObjCmd s (some 0) [bindtagsWord, pathArg ".top.btn", listArg "" []]).map
    CmdOutcome.state

/-- Modelled from the spec: `Tk_BindEvent` (`tkBind.c`) is not among the
sources.  This is its dispatch when the scripts fired take one storage block
and touch no window. -/
def quietBinding : BindEventFn := fun s _ => some { s with nextBlock := s.nextBlock + 1 }

/-! ## The ancestor walk -/

theorem topChain_det {ws : List TkWindow} {p : Option Nat} {l l' : List Nat}
    {r r' : Option Nat} (h : TopChain ws p l r) (h' : TopChain ws p l' r') :
    l = l' ∧ r = r' := by
  induction h generalizing l' r' with
  | null => cases h'; exact ⟨rfl, rfl⟩
  | top t tw hw hf =>
    cases h' with
    | top _ tw' hw' hf' => exact ⟨rfl, rfl⟩
    | up _ tw' _ _ hw' hf' _ =>
      rw [hw] at hw'; cases hw'; rw [hf] at hf'; cases hf'
  | up t tw l r hw hf _ ih =>
    cases h' with
    | top _ tw' hw' hf' =>
      rw [hw] at hw'; cases hw'; rw [hf] at hf'; cases hf'
    | up _ tw' l2 _ hw' hf' hc' =>
      rw [hw] at hw'; cases hw'
      obtain ⟨h1, h2⟩ := ih hc'
      exact ⟨by rw [h1], h2⟩

theorem topChain_mem {ws : List TkWindow} {p : Option Nat} {l : List Nat}
    {r : Option Nat} (h : TopChain ws p l r) :
    ∀ t ∈ l, ∃ l', TopChain ws (some t) l' r ∧ l'.length ≤ l.length := by
  induction h with
  | null => intro t ht; cases ht
  | top t tw hw hf =>
    intro u hu
    simp only [List.mem_singleton] at hu
    subst hu
    exact ⟨[u], TopChain.top u tw hw hf, le_refl _⟩
  | up t tw l r hw hf hc ih =>
    intro u hu
    rcases List.mem_cons.mp hu with h1 | h1
    · subst h1
      exact ⟨u :: l, TopChain.up u tw l r hw hf hc, le_refl _⟩
    · obtain ⟨l', hl', hlen⟩ := ih u h1
      exact ⟨l', hl', by simp only [List.length_cons]; omega⟩

theorem topChain_nodup {ws : List TkWindow} {p : Option Nat} {l : List Nat}
    {r : Option Nat} (h : TopChain ws p l r) : l.Nodup := by
  induction h with
  | null => exact List.nodup_nil
  | top t tw hw hf => exact List.nodup_singleton t
  | up t tw l r hw hf hc ih =>
    refine List.nodup_cons.mpr ⟨?_, ih⟩
    intro hmem
    obtain ⟨l', hl', hlen⟩ := topChain_mem hc t hmem
    have := (topChain_det hl' (TopChain.up t tw l r hw hf hc)).1
    rw [this] at hlen
    simp only [List.length_cons] at hlen
    omega

theorem topChain_lt {ws : List TkWindow} {p : Option Nat} {l : List Nat}
    {r : Option Nat} (h : TopChain ws p l r) : ∀ t ∈ l, t < ws.length := by
  induction h with
  | null => intro t ht; cases ht
  | top t tw hw hf =>
    intro u hu
    simp only [List.mem_singleton] at hu
    subst hu
    exact (List.getElem?_eq_some.mp hw).1
  | up t tw l r hw hf hc ih =>
    intro u hu
    rcases List.mem_cons.mp hu with h1 | h1
    · subst h1; exact (List.getElem?_eq_some.mp hw).1
    · exact ih u h1

theorem topChain_length_le {ws : List TkWindow} {p : Option Nat} {l : List Nat}
    {r : Option Nat} (h : TopChain ws p l r) : l.length ≤ ws.length := by
  have hsub : l.toFinset ⊆ Finset.range ws.length := by
    intro t ht
    exact Finset.mem_range.mpr (topChain_lt h t (List.mem_toFinset.mp ht))
  have hcard := Finset.card_le_card hsub
  rw [List.toFinset_card_of_nodup (topChain_nodup h), Finset.card_range] at hcard
  exact hcard

theorem winPtr2Loop_of_chain {ws : List TkWindow} {p : Option Nat} {l : List Nat}
    {r : Option Nat} (h : TopChain ws p l r) :
    ∀ k, l.length ≤ k → winPtr2Loop ws k p = some r := by
  induction h with
  | null => intro k _; cases k <;> rfl
  | top t tw hw hf =>
    intro k hk
    cases k with
    | zero => simp at hk
    | succ k => simp [winPtr2Loop, hw, hf]
  | up t tw l r hw hf hc ih =>
    intro k hk
    cases k with
    | zero => simp at hk
    | succ k =>
      simp only [List.length_cons, Nat.add_le_add_iff_right] at hk
      simp [winPtr2Loop, hw, hf, ih k hk]

theorem topLevLoop_eq_winPtr2Loop (ws : List TkWindow) :
    ∀ (k : Nat) (p : Option Nat), topLevLoop ws k p = winPtr2Loop ws k p := by
  intro k
  induction k with
  | zero => intro p; cases p <;> rfl
  | succ k ih =>
    intro p
    cases p with
    | none => rfl
    | some t =>
      simp only [topLevLoop, winPtr2Loop, Tk_TopWinHierarchy]
      cases ws[t]? with
      | none => rfl
      | some tw => simp only [Option.bind_eq_bind, Option.some_bind, ih]

/-! ## The default tag rule -/

theorem topChain_result {ws : List TkWindow} {p : Option Nat} {l : List Nat}
    {r : Option Nat} (h : TopChain ws p l r) :
    ∀ t, r = some t → ∃ tw, ws[t]? = some tw ∧ Tk_TopWinHierarchy tw = true := by
  induction h with
  | null => intro t ht; cases ht
  | top t tw hw hf => intro u hu; cases hu; exact ⟨tw, hw, hf⟩
  | up t tw l r hw hf hc ih => exact ih

theorem query_default {st : TkState} {clientData : Option Nat} (cmd : Tcl_Obj)
    {name : Tcl_Obj} {winPtr : Nat} {win : TkWindow} {l : List Nat} {r : Option Nat}
    (hname : Tk_NameToWindow st name.bytes clientData = some (some winPtr))
    (hwin : st.windows[winPtr]? = some win) (hnum : win.numTags = 0)
    (hchain : TopChain st.windows (some winPtr) l r) :
    Tk_BindtagsObjCmd st clientData [cmd, name] =
      some ⟨TclCode.TCL_OK, some (defaultTexts win (otherTop st.windows winPtr r)), st⟩ := by
  have hloop := winPtr2Loop_of_chain hchain _ (topChain_length_le hchain)
  cases r with
  | none =>
    simp [Tk_BindtagsObjCmd, hname, hwin, hnum, hloop, otherTop, defaultTexts]
  | some t =>
    obtain ⟨tw, htw, _⟩ := topChain_result hchain t rfl
    by_cases hne : winPtr = t
    · subst hne
      simp [Tk_BindtagsObjCmd, hname, hwin, hnum, hloop, otherTop, defaultTexts]
    · simp [Tk_BindtagsObjCmd, hname, hwin, hnum, hloop, otherTop, defaultTexts, hne, htw]

theorem dispatch_default {st : TkState} {winPtr : Nat} (eventPtr : Nat) {mi table : Nat}
    {win : TkWindow}
    {main : TkMainInfo} {l : List Nat} {r : Option Nat}
    (hwin : st.windows[winPtr]? = some win) (hmain : win.mainPtr = some mi)
    (hinfo : st.mainInfos[mi]? = some main) (htable : main.bindingTable = some table)
    (hnum : win.numTags = 0) (hchain : TopChain st.windows (some winPtr) l r) :
    TkBindEventProc st winPtr eventPtr =
      some ⟨[⟨table, eventPtr, winPtr,
              (defaultObjects win (otherTop st.windows winPtr r)).length,
              defaultObjects win (otherTop st.windows winPtr r)⟩], none, false⟩ := by
  have hloop := winPtr2Loop_of_chain hchain _ (topChain_length_le hchain)
  rw [← topLevLoop_eq_winPtr2Loop] at hloop
  cases r with
  | none =>
    simp [TkBindEventProc, hwin, hmain, hinfo, htable, hnum, hloop, otherTop, defaultObjects,
      writeSlot, readSlots, MAX_OBJS, List.replicate]
  | some t =>
    obtain ⟨tw, htw, _⟩ := topChain_result hchain t rfl
    by_cases hne : winPtr = t
    · subst hne
      simp [TkBindEventProc, hwin, hmain, hinfo, htable, hnum, hloop, otherTop, defaultObjects,
        writeSlot, readSlots, MAX_OBJS, List.replicate]
    · simp [TkBindEventProc, hwin, hmain, hinfo, htable, hnum, hloop, otherTop, defaultObjects,
        writeSlot, readSlots, MAX_OBJS, List.replicate, hne, htw]

/-! ## The loops over the explicit tags -/

theorem getElem?_append_cons {α : Type} (a b : List α) (x : α) :
    (a ++ x :: b)[a.length]? = some x := by
  induction a with
  | nil => simp
  | cons y a ih => simpa using ih

theorem readTag_at {win : TkWindow} {pre rest : List CStr} {c : CStr}
    (h : win.tagPtr = some ((pre ++ c :: rest).map some)) :
    readTag win pre.length = some c := by
  have hget := getElem?_append_cons (pre.map some) (rest.map some) (some c)
  rw [List.length_map] at hget
  simp only [readTag, h, List.map_append, List.map_cons, Option.bind_eq_bind,
    Option.some_bind, hget]

theorem writeSlot_at (a b : List (Option CStr)) (x v : Option CStr) :
    writeSlot (a ++ x :: b) a.length v = some (a ++ v :: b) := by
  simp [writeSlot]

theorem readSlots_leading (a b : List (Option CStr)) :
    readSlots (a ++ b) a.length = some a := by
  simp [readSlots]

theorem appendTag_loop {win : TkWindow} {cs : List CStr}
    (htags : win.tagPtr = some (cs.map some)) :
    ∀ (rest pre : List CStr) (acc : List String), cs = pre ++ rest →
      forFrom (appendTag win) rest.length pre.length acc
        = some (acc ++ rest.map CStr.text) := by
  intro rest
  induction rest with
  | nil => intro pre acc _; simp [forFrom]
  | cons c rest ih =>
    intro pre acc hcs
    have hread : readTag win pre.length = some c := readTag_at (hcs ▸ htags)
    have hnext := ih (pre ++ [c]) (acc ++ [c.text]) (by simp [hcs])
    simp only [List.length_append, List.length_singleton] at hnext
    simp [forFrom, appendTag, hread, hnext]

theorem freeTag_loop {win : TkWindow} {cs : List CStr}
    (htags : win.tagPtr = some (cs.map some)) :
    ∀ (rest pre : List CStr) (log : List CStr), cs = pre ++ rest →
      forFrom (freeTag win) rest.length pre.length log
        = some ((rest.filter (fun c => startsWithDot c.text)).reverse ++ log) := by
  intro rest
  induction rest with
  | nil => intro pre log _; simp [forFrom]
  | cons c rest ih =>
    intro pre log hcs
    have hread : readTag win pre.length = some c := readTag_at (hcs ▸ htags)
    by_cases hdot : startsWithDot c.text = true
    · have hnext := ih (pre ++ [c]) (c :: log) (by simp [hcs])
      simp only [List.length_append, List.length_singleton] at hnext
      simp [forFrom, freeTag, hread, hnext, hdot]
    · have hnext := ih (pre ++ [c]) log (by simp [hcs])
      simp only [List.length_append, List.length_singleton] at hnext
      simp [forFrom, freeTag, hread, hnext, hdot]

theorem copyTag_loop (st : TkState) (main : TkMainInfo) {win : TkWindow} {cs : List CStr}
    (htags : win.tagPtr = some (cs.map some)) (extra : Nat) :
    ∀ (rest pre : List CStr) (qs done : List (Option CStr)), cs = pre ++ rest →
      done.length = pre.length → rest.map (resolveTag st main) = qs.map some →
      forFrom (copyTag st main win) rest.length pre.length
          (done ++ List.replicate (rest.length + extra) none)
        = some (done ++ qs ++ List.replicate extra none) := by
  intro rest
  induction rest with
  | nil =>
    intro pre qs done _ _ hres
    cases qs with
    | nil => simp [forFrom]
    | cons q qs => simp at hres
  | cons c rest ih =>
    intro pre qs done hcs hlen hres
    cases qs with
    | nil => simp at hres
    | cons q qs =>
      simp only [List.map_cons, List.cons.injEq] at hres
      have hread : readTag win pre.length = some c := readTag_at (hcs ▸ htags)
      have hnext := ih (pre ++ [c]) qs (done ++ [q]) (by simp [hcs]) (by simp [hlen]) hres.2
      simp only [List.length_append, List.length_singleton, List.append_assoc,
        List.singleton_append] at hnext
      have hw : writeSlot (done ++ none :: List.replicate (rest.length + extra) none)
          pre.length q = some (done ++ q :: List.replicate (rest.length + extra) none) := by
        rw [← hlen]; exact writeSlot_at _ _ _ _
      have hrep : List.replicate (rest.length + 1 + extra) (none : Option CStr)
          = none :: List.replicate (rest.length + extra) none := by
        rw [show rest.length + 1 + extra = (rest.length + extra) + 1 by omega]
        rfl
      simp only [List.length_cons, forFrom, copyTag, hread, hres.1, hrep, hw,
        Option.bind_eq_bind, Option.some_bind, List.append_assoc, List.cons_append]
      exact hnext

theorem storeTag_loop (tags : List String) :
    ∀ (rest pre : List String) (done : List (Option CStr)) (next : Nat),
      tags = pre ++ rest → done.length = pre.length →
      forFrom (storeTag tags) rest.length pre.length
          (done ++ List.replicate rest.length none, next)
        = some (done ++ (storedTags rest next).1.map some, (storedTags rest next).2) := by
  intro rest
  induction rest with
  | nil => intro pre done next _ _; simp [forFrom, storedTags]
  | cons p rest ih =>
    intro pre done next htags hlen
    have hget : tags[pre.length]? = some p := by
      rw [htags]; exact getElem?_append_cons pre rest p
    by_cases hdot : startsWithDot p = true
    · have hnext := ih (pre ++ [p]) (done ++ [some (CStr.mem next p)]) (next + 1)
        (by simp [htags]) (by simp [hlen])
      simp only [List.length_append, List.length_singleton, List.append_assoc,
        List.singleton_append] at hnext
      have hw : writeSlot (done ++ none :: List.replicate rest.length none)
          pre.length (some (CStr.mem next p))
            = some (done ++ some (CStr.mem next p) :: List.replicate rest.length none) := by
        rw [← hlen]; exact writeSlot_at _ _ _ _
      simp only [List.length_cons, forFrom, storeTag, hget, hdot, List.replicate_succ, hw,
        Option.bind_eq_bind, Option.some_bind, if_true, storedTags, List.map_cons]
      exact hnext
    · have hnext := ih (pre ++ [p]) (done ++ [some (Tk_GetUid p)]) next
        (by simp [htags]) (by simp [hlen])
      simp only [List.length_append, List.length_singleton, List.append_assoc,
        List.singleton_append] at hnext
      have hw : writeSlot (done ++ none :: List.replicate rest.length none)
          pre.length (some (Tk_GetUid p))
            = some (done ++ some (Tk_GetUid p) :: List.replicate rest.length none) := by
        rw [← hlen]; exact writeSlot_at _ _ _ _
      simp only [List.length_cons, forFrom, storeTag, hget, hdot, List.replicate_succ, hw,
        Option.bind_eq_bind, Option.some_bind, storedTags, List.map_cons]
      exact hnext

theorem storedTags_text (tags : List String) :
    ∀ next, (storedTags tags next).1.map CStr.text = tags := by
  induction tags with
  | nil => intro next; rfl
  | cons p rest ih =>
    intro next
    by_cases hdot : startsWithDot p = true
    · simp [storedTags, hdot, CStr.text, ih]
    · simp [storedTags, hdot, CStr.text, Tk_GetUid, ih]

/-! ## The functions on consistent windows -/

theorem set_self {α : Type} (ws : List α) (i : Nat) (x : α) (h : ws[i]? = some x) :
    ws.set i x = ws := by
  induction ws generalizing i with
  | nil => rfl
  | cons y ws ih =>
    cases i with
    | zero => simp at h; simp [h]
    | succ i => simp at h; simp [ih i h]

theorem all_some {tags : List (Option CStr)} (h : ∀ p ∈ tags, p ≠ none) :
    ∃ cs : List CStr, tags = cs.map some := by
  induction tags with
  | nil => exact ⟨[], rfl⟩
  | cons p tags ih =>
    obtain ⟨cs, hcs⟩ := ih (fun q hq => h q (List.mem_cons_of_mem _ hq))
    cases p with
    | none => exact absurd rfl (h none (List.mem_cons_self _ _))
    | some c => exact ⟨c :: cs, by simp [hcs]⟩

theorem heldTags_of_holds {win : TkWindow} {cs : List CStr} (h : HoldsTags win cs) :
    heldTags win = cs := by
  simp [heldTags, h.1, List.filterMap_map]

theorem consistent_cases {win : TkWindow} (h : TagsConsistent win) :
    (win.tagPtr = none ∧ win.numTags = 0) ∨ (∃ cs, cs ≠ [] ∧ HoldsTags win cs) := by
  unfold TagsConsistent at h
  cases htp : win.tagPtr with
  | none => rw [htp] at h; exact Or.inl ⟨rfl, h⟩
  | some tags =>
    rw [htp] at h
    obtain ⟨hlen, hne, hall⟩ := h
    obtain ⟨cs, hcs⟩ := all_some hall
    refine Or.inr ⟨cs, ?_, ?_, ?_⟩
    · intro hnil; subst hnil; subst hcs; simp at hlen; exact hne hlen.symm
    · rw [htp, hcs]
    · rw [← hlen, hcs, List.length_map]

theorem freeBindingTags_holds {st : TkState} {winPtr : Nat} {win : TkWindow} {cs : List CStr}
    (hwin : st.windows[winPtr]? = some win) (hold : HoldsTags win cs) :
    TkFreeBindingTags st winPtr = some (clearTags st winPtr win) := by
  have hloop := freeTag_loop hold.1 cs [] st.freeLog rfl
  simp only [List.length_nil] at hloop
  simp [TkFreeBindingTags, hwin, forLoop, hold.2, hloop, clearTags, heldTags_of_holds hold]

theorem clear_step {st : TkState} {winPtr : Nat} {win : TkWindow}
    (hwin : st.windows[winPtr]? = some win) (hcons : TagsConsistent win) :
    (if win.tagPtr ≠ none then TkFreeBindingTags st winPtr else some st)
      = some (clearTags st winPtr win) := by
  rcases consistent_cases hcons with ⟨htp, hnum⟩ | ⟨cs, _, hold⟩
  · have hsame : ({ win with numTags := 0, tagPtr := none } : TkWindow) = win := by
      cases win; simp_all
    simp [htp, clearTags, heldTags, hsame, set_self _ _ _ hwin]
  · simp [hold.1, freeBindingTags_holds hwin hold]

theorem clearTags_window {st : TkState} {winPtr : Nat} {win : TkWindow}
    (hwin : st.windows[winPtr]? = some win) :
    (clearTags st winPtr win).windows[winPtr]?
      = some { win with numTags := 0, tagPtr := none } := by
  have hlt := (List.getElem?_eq_some.mp hwin).1
  simp [clearTags, List.getElem?_set, hlt]

theorem nameToWindow_set {st st' : TkState} {winPtr : Nat} {win win' : TkWindow}
    (hwin : st.windows[winPtr]? = some win) (hmains : st'.mainInfos = st.mainInfos)
    (hwins : st'.windows = st.windows.set winPtr win') (hmain : win'.mainPtr = win.mainPtr)
    (name : String) (tkwin : Option Nat) :
    Tk_NameToWindow st' name tkwin = Tk_NameToWindow st name tkwin := by
  cases tkwin with
  | none => rfl
  | some t =>
    have hlt := (List.getElem?_eq_some.mp hwin).1
    by_cases ht : winPtr = t
    · subst ht
      simp [Tk_NameToWindow, hwins, hmains, List.getElem?_set, hlt, hwin, hmain]
    · simp [Tk_NameToWindow, hwins, hmains, List.getElem?_set, ht]

theorem winPtr2Loop_set {ws : List TkWindow} {winPtr : Nat} {win win' : TkWindow}
    (hwin : ws[winPtr]? = some win) (hflags : win'.flags = win.flags)
    (hparent : win'.parentPtr = win.parentPtr) :
    ∀ (k : Nat) (p : Option Nat),
      winPtr2Loop (ws.set winPtr win') k p = winPtr2Loop ws k p := by
  have hlt := (List.getElem?_eq_some.mp hwin).1
  intro k
  induction k with
  | zero => intro p; cases p <;> rfl
  | succ k ih =>
    intro p
    cases p with
    | none => rfl
    | some t =>
      by_cases ht : winPtr = t
      · subst ht
        simp [winPtr2Loop, List.getElem?_set, hlt, hwin, Tk_TopWinHierarchy, hflags, hparent, ih]
      · simp [winPtr2Loop, List.getElem?_set, ht, ih]

theorem query_explicit {st : TkState} {clientData : Option Nat} (cmd : Tcl_Obj)
    {name : Tcl_Obj} {winPtr : Nat} {win : TkWindow} {cs : List CStr}
    (hname : Tk_NameToWindow st name.bytes clientData = some (some winPtr))
    (hwin : st.windows[winPtr]? = some win) (hold : HoldsTags win cs) (hne : cs ≠ []) :
    Tk_BindtagsObjCmd st clientData [cmd, name] =
      some ⟨TclCode.TCL_OK, some (cs.map CStr.text), st⟩ := by
  have hloop := appendTag_loop hold.1 cs [] [] rfl
  simp only [List.length_nil, List.nil_append] at hloop
  have hnum : win.numTags ≠ 0 := by
    rw [hold.2]; exact fun h => hne (List.length_eq_zero.mp h)
  simp [Tk_BindtagsObjCmd, hname, hwin, forLoop, hold.2, hloop, hne]

theorem dispatch_explicit {st : TkState} {winPtr : Nat} (eventPtr : Nat) {mi table : Nat}
    {win : TkWindow}
    {main : TkMainInfo} {cs : List CStr} {qs : List (Option CStr)}
    (hwin : st.windows[winPtr]? = some win) (hmain : win.mainPtr = some mi)
    (hinfo : st.mainInfos[mi]? = some main) (htable : main.bindingTable = some table)
    (hold : HoldsTags win cs) (hne : cs ≠ [])
    (hres : cs.map (resolveTag st main) = qs.map some) :
    TkBindEventProc st winPtr eventPtr =
      some ⟨[⟨table, eventPtr, winPtr, cs.length, qs⟩],
        if cs.length > MAX_OBJS then some cs.length else none,
        decide (cs.length > MAX_OBJS)⟩ := by
  have hnum : win.numTags ≠ 0 := by
    rw [hold.2]; exact fun h => hne (List.length_eq_zero.mp h)
  have hqlen : qs.length = cs.length := by
    have := congrArg List.length hres
    simpa using this.symm
  by_cases hbig : cs.length > MAX_OBJS
  · have hloop := copyTag_loop st main hold.1 0 cs [] qs [] rfl rfl hres
    simp only [List.length_nil, List.nil_append, Nat.add_zero, List.replicate_zero,
      List.append_nil] at hloop
    have hread : readSlots qs cs.length = some qs := by
      have := readSlots_leading qs []
      rw [List.append_nil, hqlen] at this
      exact this
    simp [TkBindEventProc, hwin, hmain, hinfo, htable, forLoop, hold.2, hbig, hloop, hread, hne]
  · have hle : cs.length ≤ MAX_OBJS := Nat.le_of_not_gt hbig
    have hloop := copyTag_loop st main hold.1 (MAX_OBJS - cs.length)
      cs [] qs [] rfl rfl hres
    simp only [List.length_nil, List.nil_append, Nat.add_sub_cancel' hle] at hloop
    have hread : readSlots (qs ++ List.replicate (MAX_OBJS - cs.length) none) cs.length
        = some qs := by
      have := readSlots_leading qs (List.replicate (MAX_OBJS - cs.length) none)
      rw [hqlen] at this
      exact this
    simp [TkBindEventProc, hwin, hmain, hinfo, htable, forLoop, hold.2, hbig, hloop, hread, hne]

theorem lookup_mem {table : List (String × Nat)} {s : String} {v : Nat}
    (h : table.lookup s = some v) : ∃ e ∈ table, e.2 = v := by
  induction table with
  | nil => simp [List.lookup] at h
  | cons e table ih =>
    obtain ⟨k, u⟩ := e
    by_cases hk : s = k
    · subst hk
      simp [List.lookup] at h
      exact ⟨(s, u), List.mem_cons_self _ _, h⟩
    · have hb : (s == k) = false := by simpa using hk
      simp only [List.lookup, hb] at h
      obtain ⟨e, he, hev⟩ := ih h
      exact ⟨e, List.mem_cons_of_mem _ he, hev⟩

theorem lookup_valid {st : TkState} {main : TkMainInfo} (hvalid : NameTableValid st main)
    {s : String} {v : Nat} (h : main.nameTable.lookup s = some v) : v < st.windows.length := by
  obtain ⟨e, he, hev⟩ := lookup_mem h
  rw [← hev]
  exact hvalid e he

theorem resolveTag_total {st : TkState} {main : TkMainInfo} (hvalid : NameTableValid st main)
    (cs : List CStr) :
    ∃ qs : List (Option CStr), cs.map (resolveTag st main) = qs.map some := by
  induction cs with
  | nil => exact ⟨[], rfl⟩
  | cons c cs ih =>
    obtain ⟨qs, hqs⟩ := ih
    have hc : ∃ q, resolveTag st main c = some q := by
      unfold resolveTag
      by_cases hdot : startsWithDot c.text = true
      · cases hl : main.nameTable.lookup c.text with
        | none => exact ⟨none, by simp [hdot]⟩
        | some v =>
          obtain ⟨tw, htw⟩ : ∃ tw, st.windows[v]? = some tw :=
            ⟨_, List.getElem?_eq_getElem (lookup_valid hvalid hl)⟩
          exact ⟨some tw.pathName, by simp [hdot, htw]⟩
      · exact ⟨some c, by simp [hdot]⟩
    obtain ⟨q, hq⟩ := hc
    exact ⟨q :: qs, by simp [hq, hqs]⟩

theorem replace_stores {st : TkState} {clientData : Option Nat} (cmd : Tcl_Obj)
    {name arg : Tcl_Obj}
    {winPtr : Nat} {win : TkWindow} {tags : List String}
    (hname : Tk_NameToWindow st name.bytes clientData = some (some winPtr))
    (hwin : st.windows[winPtr]? = some win) (hcons : TagsConsistent win)
    (harg : arg.elements = some tags) (hne : tags ≠ []) :
    Tk_BindtagsObjCmd st clientData [cmd, name, arg] =
      some ⟨TclCode.TCL_OK, none,
        installTags (clearTags st winPtr win) winPtr
          { win with numTags := 0, tagPtr := none } tags⟩ := by
  have hclear := clear_step hwin hcons
  simp only [ne_eq, ite_not] at hclear
  have hw1 := clearTags_window hwin
  have hloop := storeTag_loop tags tags [] [] (clearTags st winPtr win).nextBlock rfl rfl
  simp only [List.length_nil, List.nil_append] at hloop
  have hlen : tags.length ≠ 0 := fun h => hne (List.length_eq_zero.mp h)
  simp [Tk_BindtagsObjCmd, hname, hwin, hclear, harg, hlen, hne, hw1, forLoop, hloop, installTags]

theorem replace_clears {st : TkState} {clientData : Option Nat} (cmd : Tcl_Obj)
    {name arg : Tcl_Obj}
    {winPtr : Nat} {win : TkWindow}
    (hname : Tk_NameToWindow st name.bytes clientData = some (some winPtr))
    (hwin : st.windows[winPtr]? = some win) (hcons : TagsConsistent win)
    (harg : arg.elements = some []) :
    Tk_BindtagsObjCmd st clientData [cmd, name, arg] =
      some ⟨TclCode.TCL_OK, none, clearTags st winPtr win⟩ := by
  have hclear := clear_step hwin hcons
  simp only [ne_eq, ite_not] at hclear
  simp [Tk_BindtagsObjCmd, hname, hwin, hclear, harg]

theorem replace_fails {st : TkState} {clientData : Option Nat} (cmd : Tcl_Obj)
    {name arg : Tcl_Obj}
    {winPtr : Nat} {win : TkWindow}
    (hname : Tk_NameToWindow st name.bytes clientData = some (some winPtr))
    (hwin : st.windows[winPtr]? = some win) (hcons : TagsConsistent win)
    (harg : arg.elements = none) :
    Tk_BindtagsObjCmd st clientData [cmd, name, arg] =
      some ⟨TclCode.TCL_ERROR, none, clearTags st winPtr win⟩ := by
  have hclear := clear_step hwin hcons
  simp only [ne_eq, ite_not] at hclear
  simp [Tk_BindtagsObjCmd, hname, hwin, hclear, harg]

/-! ## Claims about the default tags -/

theorem topChain_flagged {ws : List TkWindow} {w : Nat} {win : TkWindow} {l : List Nat}
    {r : Option Nat} (h : TopChain ws (some w) l r) (hwin : ws[w]? = some win)
    (hflag : Tk_TopWinHierarchy win = true) : r = some w := by
  cases h with
  | top _ tw hw hf => rfl
  | up _ tw _ _ hw hf _ =>
    rw [hwin] at hw; cases hw; rw [hflag] at hf; cases hf

theorem topChain_unflagged_ne {ws : List TkWindow} {w t : Nat} {win : TkWindow} {l : List Nat}
    (h : TopChain ws (some w) l (some t)) (hwin : ws[w]? = some win)
    (hflag : Tk_TopWinHierarchy win = false) : w ≠ t := by
  intro heq
  subst heq
  obtain ⟨tw, htw, hf⟩ := topChain_result h w rfl
  rw [hwin] at htw; cases htw; rw [hflag] at hf; cases hf

theorem otherTop_cases {ws : List TkWindow} {w : Nat} {win : TkWindow} {l : List Nat}
    {r : Option Nat} (h : TopChain ws (some w) l r) (hwin : ws[w]? = some win) :
    (Tk_TopWinHierarchy win = true ∧ r = some w ∧ otherTop ws w r = none) ∨
    (Tk_TopWinHierarchy win = false ∧ r = none ∧ otherTop ws w r = none) ∨
    (Tk_TopWinHierarchy win = false ∧ ∃ t tw, r = some t ∧ w ≠ t ∧ ws[t]? = some tw ∧
      Tk_TopWinHierarchy tw = true ∧ otherTop ws w r = some tw) := by
  cases hflag : Tk_TopWinHierarchy win with
  | true =>
    have hr := topChain_flagged h hwin hflag
    subst hr
    exact Or.inl ⟨rfl, rfl, by simp [otherTop]⟩
  | false =>
    cases r with
    | none => exact Or.inr (Or.inl ⟨rfl, rfl, rfl⟩)
    | some t =>
      have hne := topChain_unflagged_ne h hwin hflag
      obtain ⟨tw, htw, hf⟩ := topChain_result h t rfl
      exact Or.inr (Or.inr ⟨rfl, t, tw, rfl, hne, htw, hf, by simp [otherTop, hne, htw]⟩)

/-- C1 (counterexample): the window `.x` has no explicit tags and is not a
hierarchy root, yet the query form of `bindtags` returns three elements for
it, not four: no window of its parent chain is a hierarchy root. -/
theorem bindtags_query_orphan_three :
    orphanState.windows[1]?.map Tk_TopWinHierarchy = some false ∧
    orphanState.windows[1]?.map TkWindow.numTags = some 0 ∧
    Tk_BindtagsObjCmd orphanState (some 0) [bindtagsWord, pathArg ".x"]
      = some ⟨TclCode.TCL_OK, some [".x", "Frame", "all"], orphanState⟩ ∧
    ¬ ∃ top : String, Tk_BindtagsObjCmd orphanState (some 0) [bindtagsWord, pathArg ".x"]
      = some ⟨TclCode.TCL_OK, some [".x", "Frame", top, "all"], orphanState⟩ := by
  refine ⟨by decide, by decide, by decide, ?_⟩
  rintro ⟨top, h⟩
  have h3 : Tk_BindtagsObjCmd orphanState (some 0) [bindtagsWord, pathArg ".x"]
      = some ⟨TclCode.TCL_OK, some [".x", "Frame", "all"], orphanState⟩ := by decide
  rw [h3] at h
  simp at h

/-- C1 (amended): for a window without explicit tags whose parent chain ends,
the query form of `bindtags` succeeds, leaves the state alone and returns a
list whose last element is `all`: `[path, class, all]` when the window is a
hierarchy root or no window of its parent chain is one, and
`[path, class, path of the nearest hierarchy root above it, all]` when the
window is not a hierarchy root and such an ancestor exists. -/
theorem bindtags_query_default_tags (st : TkState) (clientData : Option Nat)
    (cmd name : Tcl_Obj) (winPtr : Nat) (win : TkWindow) (l : List Nat) (r : Option Nat)
    (hname : Tk_NameToWindow st name.bytes clientData = some (some winPtr))
    (hwin : st.windows[winPtr]? = some win) (hnum : win.numTags = 0)
    (hchain : TopChain st.windows (some winPtr) l r) :
    ∃ L, Tk_BindtagsObjCmd st clientData [cmd, name] = some ⟨TclCode.TCL_OK, some L, st⟩ ∧
      L.getLast? = some "all" ∧
      (Tk_TopWinHierarchy win = true → L = [win.pathName.text, win.classUid.text, "all"]) ∧
      (r = none → L = [win.pathName.text, win.classUid.text, "all"]) ∧
      (∀ t tw, Tk_TopWinHierarchy win = false → r = some t → st.windows[t]? = some tw →
        L = [win.pathName.text, win.classUid.text, tw.pathName.text, "all"]) := by
  refine ⟨_, query_default cmd hname hwin hnum hchain, ?_⟩
  rcases otherTop_cases hchain hwin with ⟨hf, hr, ho⟩ | ⟨hf, hr, ho⟩ | ⟨hf, t, tw, hr, hne, htw, _, ho⟩
  · rw [ho]
    refine ⟨rfl, fun _ => rfl, fun h => ?_, fun t tw h => ?_⟩
    · rw [hr] at h; cases h
    · rw [hf] at h; cases h
  · rw [ho]
    exact ⟨rfl, fun _ => rfl, fun _ => rfl, fun t tw _ h => by rw [hr] at h; cases h⟩
  · rw [ho]
    refine ⟨rfl, fun h => ?_, fun h => ?_, fun t2 tw2 _ h2 htw2 => ?_⟩
    · rw [hf] at h; cases h
    · rw [hr] at h; cases h
    · rw [hr] at h2; cases h2
      rw [htw] at htw2; cases htw2
      rfl

/-- C1 (witness): the button `.top.btn` of class `Button` inside the top-level
`.top` yields `.top.btn Button .top all`. -/
theorem bindtags_query_default_tags_witness :
    Tk_NameToWindow demoState (pathArg ".top.btn").bytes (some 0) = some (some 2) ∧
    TopChain demoState.windows (some 2) [2, 1] (some 1) ∧
    Tk_BindtagsObjCmd demoState (some 0) [bindtagsWord, pathArg ".top.btn"]
      = some ⟨TclCode.TCL_OK, some [".top.btn", "Button", ".top", "all"], demoState⟩ := by
  have hchain : TopChain demoState.windows (some 2) [2, 1] (some 1) :=
    TopChain.up 2 demoBtn [1] (some 1) rfl (by decide) (TopChain.top 1 demoTop rfl (by decide))
  refine ⟨by decide, hchain, ?_⟩
  obtain ⟨L, hL, _, _, _, h4⟩ :=
    bindtags_query_default_tags demoState (some 0) bindtagsWord (pathArg ".top.btn") 2 demoBtn
      [2, 1] (some 1) (by decide) rfl rfl hchain
  rw [hL, h4 1 demoTop (by decide) rfl rfl]
  rfl

/-! ## Claims about replacing the tags -/

theorem consistent_of_holds {win : TkWindow} {cs : List CStr} (hold : HoldsTags win cs)
    (hne : cs ≠ []) : TagsConsistent win := by
  unfold TagsConsistent
  rw [hold.1]
  refine ⟨by rw [hold.2, List.length_map], ?_, ?_⟩
  · rw [hold.2]; exact fun h => hne (List.length_eq_zero.mp h)
  · intro p hp
    obtain ⟨c, _, hc⟩ := List.mem_map.mp hp
    rw [← hc]; exact Option.some_ne_none c

theorem topChain_set {ws : List TkWindow} {winPtr : Nat} {win win2 : TkWindow}
    (hwin : ws[winPtr]? = some win) (hflags : win2.flags = win.flags)
    (hparent : win2.parentPtr = win.parentPtr) {p : Option Nat} {l : List Nat}
    {r : Option Nat} (h : TopChain ws p l r) : TopChain (ws.set winPtr win2) p l r := by
  have hlt := (List.getElem?_eq_some.mp hwin).1
  have hflag2 : Tk_TopWinHierarchy win2 = Tk_TopWinHierarchy win := by
    simp [Tk_TopWinHierarchy, hflags]
  induction h with
  | null => exact TopChain.null
  | top t tw hw hf =>
    by_cases ht : winPtr = t
    · subst ht
      rw [hwin] at hw; cases hw
      exact TopChain.top winPtr win2 (by simp [List.getElem?_set, hlt]) (by rw [hflag2, hf])
    · exact TopChain.top t tw (by simp [List.getElem?_set, ht, hw]) hf
  | up t tw l r hw hf _ ih =>
    by_cases ht : winPtr = t
    · subst ht
      rw [hwin] at hw; cases hw
      exact TopChain.up winPtr win2 l r (by simp [List.getElem?_set, hlt]) (by rw [hflag2, hf])
        (by rw [hparent]; exact ih)
    · exact TopChain.up t tw l r (by simp [List.getElem?_set, ht, hw]) hf ih

theorem otherTop_set {ws : List TkWindow} (winPtr : Nat) (win2 : TkWindow) (r : Option Nat) :
    otherTop (ws.set winPtr win2) winPtr r = otherTop ws winPtr r := by
  cases r with
  | none => rfl
  | some t =>
    by_cases ht : winPtr = t
    · simp [otherTop, ht]
    · simp [otherTop, ht, List.getElem?_set]

theorem installTags_windows (st : TkState) (winPtr : Nat) (win win0 : TkWindow)
    (tags : List String) :
    (installTags (clearTags st winPtr win) winPtr win0 tags).windows
      = st.windows.set winPtr { win0 with
          numTags := tags.length
          tagPtr := some ((storedTags tags st.nextBlock).1.map some) } := by
  simp [installTags, clearTags, List.set_set]

theorem installTags_window {st : TkState} {winPtr : Nat} {win : TkWindow} (win0 : TkWindow)
    (hwin : st.windows[winPtr]? = some win) (tags : List String) :
    (installTags (clearTags st winPtr win) winPtr win0 tags).windows[winPtr]?
      = some { win0 with
          numTags := tags.length
          tagPtr := some ((storedTags tags st.nextBlock).1.map some) } := by
  have hlt := (List.getElem?_eq_some.mp hwin).1
  simp [installTags, clearTags, List.getElem?_set, hlt]

theorem clearTags_of_none {st : TkState} {winPtr : Nat} {win : TkWindow}
    (hwin : st.windows[winPtr]? = some win) (htp : win.tagPtr = none)
    (hnum : win.numTags = 0) : clearTags st winPtr win = st := by
  have hsame : ({ win with numTags := 0, tagPtr := none } : TkWindow) = win := by
    cases win; simp_all
  simp [clearTags, heldTags, htp, hsame, set_self _ _ _ hwin]

/-- C2: round trip.  For every window with a consistent tag state and every
non-empty list of tag texts, the replace form of `bindtags` succeeds and the
query form that follows returns exactly the texts given, in order. -/
theorem bindtags_replace_then_query (st : TkState) (clientData : Option Nat)
    (cmd name arg : Tcl_Obj) (winPtr : Nat) (win : TkWindow) (tags : List String)
    (hname : Tk_NameToWindow st name.bytes clientData = some (some winPtr))
    (hwin : st.windows[winPtr]? = some win) (hcons : TagsConsistent win)
    (harg : arg.elements = some tags) (hne : tags ≠ []) :
    ∃ st2, Tk_BindtagsObjCmd st clientData [cmd, name, arg]
        = some ⟨TclCode.TCL_OK, none, st2⟩ ∧
      Tk_BindtagsObjCmd st2 clientData [cmd, name]
        = some ⟨TclCode.TCL_OK, some tags, st2⟩ := by
  refine ⟨_, replace_stores cmd hname hwin hcons harg hne, ?_⟩
  have hw2 := installTags_window { win with numTags := 0, tagPtr := none } hwin tags
  have hname2 : Tk_NameToWindow
      (installTags (clearTags st winPtr win) winPtr { win with numTags := 0, tagPtr := none } tags)
      name.bytes clientData = some (some winPtr) := by
    rw [← hname]
    exact @nameToWindow_set st
      (installTags (clearTags st winPtr win) winPtr { win with numTags := 0, tagPtr := none } tags)
      winPtr win _ hwin rfl
      (installTags_windows st winPtr win { win with numTags := 0, tagPtr := none } tags) rfl _ _
  have hold : HoldsTags
      { win with numTags := tags.length
                 tagPtr := some ((storedTags tags st.nextBlock).1.map some) }
      (storedTags tags st.nextBlock).1 := by
    refine ⟨rfl, ?_⟩
    have := congrArg List.length (storedTags_text tags st.nextBlock)
    simpa using this.symm
  have hne2 : (storedTags tags st.nextBlock).1 ≠ [] := by
    intro h
    have := storedTags_text tags st.nextBlock
    rw [h] at this
    exact hne this.symm
  have hq := query_explicit cmd hname2 hw2 hold hne2
  rw [storedTags_text] at hq
  exact hq

/-- C2 (witness): `bindtags .top.btn {Button all}` followed by the query gives
`Button all`, here on a window that held four other tags before. -/
theorem bindtags_replace_then_query_witness :
    Tk_NameToWindow taggedState (pathArg ".top.btn").bytes (some 0) = some (some 2) ∧
    (∃ win, taggedState.windows[2]? = some win ∧ TagsConsistent win) ∧
    ∃ st2, Tk_BindtagsObjCmd taggedState (some 0)
        [bindtagsWord, pathArg ".top.btn", listArg "Button all" ["Button", "all"]]
        = some ⟨TclCode.TCL_OK, none, st2⟩ ∧
      Tk_BindtagsObjCmd st2 (some 0) [bindtagsWord, pathArg ".top.btn"]
        = some ⟨TclCode.TCL_OK, some ["Button", "all"], st2⟩ :=
  ⟨by decide, ⟨_, rfl, by decide⟩,
    bindtags_replace_then_query taggedState (some 0) bindtagsWord (pathArg ".top.btn")
      (listArg "Button all" ["Button", "all"]) 2 _ ["Button", "all"]
      (by decide) rfl (by decide) rfl (by decide)⟩

/-- C3: for a window that holds explicit tags, the replace form of `bindtags`
with an empty list succeeds and leaves the window without tags (`numTags` 0,
`tagPtr` `NULL`); the same empty replacement applied again succeeds and leaves
the state as it is; and the query that follows returns the default tags (for
a window whose parent chain ends, as the default rule needs). -/
theorem bindtags_empty_list_reverts (st : TkState) (clientData : Option Nat)
    (cmd name arg : Tcl_Obj) (winPtr : Nat) (win : TkWindow) (cs : List CStr)
    (hname : Tk_NameToWindow st name.bytes clientData = some (some winPtr))
    (hwin : st.windows[winPtr]? = some win) (hold : HoldsTags win cs) (hne : cs ≠ [])
    (harg : arg.elements = some []) :
    ∃ st2, Tk_BindtagsObjCmd st clientData [cmd, name, arg]
        = some ⟨TclCode.TCL_OK, none, st2⟩ ∧
      st2.windows[winPtr]? = some { win with numTags := 0, tagPtr := none } ∧
      Tk_BindtagsObjCmd st2 clientData [cmd, name, arg]
        = some ⟨TclCode.TCL_OK, none, st2⟩ ∧
      ∀ (l : List Nat) (r : Option Nat), TopChain st.windows (some winPtr) l r →
        Tk_BindtagsObjCmd st2 clientData [cmd, name]
          = some ⟨TclCode.TCL_OK, some (defaultTexts win (otherTop st.windows winPtr r)), st2⟩ := by
  have hcons := consistent_of_holds hold hne
  have hw2 := clearTags_window hwin
  have hname2 : Tk_NameToWindow (clearTags st winPtr win) name.bytes clientData
      = some (some winPtr) := by
    rw [← hname]
    exact @nameToWindow_set st (clearTags st winPtr win) winPtr win _ hwin rfl rfl rfl _ _
  have hcons2 : TagsConsistent ({ win with numTags := 0, tagPtr := none } : TkWindow) := by
    simp [TagsConsistent]
  refine ⟨_, replace_clears cmd hname hwin hcons harg, hw2, ?_, ?_⟩
  · have hr := replace_clears cmd hname2 hw2 hcons2 harg
    rw [hr, clearTags_of_none hw2 rfl rfl]
  · intro l r hchain
    have hchain2 : TopChain (clearTags st winPtr win).windows (some winPtr) l r :=
      @topChain_set st.windows winPtr win { win with numTags := 0, tagPtr := none } hwin rfl rfl
        _ _ _ hchain
    have hq := query_default cmd hname2 hw2 rfl hchain2
    rw [hq]
    simp [clearTags, otherTop_set, defaultTexts]

/-- C3 (witness): the button that holds four tags is reset by `bindtags
.top.btn {}`; the query that follows returns `.top.btn Button .top all`. -/
theorem bindtags_empty_list_reverts_witness :
    Tk_NameToWindow taggedState (pathArg ".top.btn").bytes (some 0) = some (some 2) ∧
    ∃ st2, Tk_BindtagsObjCmd taggedState (some 0) [bindtagsWord, pathArg ".top.btn", listArg "" []]
        = some ⟨TclCode.TCL_OK, none, st2⟩ ∧
      st2.windows[2]? = some demoBtn ∧
      Tk_BindtagsObjCmd st2 (some 0) [bindtagsWord, pathArg ".top.btn", listArg "" []]
        = some ⟨TclCode.TCL_OK, none, st2⟩ ∧
      Tk_BindtagsObjCmd st2 (some 0) [bindtagsWord, pathArg ".top.btn"]
        = some ⟨TclCode.TCL_OK, some [".top.btn", "Button", ".top", "all"], st2⟩ := by
  have hchain : TopChain taggedState.windows (some 2) [2, 1] (some 1) :=
    TopChain.up 2 _ [1] (some 1) rfl (by decide) (TopChain.top 1 demoTop rfl (by decide))
  obtain ⟨st2, h1, h2, h3, h4⟩ :=
    bindtags_empty_list_reverts taggedState (some 0) bindtagsWord (pathArg ".top.btn")
      (listArg "" []) 2 _ demoTags (by decide) rfl ⟨rfl, rfl⟩ (by decide) rfl
  exact ⟨by decide, st2, h1, h2, h3, h4 [2, 1] (some 1) hchain⟩

/-- C10 (counterexample): the button holds the four tags `Button .top .gone
all`; `bindtags .top.btn "\x7b"`, whose list argument is no list, fails with
`TCL_ERROR`, and afterwards the button holds no tags, so its tag list is not
the one it had before the call. -/
theorem bindtags_malformed_list_drops_tags :
    malformedArg.elements = none ∧
    taggedState.windows[2]?.map TkWindow.numTags = some 4 ∧
    Tk_BindtagsObjCmd taggedState (some 0) [bindtagsWord, pathArg ".top.btn", malformedArg]
      = some ⟨TclCode.TCL_ERROR, none,
          ⟨demoWindows, [demoMain], 1002, [CStr.mem 1001 ".gone", CStr.mem 1000 ".top"]⟩⟩ ∧
    demoWindows[2]?.map TkWindow.numTags = some 0 ∧
    demoWindows[2]?.map TkWindow.tagPtr = some none ∧
    demoWindows[2]? ≠ taggedState.windows[2]? :=
  ⟨rfl, by decide, by decide, by decide, by decide, by decide⟩

/-- C10 (amended): a replace form of `bindtags` whose list argument cannot be
parsed as a list returns `TCL_ERROR` and leaves the window named without
explicit tags (`numTags` 0, `tagPtr` `NULL`): the old tags are released before
the argument is parsed, those that start with a dot going to `ckfree`.  Every
other window is as it was, the query that follows returns the default tags
(for a window whose parent chain ends), and the window is as it was before
the call exactly when it had no explicit tags. -/
theorem bindtags_malformed_list_releases (st : TkState) (clientData : Option Nat)
    (cmd name arg : Tcl_Obj) (winPtr : Nat) (win : TkWindow)
    (hname : Tk_NameToWindow st name.bytes clientData = some (some winPtr))
    (hwin : st.windows[winPtr]? = some win) (hcons : TagsConsistent win)
    (harg : arg.elements = none) :
    ∃ st2, Tk_BindtagsObjCmd st clientData [cmd, name, arg]
        = some ⟨TclCode.TCL_ERROR, none, st2⟩ ∧
      st2.windows[winPtr]? = some { win with numTags := 0, tagPtr := none } ∧
      st2.freeLog
        = ((heldTags win).filter (fun c => startsWithDot c.text)).reverse ++ st.freeLog ∧
      (∀ V : Nat, V ≠ winPtr → st2.windows[V]? = st.windows[V]?) ∧
      (st2.windows[winPtr]? = st.windows[winPtr]? ↔ win.numTags = 0) ∧
      ∀ (l : List Nat) (r : Option Nat), TopChain st.windows (some winPtr) l r →
        Tk_BindtagsObjCmd st2 clientData [cmd, name]
          = some ⟨TclCode.TCL_OK, some (defaultTexts win (otherTop st.windows winPtr r)),
              st2⟩ := by
  have hw2 := clearTags_window hwin
  have hname2 : Tk_NameToWindow (clearTags st winPtr win) name.bytes clientData
      = some (some winPtr) := by
    rw [← hname]
    exact @nameToWindow_set st (clearTags st winPtr win) winPtr win _ hwin rfl rfl rfl _ _
  refine ⟨_, replace_fails cmd hname hwin hcons harg, hw2, rfl, ?_, ?_, ?_⟩
  · intro V hV
    have hne : winPtr ≠ V := fun h => hV h.symm
    simp [clearTags, List.getElem?_set, hne]
  · rw [hw2, hwin]
    constructor
    · intro h
      have h2 := congrArg TkWindow.numTags (Option.some.inj h)
      exact h2.symm
    · intro hnum
      rcases consistent_cases hcons with ⟨htp, _⟩ | ⟨cs, hne, hold⟩
      · have hsame : ({ win with numTags := 0, tagPtr := none } : TkWindow) = win := by
          cases win; simp_all
        rw [hsame]
      · exfalso
        rw [hold.2] at hnum
        exact hne (List.length_eq_zero.mp hnum)
  · intro l r hchain
    have hchain2 : TopChain (clearTags st winPtr win).windows (some winPtr) l r :=
      @topChain_set st.windows winPtr win { win with numTags := 0, tagPtr := none } hwin rfl rfl
        _ _ _ hchain
    have hq := query_default cmd hname2 hw2 rfl hchain2
    rw [hq]
    simp [clearTags, otherTop_set, defaultTexts]

/-- C10 (witness): the button that holds four tags is left without tags by
`bindtags .top.btn "\x7b"`; the query that follows returns `.top.btn Button
.top all`. -/
theorem bindtags_malformed_list_releases_witness :
    Tk_NameToWindow taggedState (pathArg ".top.btn").bytes (some 0) = some (some 2) ∧
    malformedArg.elements = none ∧
    ∃ st2, Tk_BindtagsObjCmd taggedState (some 0)
        [bindtagsWord, pathArg ".top.btn", malformedArg]
        = some ⟨TclCode.TCL_ERROR, none, st2⟩ ∧
      st2.windows[2]? = some demoBtn ∧
      Tk_BindtagsObjCmd st2 (some 0) [bindtagsWord, pathArg ".top.btn"]
        = some ⟨TclCode.TCL_OK, some [".top.btn", "Button", ".top", "all"], st2⟩ := by
  have hchain : TopChain taggedState.windows (some 2) [2, 1] (some 1) :=
    TopChain.up 2 _ [1] (some 1) rfl (by decide) (TopChain.top 1 demoTop rfl (by decide))
  obtain ⟨st2, h1, h2, _, _, _, h6⟩ :=
    bindtags_malformed_list_releases taggedState (some 0) bindtagsWord (pathArg ".top.btn")
      malformedArg 2 _ (by decide) rfl (by decide) rfl
  exact ⟨by decide, rfl, st2, h1, h2, h6 [2, 1] (some 1) hchain⟩

/-! ## Claims about the default dispatch list -/

/-- C4: query and dispatch agree on the defaults.  For a window without
explicit tags, with a main info and a binding table, whose parent chain ends,
`TkBindEventProc` calls `Tk_BindEvent` once with a list of as many objects as
the query form of `bindtags` returns elements, and every object is a string
pointer whose text is the element of the query result at the same index. -/
theorem dispatch_default_matches_query (st : TkState) (clientData : Option Nat)
    (cmd name : Tcl_Obj) (winPtr eventPtr mi table : Nat) (win : TkWindow)
    (main : TkMainInfo) (l : List Nat) (r : Option Nat)
    (hname : Tk_NameToWindow st name.bytes clientData = some (some winPtr))
    (hwin : st.windows[winPtr]? = some win) (hmain : win.mainPtr = some mi)
    (hinfo : st.mainInfos[mi]? = some main) (htable : main.bindingTable = some table)
    (hnum : win.numTags = 0) (hchain : TopChain st.windows (some winPtr) l r) :
    ∃ (call : BindEventCall) (L : List String),
      TkBindEventProc st winPtr eventPtr = some ⟨[call], none, false⟩ ∧
      Tk_BindtagsObjCmd st clientData [cmd, name] = some ⟨TclCode.TCL_OK, some L, st⟩ ∧
      call.numObjects = L.length ∧ call.objectPtr.length = L.length ∧
      call.objectPtr.map (Option.map CStr.text) = L.map some ∧
      ∀ i, i < L.length →
        ∃ c, call.objectPtr[i]? = some (some c) ∧ L[i]? = some c.text := by
  refine ⟨_, _, dispatch_default eventPtr hwin hmain hinfo htable hnum hchain,
    query_default cmd hname hwin hnum hchain, ?_⟩
  cases otherTop st.windows winPtr r with
  | none =>
    refine ⟨rfl, rfl, rfl, ?_⟩
    intro i hi
    simp only [defaultTexts, List.length_cons, List.length_nil] at hi
    have h3 : i = 0 ∨ i = 1 ∨ i = 2 := by omega
    rcases h3 with h | h | h <;> subst h
    · exact ⟨win.pathName, rfl, rfl⟩
    · exact ⟨win.classUid, rfl, rfl⟩
    · exact ⟨Tk_GetUid "all", rfl, rfl⟩
  | some tw =>
    refine ⟨rfl, rfl, rfl, ?_⟩
    intro i hi
    simp only [defaultTexts, List.length_cons, List.length_nil] at hi
    have h4 : i = 0 ∨ i = 1 ∨ i = 2 ∨ i = 3 := by omega
    rcases h4 with h | h | h | h <;> subst h
    · exact ⟨win.pathName, rfl, rfl⟩
    · exact ⟨win.classUid, rfl, rfl⟩
    · exact ⟨tw.pathName, rfl, rfl⟩
    · exact ⟨Tk_GetUid "all", rfl, rfl⟩

/-- C4 (witness): for the button `.top.btn` both lists have four entries. -/
theorem dispatch_default_matches_query_witness :
    Tk_NameToWindow demoState (pathArg ".top.btn").bytes (some 0) = some (some 2) ∧
    TopChain demoState.windows (some 2) [2, 1] (some 1) ∧
    ∃ (call : BindEventCall) (L : List String),
      TkBindEventProc demoState 2 5 = some ⟨[call], none, false⟩ ∧
      Tk_BindtagsObjCmd demoState (some 0) [bindtagsWord, pathArg ".top.btn"]
        = some ⟨TclCode.TCL_OK, some L, demoState⟩ ∧
      call.numObjects = L.length ∧ call.objectPtr.length = L.length ∧
      call.objectPtr.map (Option.map CStr.text) = L.map some ∧
      ∀ i, i < L.length →
        ∃ c, call.objectPtr[i]? = some (some c) ∧ L[i]? = some c.text := by
  have hchain : TopChain demoState.windows (some 2) [2, 1] (some 1) :=
    TopChain.up 2 demoBtn [1] (some 1) rfl (by decide) (TopChain.top 1 demoTop rfl (by decide))
  exact ⟨by decide, hchain,
    dispatch_default_matches_query demoState (some 0) bindtagsWord (pathArg ".top.btn")
      2 5 0 7 demoBtn demoMain [2, 1] (some 1) (by decide) rfl rfl rfl rfl rfl hchain⟩

/-- C5: for a window without explicit tags (with a main info and a binding
table, and a parent chain that ends) `TkBindEventProc` calls `Tk_BindEvent`
once, from the inline buffer, with 3 or 4 objects: slot 0 is the path name of
the window, slot 1 its class uid, the last slot the uid of `all`.  There are 4
objects exactly when the window is not a hierarchy root and the walk up its
parents finds one, and then slot 2 is the path name of that nearest hierarchy
root; there are 3 exactly when the window is a hierarchy root itself or no
window of its parent chain is one. -/
theorem dispatch_default_list (st : TkState) (winPtr eventPtr mi table : Nat)
    (win : TkWindow) (main : TkMainInfo) (l : List Nat) (r : Option Nat)
    (hwin : st.windows[winPtr]? = some win) (hmain : win.mainPtr = some mi)
    (hinfo : st.mainInfos[mi]? = some main) (htable : main.bindingTable = some table)
    (hnum : win.numTags = 0) (hchain : TopChain st.windows (some winPtr) l r) :
    ∃ (count : Nat) (objs : List (Option CStr)),
      TkBindEventProc st winPtr eventPtr
        = some ⟨[⟨table, eventPtr, winPtr, count, objs⟩], none, false⟩ ∧
      (count = 3 ∨ count = 4) ∧ objs.length = count ∧
      objs[0]? = some (some win.pathName) ∧
      objs[1]? = some (some win.classUid) ∧
      objs[count - 1]? = some (some (Tk_GetUid "all")) ∧
      (count = 4 ↔ (Tk_TopWinHierarchy win = false ∧ ∃ t, r = some t)) ∧
      (count = 3 ↔ (Tk_TopWinHierarchy win = true ∨ r = none)) ∧
      (∀ t tw, Tk_TopWinHierarchy win = false → r = some t → st.windows[t]? = some tw →
        Tk_TopWinHierarchy tw = true ∧ objs[2]? = some (some tw.pathName)) := by
  refine ⟨_, _, dispatch_default eventPtr hwin hmain hinfo htable hnum hchain, ?_⟩
  rcases otherTop_cases hchain hwin with ⟨hf, hr, ho⟩ | ⟨hf, hr, ho⟩ | ⟨hf, t, tw, hr, hne, htw, hft, ho⟩
  · rw [ho]
    refine ⟨Or.inl rfl, rfl, rfl, rfl, rfl, ?_, ?_, ?_⟩
    · simp [defaultObjects, hf]
    · simp [defaultObjects, hf]
    · intro t tw h; rw [hf] at h; cases h
  · rw [ho]
    refine ⟨Or.inl rfl, rfl, rfl, rfl, rfl, ?_, ?_, ?_⟩
    · simp [defaultObjects, hr]
    · simp [defaultObjects, hr]
    · intro t tw _ h; rw [hr] at h; cases h
  · rw [ho]
    refine ⟨Or.inr rfl, rfl, rfl, rfl, rfl, ?_, ?_, ?_⟩
    · simp [defaultObjects, hf, hr]
    · simp [defaultObjects, hf, hr]
    · intro t2 tw2 _ h2 htw2
      rw [hr] at h2; cases h2
      rw [htw] at htw2; cases htw2
      exact ⟨hft, rfl⟩

/-- C5 (witness): the button `.top.btn` inside the top-level `.top`. -/
theorem dispatch_default_list_witness :
    TopChain demoState.windows (some 2) [2, 1] (some 1) ∧
    ∃ (count : Nat) (objs : List (Option CStr)),
      TkBindEventProc demoState 2 5 = some ⟨[⟨7, 5, 2, count, objs⟩], none, false⟩ ∧
      (count = 3 ∨ count = 4) ∧ objs.length = count ∧
      objs[0]? = some (some demoBtn.pathName) ∧
      objs[1]? = some (some demoBtn.classUid) ∧
      objs[count - 1]? = some (some (Tk_GetUid "all")) ∧
      (count = 4 ↔ (Tk_TopWinHierarchy demoBtn = false ∧ ∃ t, some 1 = some t)) ∧
      (count = 3 ↔ (Tk_TopWinHierarchy demoBtn = true ∨ some 1 = none)) ∧
      (∀ t tw, Tk_TopWinHierarchy demoBtn = false → some 1 = some t →
        demoState.windows[t]? = some tw →
        Tk_TopWinHierarchy tw = true ∧ objs[2]? = some (some tw.pathName)) := by
  have hchain : TopChain demoState.windows (some 2) [2, 1] (some 1) :=
    TopChain.up 2 demoBtn [1] (some 1) rfl (by decide) (TopChain.top 1 demoTop rfl (by decide))
  exact ⟨hchain,
    dispatch_default_list demoState 2 5 0 7 demoBtn demoMain [2, 1] (some 1)
      rfl rfl rfl rfl rfl hchain⟩

/-! ## Claims about the dispatch of explicit tags -/

theorem resolved_at {st : TkState} {main : TkMainInfo} {cs : List CStr}
    {qs : List (Option CStr)} (hres : cs.map (resolveTag st main) = qs.map some)
    {i : Nat} {c : CStr} (hi : cs[i]? = some c) :
    ∃ q, qs[i]? = some q ∧ resolveTag st main c = some q := by
  have h := congrArg (fun xs => xs[i]?) hres
  simp only [List.getElem?_map, hi, Option.map_some'] at h
  cases hq : qs[i]? with
  | none => rw [hq] at h; cases h
  | some q =>
    rw [hq] at h
    simp only [Option.map_some', Option.some.injEq] at h
    exact ⟨q, rfl, h⟩

theorem dispatch_slots {st : TkState} {winPtr : Nat} (eventPtr : Nat) {mi table : Nat}
    {win : TkWindow} {main : TkMainInfo} {cs : List CStr}
    (hwin : st.windows[winPtr]? = some win) (hmain : win.mainPtr = some mi)
    (hinfo : st.mainInfos[mi]? = some main) (htable : main.bindingTable = some table)
    (hold : HoldsTags win cs) (hne : cs ≠ []) (hvalid : NameTableValid st main) :
    ∃ (qs : List (Option CStr)) (heap : Option Nat) (freed : Bool),
      TkBindEventProc st winPtr eventPtr
        = some ⟨[⟨table, eventPtr, winPtr, cs.length, qs⟩], heap, freed⟩ ∧
      qs.length = cs.length ∧
      ∀ (i : Nat) (c : CStr), cs[i]? = some c → ∃ q, qs[i]? = some q ∧ resolveTag st main c = some q := by
  obtain ⟨qs, hres⟩ := resolveTag_total hvalid cs
  refine ⟨qs, _, _, dispatch_explicit eventPtr hwin hmain hinfo htable hold hne hres, ?_,
    fun i c hi => resolved_at hres hi⟩
  have := congrArg List.length hres
  simpa using this.symm

theorem ne_nil_of_getElem? {α : Type} {cs : List α} {i : Nat} {c : α} (hi : cs[i]? = some c) :
    cs ≠ [] := by
  intro h; subst h; simp at hi

/-- C6: for a window with explicit tags and a slot `i` whose stored tag text
starts with a dot, if the name table in force at dispatch maps that text to
the window `target`, then slot `i` of the list `TkBindEventProc` hands to
`Tk_BindEvent` is the path name pointer of `target`: the window the table
holds now, whichever window that is. -/
theorem dispatch_path_tag_resolves (st : TkState) (winPtr eventPtr mi table : Nat)
    (win : TkWindow) (main : TkMainInfo) (cs : List CStr) (i : Nat) (c : CStr)
    (v : Nat) (target : TkWindow)
    (hwin : st.windows[winPtr]? = some win) (hmain : win.mainPtr = some mi)
    (hinfo : st.mainInfos[mi]? = some main) (htable : main.bindingTable = some table)
    (hold : HoldsTags win cs) (hvalid : NameTableValid st main)
    (hi : cs[i]? = some c) (hdot : startsWithDot c.text = true)
    (hlook : main.nameTable.lookup c.text = some v) (hv : st.windows[v]? = some target) :
    ∃ (call : BindEventCall) (heap : Option Nat) (freed : Bool),
      TkBindEventProc st winPtr eventPtr = some ⟨[call], heap, freed⟩ ∧
      call.objectPtr[i]? = some (some target.pathName) := by
  obtain ⟨qs, heap, freed, hcall, _, hslots⟩ :=
    dispatch_slots eventPtr hwin hmain hinfo htable hold (ne_nil_of_getElem? hi) hvalid
  obtain ⟨q, hq, hr⟩ := hslots i c hi
  refine ⟨_, heap, freed, hcall, ?_⟩
  simp [resolveTag, hdot, hlook, hv] at hr
  simp [hq, hr]

/-- C6 (witness): the tag `.top` of the button was assigned while the first
`.top` existed; once `.top` has been created anew as the window at index 3,
slot 1 of the dispatch list is the path name pointer of that new window. -/
theorem dispatch_path_tag_resolves_witness :
    NameTableValid recreatedState recreatedMain ∧
    demoTags[1]? = some (CStr.mem 1000 ".top") ∧
    recreatedMain.nameTable.lookup ".top" = some 3 ∧
    recreatedState.windows[3]? = some newTop ∧
    ∃ (call : BindEventCall) (heap : Option Nat) (freed : Bool),
      TkBindEventProc recreatedState 2 5 = some ⟨[call], heap, freed⟩ ∧
      call.objectPtr[1]? = some (some (CStr.mem 201 ".top")) :=
  ⟨by decide, rfl, by decide, rfl,
    dispatch_path_tag_resolves recreatedState 2 5 0 7 _ recreatedMain demoTags 1
      (CStr.mem 1000 ".top") 3 newTop rfl rfl rfl rfl ⟨rfl, rfl⟩ (by decide) rfl (by decide)
      (by decide) rfl⟩

/-- C7: stale references are tolerated.  For a window with explicit tags and
a slot `i` whose stored tag text starts with a dot, if the name table has no
entry for that text, then `TkBindEventProc` still calls `Tk_BindEvent` exactly
once, with as many objects as the window has tags; slot `i` is `NULL`, and
every slot holds the resolution of its own tag. -/
theorem dispatch_stale_tag_is_null (st : TkState) (winPtr eventPtr mi table : Nat)
    (win : TkWindow) (main : TkMainInfo) (cs : List CStr) (i : Nat) (c : CStr)
    (hwin : st.windows[winPtr]? = some win) (hmain : win.mainPtr = some mi)
    (hinfo : st.mainInfos[mi]? = some main) (htable : main.bindingTable = some table)
    (hold : HoldsTags win cs) (hvalid : NameTableValid st main)
    (hi : cs[i]? = some c) (hdot : startsWithDot c.text = true)
    (hlook : main.nameTable.lookup c.text = none) :
    ∃ (call : BindEventCall) (heap : Option Nat) (freed : Bool),
      TkBindEventProc st winPtr eventPtr = some ⟨[call], heap, freed⟩ ∧
      call.numObjects = cs.length ∧ call.objectPtr.length = cs.length ∧
      call.objectPtr[i]? = some none ∧
      ∀ (j : Nat) (d : CStr), cs[j]? = some d →
        ∃ q, call.objectPtr[j]? = some q ∧ resolveTag st main d = some q := by
  obtain ⟨qs, heap, freed, hcall, hlen, hslots⟩ :=
    dispatch_slots eventPtr hwin hmain hinfo htable hold (ne_nil_of_getElem? hi) hvalid
  obtain ⟨q, hq, hr⟩ := hslots i c hi
  refine ⟨_, heap, freed, hcall, rfl, hlen, ?_, hslots⟩
  simp [resolveTag, hdot, hlook] at hr
  simp [hq, hr]

/-- C7 (witness): the tag `.gone` of the button names no window; slot 2 of
the four objects dispatched is `NULL`. -/
theorem dispatch_stale_tag_is_null_witness :
    NameTableValid taggedState demoMain ∧
    demoTags[2]? = some (CStr.mem 1001 ".gone") ∧
    demoMain.nameTable.lookup ".gone" = none ∧
    ∃ (call : BindEventCall) (heap : Option Nat) (freed : Bool),
      TkBindEventProc taggedState 2 5 = some ⟨[call], heap, freed⟩ ∧
      call.numObjects = demoTags.length ∧ call.objectPtr.length = demoTags.length ∧
      call.objectPtr[2]? = some none ∧
      ∀ (j : Nat) (d : CStr), demoTags[j]? = some d →
        ∃ q, call.objectPtr[j]? = some q ∧ resolveTag taggedState demoMain d = some q :=
  ⟨by decide, rfl, by decide,
    dispatch_stale_tag_is_null taggedState 2 5 0 7 _ demoMain demoTags 2
      (CStr.mem 1001 ".gone") rfl rfl rfl rfl ⟨rfl, rfl⟩ (by decide) rfl (by decide)
      (by decide)⟩

/-- C8: for a window with explicit tags and a slot `i` whose stored tag text
does not start with a dot, slot `i` of the list `TkBindEventProc` hands to
`Tk_BindEvent` is the stored tag pointer itself, whatever the name table
holds. -/
theorem dispatch_symbol_tag_unchanged (st : TkState) (winPtr eventPtr mi table : Nat)
    (win : TkWindow) (main : TkMainInfo) (cs : List CStr) (i : Nat) (c : CStr)
    (hwin : st.windows[winPtr]? = some win) (hmain : win.mainPtr = some mi)
    (hinfo : st.mainInfos[mi]? = some main) (htable : main.bindingTable = some table)
    (hold : HoldsTags win cs) (hvalid : NameTableValid st main)
    (hi : cs[i]? = some c) (hdot : startsWithDot c.text = false) :
    ∃ (call : BindEventCall) (heap : Option Nat) (freed : Bool),
      TkBindEventProc st winPtr eventPtr = some ⟨[call], heap, freed⟩ ∧
      call.objectPtr[i]? = some (some c) := by
  obtain ⟨qs, heap, freed, hcall, _, hslots⟩ :=
    dispatch_slots eventPtr hwin hmain hinfo htable hold (ne_nil_of_getElem? hi) hvalid
  obtain ⟨q, hq, hr⟩ := hslots i c hi
  refine ⟨_, heap, freed, hcall, ?_⟩
  simp [resolveTag, hdot] at hr
  simp [hq, hr]

/-- C8 (witness): the tag `Button` of the button is dispatched as the uid
`Button`, although the name table is that of the recreated `.top`. -/
theorem dispatch_symbol_tag_unchanged_witness :
    NameTableValid recreatedState recreatedMain ∧
    demoTags[0]? = some (CStr.uid "Button") ∧
    startsWithDot (CStr.uid "Button").text = false ∧
    ∃ (call : BindEventCall) (heap : Option Nat) (freed : Bool),
      TkBindEventProc recreatedState 2 5 = some ⟨[call], heap, freed⟩ ∧
      call.objectPtr[0]? = some (some (CStr.uid "Button")) :=
  ⟨by decide, rfl, by decide,
    dispatch_symbol_tag_unchanged recreatedState 2 5 0 7 _ recreatedMain demoTags 0
      (CStr.uid "Button") rfl rfl rfl rfl ⟨rfl, rfl⟩ (by decide) rfl (by decide)⟩

/-- C9: the buffer strategy cannot be observed.  For a window that holds the
`n ≥ 1` explicit tags `cs`, each of which resolves (to the objects `qs`),
`TkBindEventProc` hands `Tk_BindEvent` the count `n` and exactly the list
`qs`, entry `i` being the resolution of tag `i`, both when `n ≤ 20` (inline
buffer, nothing allocated or freed) and when `n > 20` (a heap buffer of `n`
slots, freed after the call). -/
theorem dispatch_buffer_unobservable (st : TkState) (winPtr eventPtr mi table : Nat)
    (win : TkWindow) (main : TkMainInfo) (cs : List CStr) (qs : List (Option CStr))
    (hwin : st.windows[winPtr]? = some win) (hmain : win.mainPtr = some mi)
    (hinfo : st.mainInfos[mi]? = some main) (htable : main.bindingTable = some table)
    (hold : HoldsTags win cs) (hne : cs ≠ [])
    (hres : cs.map (resolveTag st main) = qs.map some) :
    ∃ (heap : Option Nat) (freed : Bool),
      TkBindEventProc st winPtr eventPtr
        = some ⟨[⟨table, eventPtr, winPtr, cs.length, qs⟩], heap, freed⟩ ∧
      qs.length = cs.length ∧
      (∀ (i : Nat) (c : CStr), cs[i]? = some c → ∃ q, qs[i]? = some q ∧ resolveTag st main c = some q) ∧
      (cs.length ≤ MAX_OBJS → heap = none ∧ freed = false) ∧
      (cs.length > MAX_OBJS → heap = some cs.length ∧ freed = true) := by
  refine ⟨_, _, dispatch_explicit eventPtr hwin hmain hinfo htable hold hne hres, ?_,
    fun i c hi => resolved_at hres hi, ?_, ?_⟩
  · have := congrArg List.length hres
    simpa using this.symm
  · intro hle
    have : ¬ cs.length > MAX_OBJS := Nat.not_lt.mpr hle
    simp [this]
  · intro hgt
    simp [hgt]

/-- C9 (witness): a list of 25 tags is dispatched as 25 objects in the order
of assignment, from a heap buffer of 25 slots. -/
theorem dispatch_buffer_unobservable_witness :
    manyTags.map (resolveTag manyState demoMain) = manyObjects.map some ∧
    ∃ (heap : Option Nat) (freed : Bool),
      TkBindEventProc manyState 2 5 = some ⟨[⟨7, 5, 2, 25, manyObjects⟩], heap, freed⟩ ∧
      manyObjects.length = manyTags.length ∧
      (∀ (i : Nat) (c : CStr), manyTags[i]? = some c →
        ∃ q, manyObjects[i]? = some q ∧ resolveTag manyState demoMain c = some q) ∧
      (manyTags.length ≤ MAX_OBJS → heap = none ∧ freed = false) ∧
      (manyTags.length > MAX_OBJS → heap = some manyTags.length ∧ freed = true) :=
  ⟨by decide,
    dispatch_buffer_unobservable manyState 2 5 0 7 manyBtn demoMain manyTags manyObjects
      rfl rfl rfl rfl ⟨rfl, rfl⟩ (by decide) (by decide)⟩

/-! ## Claims about failed calls and about releasing the tags -/

theorem readable_cases {win : TkWindow} (h : TagsReadable win) :
    (win.tagPtr = none ∧ win.numTags = 0) ∨ (∃ cs, HoldsTags win cs) := by
  unfold TagsReadable at h
  cases htp : win.tagPtr with
  | none => rw [htp] at h; exact Or.inl ⟨rfl, h⟩
  | some tags =>
    rw [htp] at h
    obtain ⟨hlen, hall⟩ := h
    obtain ⟨cs, hcs⟩ := all_some hall
    refine Or.inr ⟨cs, ?_, ?_⟩
    · rw [htp, hcs]
    · rw [← hlen, hcs, List.length_map]

theorem readable_of_consistent {win : TkWindow} (h : TagsConsistent win) : TagsReadable win := by
  unfold TagsConsistent at h
  unfold TagsReadable
  cases htp : win.tagPtr with
  | none => rw [htp] at h; exact h
  | some tags => rw [htp] at h; exact ⟨h.1, h.2.2⟩

theorem freeBindingTags_readable {st : TkState} {winPtr : Nat} {win : TkWindow}
    (hwin : st.windows[winPtr]? = some win) (hread : TagsReadable win) :
    TkFreeBindingTags st winPtr = some (clearTags st winPtr win) := by
  rcases readable_cases hread with ⟨htp, hnum⟩ | ⟨cs, hold⟩
  · simp [TkFreeBindingTags, hwin, hnum, forLoop, forFrom, clearTags, heldTags, htp]
  · exact freeBindingTags_holds hwin hold

/-- C11: a `bindtags` call with a wrong number of arguments (fewer than one
or more than two after the command word), or whose window argument names no
window, returns `TCL_ERROR` and leaves the whole state, and so the tag list
of every window, as it was. -/
theorem bindtags_bad_call_changes_nothing (st : TkState) (clientData : Option Nat)
    (objv : List Tcl_Obj)
    (hbad : (objv.length < 2 ∨ objv.length > 3) ∨
      ∃ name, objv[1]? = some name ∧ Tk_NameToWindow st name.bytes clientData = some none) :
    Tk_BindtagsObjCmd st clientData objv = some ⟨TclCode.TCL_ERROR, none, st⟩ := by
  by_cases hlen : objv.length < 2 ∨ objv.length > 3
  · simp [Tk_BindtagsObjCmd, hlen]
  · rcases hbad with h | ⟨name, hname, hnone⟩
    · exact absurd h hlen
    · simp [Tk_BindtagsObjCmd, hlen, hname, hnone]

/-- C11 (witness): `bindtags .nosuch {a b}` fails and the button keeps its
four tags. -/
theorem bindtags_bad_call_changes_nothing_witness :
    ([bindtagsWord, noSuchArg, listArg "a b" ["a", "b"]][1]? = some noSuchArg ∧
      Tk_NameToWindow taggedState noSuchArg.bytes (some 0) = some none) ∧
    Tk_BindtagsObjCmd taggedState (some 0) [bindtagsWord, noSuchArg, listArg "a b" ["a", "b"]]
      = some ⟨TclCode.TCL_ERROR, none, taggedState⟩ :=
  ⟨⟨rfl, by decide⟩,
    bindtags_bad_call_changes_nothing taggedState (some 0)
      [bindtagsWord, noSuchArg, listArg "a b" ["a", "b"]]
      (Or.inr ⟨noSuchArg, rfl, by decide⟩)⟩

/-- C12: for a window whose tag array holds `numTags` entries,
`TkFreeBindingTags` returns and leaves the window with `numTags` 0 and
`tagPtr` `NULL`; a query that follows returns the default tags and a dispatch
that follows hands over the default objects (for a window whose parent chain
ends, as the default rule needs). -/
theorem free_binding_tags_resets (st : TkState) (winPtr : Nat) (win : TkWindow)
    (hwin : st.windows[winPtr]? = some win) (hread : TagsReadable win) :
    ∃ st2, TkFreeBindingTags st winPtr = some st2 ∧
      st2.windows[winPtr]? = some { win with numTags := 0, tagPtr := none } ∧
      (∀ (clientData : Option Nat) (cmd name : Tcl_Obj) (l : List Nat) (r : Option Nat),
        Tk_NameToWindow st name.bytes clientData = some (some winPtr) →
        TopChain st.windows (some winPtr) l r →
        Tk_BindtagsObjCmd st2 clientData [cmd, name]
          = some ⟨TclCode.TCL_OK, some (defaultTexts win (otherTop st.windows winPtr r)), st2⟩) ∧
      (∀ (eventPtr mi table : Nat) (main : TkMainInfo) (l : List Nat) (r : Option Nat),
        win.mainPtr = some mi → st.mainInfos[mi]? = some main →
        main.bindingTable = some table → TopChain st.windows (some winPtr) l r →
        TkBindEventProc st2 winPtr eventPtr
          = some ⟨[⟨table, eventPtr, winPtr,
              (defaultObjects win (otherTop st.windows winPtr r)).length,
              defaultObjects win (otherTop st.windows winPtr r)⟩], none, false⟩) := by
  have hw2 := clearTags_window hwin
  refine ⟨_, freeBindingTags_readable hwin hread, hw2, ?_, ?_⟩
  · intro clientData cmd name l r hname hchain
    have hname2 : Tk_NameToWindow (clearTags st winPtr win) name.bytes clientData
        = some (some winPtr) := by
      rw [← hname]
      exact @nameToWindow_set st (clearTags st winPtr win) winPtr win _ hwin rfl rfl rfl _ _
    have hchain2 : TopChain (clearTags st winPtr win).windows (some winPtr) l r :=
      @topChain_set st.windows winPtr win { win with numTags := 0, tagPtr := none } hwin rfl rfl
        _ _ _ hchain
    have hq := query_default cmd hname2 hw2 rfl hchain2
    rw [hq]
    simp [clearTags, otherTop_set, defaultTexts]
  · intro eventPtr mi table main l r hmain hinfo htable hchain
    have hchain2 : TopChain (clearTags st winPtr win).windows (some winPtr) l r :=
      @topChain_set st.windows winPtr win { win with numTags := 0, tagPtr := none } hwin rfl rfl
        _ _ _ hchain
    have hd := dispatch_default eventPtr hw2 hmain hinfo htable rfl hchain2
    rw [hd]
    simp [clearTags, otherTop_set, defaultObjects]

/-- C12 (witness): the tags of the button are released; the query and the
dispatch that follow use `.top.btn Button .top all`. -/
theorem free_binding_tags_resets_witness :
    (∃ win, taggedState.windows[2]? = some win ∧ TagsReadable win) ∧
    ∃ st2, TkFreeBindingTags taggedState 2 = some st2 ∧
      st2.windows[2]? = some demoBtn ∧
      Tk_BindtagsObjCmd st2 (some 0) [bindtagsWord, pathArg ".top.btn"]
        = some ⟨TclCode.TCL_OK, some [".top.btn", "Button", ".top", "all"], st2⟩ ∧
      TkBindEventProc st2 2 5
        = some ⟨[⟨7, 5, 2, 4, [some (CStr.mem 102 ".top.btn"), some (CStr.uid "Button"),
            some (CStr.mem 101 ".top"), some (CStr.uid "all")]⟩], none, false⟩ := by
  have hread : TagsReadable
      ({ demoBtn with numTags := 4, tagPtr := some (demoTags.map some) } : TkWindow) :=
    readable_of_consistent (by decide)
  have hchain : TopChain taggedState.windows (some 2) [2, 1] (some 1) :=
    TopChain.up 2 _ [1] (some 1) rfl (by decide) (TopChain.top 1 demoTop rfl (by decide))
  obtain ⟨st2, h1, h2, h3, h4⟩ := free_binding_tags_resets taggedState 2 _ rfl hread
  exact ⟨⟨_, rfl, hread⟩, st2, h1, h2,
    h3 (some 0) bindtagsWord (pathArg ".top.btn") [2, 1] (some 1) (by decide) hchain,
    h4 5 0 7 demoMain [2, 1] (some 1) rfl rfl rfl hchain⟩

/-! ## Claims about the stored tags -/

theorem dotCount_cons (p : String) (rest : List String) :
    dotCount (p :: rest) = (if startsWithDot p then 1 else 0) + dotCount rest := by
  by_cases h : startsWithDot p = true
  · simp [dotCount, h, Nat.add_comm]
  · simp [dotCount, h]

theorem storedTags_next (tags : List String) :
    ∀ next, (storedTags tags next).2 = next + dotCount tags := by
  induction tags with
  | nil => intro next; simp [storedTags, dotCount]
  | cons p rest ih =>
    intro next
    by_cases h : startsWithDot p = true
    · simp [storedTags, h, ih, dotCount_cons]; omega
    · simp [storedTags, h, ih, dotCount_cons]

theorem storedTags_length (tags : List String) (next : Nat) :
    (storedTags tags next).1.length = tags.length := by
  have := congrArg List.length (storedTags_text tags next)
  simpa using this

theorem storedTags_getElem? (tags : List String) :
    ∀ (next i : Nat) (s : String), tags[i]? = some s →
      (storedTags tags next).1[i]? =
        some (if startsWithDot s then CStr.mem (next + dotCount (tags.take i)) s
          else Tk_GetUid s) := by
  induction tags with
  | nil => intro next i s h; simp at h
  | cons p rest ih =>
    intro next i s h
    cases i with
    | zero =>
      simp only [List.getElem?_cons_zero, Option.some.injEq] at h
      subst h
      by_cases hd : startsWithDot p = true
      · simp [storedTags, hd, dotCount]
      · simp [storedTags, hd]
    | succ i =>
      simp only [List.getElem?_cons_succ] at h
      by_cases hd : startsWithDot p = true
      · have := ih (next + 1) i s h
        simp only [storedTags, hd, if_true, List.getElem?_cons_succ, this, List.take_succ_cons,
          dotCount_cons]
        rw [Nat.add_assoc]
      · have := ih next i s h
        simp only [storedTags, hd, List.getElem?_cons_succ, List.take_succ_cons,
          dotCount_cons]
        simpa using this

theorem dotCount_take_lt (tags : List String) :
    ∀ (i : Nat) (s : String), tags[i]? = some s → startsWithDot s = true →
      dotCount (tags.take i) < dotCount tags := by
  induction tags with
  | nil => intro i s h; simp at h
  | cons p rest ih =>
    intro i s h hd
    cases i with
    | zero =>
      simp only [List.getElem?_cons_zero, Option.some.injEq] at h
      subst h
      simp [dotCount_cons, hd, dotCount]
    | succ i =>
      simp only [List.getElem?_cons_succ] at h
      have := ih i s h hd
      simp only [List.take_succ_cons, dotCount_cons]
      omega

theorem dotCount_take_mono (tags : List String) :
    ∀ (j i : Nat) (s : String), j < i → tags[j]? = some s → startsWithDot s = true →
      dotCount (tags.take j) < dotCount (tags.take i) := by
  intro j i s hji hj hd
  have hlt : j < tags.length := (List.getElem?_eq_some.mp hj).1
  have h1 : (tags.take i)[j]? = some s := by
    rw [List.getElem?_take_of_lt hji]; exact hj
  have h2 := dotCount_take_lt (tags.take i) j s h1 hd
  have h3 : (tags.take i).take j = tags.take j := by
    rw [List.take_take]; congr 1; omega
  rw [h3] at h2
  exact h2

/-- C13: for every non-empty replacement list given to `bindtags` and every
index `i`, the tag stored in slot `i` is a copy of the `i`-th text in a block
of its own, taken from the allocator by this call, when that text starts with
a dot, and is the uid of the text when it does not; the empty text is stored
as its uid. -/
theorem bindtags_stores_copy_or_uid (st : TkState) (clientData : Option Nat)
    (cmd name arg : Tcl_Obj) (winPtr : Nat) (win : TkWindow) (tags : List String)
    (hname : Tk_NameToWindow st name.bytes clientData = some (some winPtr))
    (hwin : st.windows[winPtr]? = some win) (hcons : TagsConsistent win)
    (harg : arg.elements = some tags) (hne : tags ≠ []) :
    ∃ (st2 : TkState) (win2 : TkWindow) (stored : List CStr),
      Tk_BindtagsObjCmd st clientData [cmd, name, arg] = some ⟨TclCode.TCL_OK, none, st2⟩ ∧
      st2.windows[winPtr]? = some win2 ∧ HoldsTags win2 stored ∧
      stored.length = tags.length ∧
      (∀ (i : Nat) (s : String), tags[i]? = some s → startsWithDot s = true →
        ∃ a, stored[i]? = some (CStr.mem a s) ∧ st.nextBlock ≤ a ∧ a < st2.nextBlock ∧
          ∀ (j : Nat) (b : Nat) (t : String), j ≠ i → stored[j]? = some (CStr.mem b t) → b ≠ a) ∧
      (∀ (i : Nat) (s : String), tags[i]? = some s → startsWithDot s = false →
        stored[i]? = some (Tk_GetUid s)) ∧
      (∀ (i : Nat), tags[i]? = some "" → stored[i]? = some (Tk_GetUid "")) := by
  have hstore := replace_stores cmd hname hwin hcons harg hne
  have hw2 := installTags_window { win with numTags := 0, tagPtr := none } hwin tags
  have hnb : (clearTags st winPtr win).nextBlock = st.nextBlock := rfl
  have hslot := storedTags_getElem? tags st.nextBlock
  have hmem : ∀ (j b : Nat) (t : String),
      (storedTags tags st.nextBlock).1[j]? = some (CStr.mem b t) →
      tags[j]? = some t ∧ startsWithDot t = true ∧ b = st.nextBlock + dotCount (tags.take j) := by
    intro j b t hj
    have hjlt : j < tags.length := by
      rw [← storedTags_length tags st.nextBlock]; exact (List.getElem?_eq_some.mp hj).1
    have hs := hslot j (tags[j]) (List.getElem?_eq_getElem hjlt)
    rw [hj] at hs
    by_cases hd : startsWithDot (tags[j]) = true
    · simp only [hd, if_true, Option.some.injEq, CStr.mem.injEq] at hs
      exact ⟨by rw [List.getElem?_eq_getElem hjlt, ← hs.2], by rw [hs.2]; exact hd, hs.1⟩
    · simp [hd, Tk_GetUid] at hs
  refine ⟨_, _, (storedTags tags st.nextBlock).1, hstore, hw2, ⟨rfl, ?_⟩,
    storedTags_length tags st.nextBlock, ?_, ?_, ?_⟩
  · simp [storedTags_length]
  · intro i s hi hd
    refine ⟨st.nextBlock + dotCount (tags.take i), ?_, Nat.le_add_right _ _, ?_, ?_⟩
    · rw [hslot i s hi, if_pos hd]
    · have := dotCount_take_lt tags i s hi hd
      simp only [installTags, hnb, storedTags_next]
      omega
    · intro j b t hji hj
      obtain ⟨htj, htd, hb⟩ := hmem j b t hj
      rcases Nat.lt_or_gt_of_ne hji with hlt | hgt
      · have := dotCount_take_mono tags j i t hlt htj htd
        omega
      · have := dotCount_take_mono tags i j s hgt hi hd
        omega
  · intro i s hi hd
    rw [hslot i s hi]
    simp [hd]
  · intro i hi
    rw [hslot i "" hi]
    have : startsWithDot "" = false := by decide
    simp [this]

/-- C13 (witness): `bindtags .top.btn {Button .top {} .top.btn}` stores the
uid `Button`, a copy of `.top` in block 1000, the uid of the empty text and a
copy of `.top.btn` in block 1001. -/
theorem bindtags_stores_copy_or_uid_witness :
    Tk_NameToWindow demoState (pathArg ".top.btn").bytes (some 0) = some (some 2) ∧
    TagsConsistent demoBtn ∧
    ∃ (st2 : TkState) (win2 : TkWindow) (stored : List CStr),
      Tk_BindtagsObjCmd demoState (some 0) [bindtagsWord, pathArg ".top.btn",
          listArg "Button .top \x7b\x7d .top.btn" ["Button", ".top", "", ".top.btn"]]
        = some ⟨TclCode.TCL_OK, none, st2⟩ ∧
      st2.windows[2]? = some win2 ∧ HoldsTags win2 stored ∧
      stored.length = ["Button", ".top", "", ".top.btn"].length ∧
      (∀ (i : Nat) (s : String), ["Button", ".top", "", ".top.btn"][i]? = some s →
        startsWithDot s = true →
        ∃ a, stored[i]? = some (CStr.mem a s) ∧ demoState.nextBlock ≤ a ∧ a < st2.nextBlock ∧
          ∀ (j : Nat) (b : Nat) (t : String), j ≠ i → stored[j]? = some (CStr.mem b t) → b ≠ a) ∧
      (∀ (i : Nat) (s : String), ["Button", ".top", "", ".top.btn"][i]? = some s →
        startsWithDot s = false → stored[i]? = some (Tk_GetUid s)) ∧
      (∀ (i : Nat), ["Button", ".top", "", ".top.btn"][i]? = some "" →
        stored[i]? = some (Tk_GetUid "")) :=
  ⟨by decide, by decide,
    bindtags_stores_copy_or_uid demoState (some 0) bindtagsWord (pathArg ".top.btn")
      (listArg "Button .top \x7b\x7d .top.btn" ["Button", ".top", "", ".top.btn"]) 2 demoBtn
      ["Button", ".top", "", ".top.btn"] (by decide) rfl (by decide) rfl (by decide)⟩

/-! ## Claims about bind -/

theorem bindTarget_of_bindsTo {st : TkState} {clientData : Option Nat} {string : String}
    {object : CStr} {table : Option Nat} (h : BindsTo st clientData string object table) :
    ∃ winPtr, bindTarget st clientData string = some (some (winPtr, object)) ∧
      bindingTableOf st winPtr = some table := by
  cases h with
  | window w win mi main hdot hname hwin hmain hinfo =>
    exact ⟨some w, by simp [bindTarget, hdot, hname, hwin],
      by simp [bindingTableOf, hwin, hmain, hinfo]⟩
  | tag t win mi main hdot hcd hwin hmain hinfo =>
    exact ⟨clientData, by simp [bindTarget, hdot],
      by simp [bindingTableOf, hcd, hwin, hmain, hinfo]⟩

theorem bind_all {ops : BindingOps} {st : TkState} {clientData : Option Nat}
    (cmd : Tcl_Obj) {arg1 : Tcl_Obj} {object : CStr} {table : Option Nat}
    (h : BindsTo st clientData arg1.bytes object table) :
    Tk_BindObjCmd ops st clientData [cmd, arg1]
      = some ⟨TclCode.TCL_OK, none, [BindCall.Tk_GetAllBindings table object]⟩ := by
  obtain ⟨winPtr, ht, hb⟩ := bindTarget_of_bindsTo h
  simp [Tk_BindObjCmd, ht, hb]

theorem bind_one {ops : BindingOps} {st : TkState} {clientData : Option Nat}
    (cmd : Tcl_Obj) {arg1 : Tcl_Obj} (pattern : Tcl_Obj) {object : CStr} {table : Option Nat}
    (h : BindsTo st clientData arg1.bytes object table) :
    Tk_BindObjCmd ops st clientData [cmd, arg1, pattern]
      = some ⟨TclCode.TCL_OK,
          some ((ops.Tk_GetBinding table object pattern.bytes).getD ""),
          [BindCall.Tk_GetBinding table object pattern.bytes]⟩ := by
  obtain ⟨winPtr, ht, hb⟩ := bindTarget_of_bindsTo h
  cases hg : ops.Tk_GetBinding table object pattern.bytes <;>
    simp [Tk_BindObjCmd, ht, hb, hg]

theorem bind_delete {ops : BindingOps} {st : TkState} {clientData : Option Nat}
    (cmd : Tcl_Obj) {arg1 : Tcl_Obj} (pattern : Tcl_Obj) {script : Tcl_Obj} {object : CStr}
    {table : Option Nat} (h : BindsTo st clientData arg1.bytes object table)
    (hscript : script.bytes.data = []) :
    Tk_BindObjCmd ops st clientData [cmd, arg1, pattern, script]
      = some ⟨ops.Tk_DeleteBinding table object pattern.bytes, none,
          [BindCall.Tk_DeleteBinding table object pattern.bytes]⟩ := by
  obtain ⟨winPtr, ht, hb⟩ := bindTarget_of_bindsTo h
  simp [Tk_BindObjCmd, ht, hb, hscript]

theorem bind_create {ops : BindingOps} {st : TkState} {clientData : Option Nat}
    (cmd : Tcl_Obj) {arg1 : Tcl_Obj} (pattern : Tcl_Obj) {script : Tcl_Obj} {object : CStr}
    {table : Option Nat} {c : Char} {rest : List Char}
    (h : BindsTo st clientData arg1.bytes object table)
    (hscript : script.bytes.data = c :: rest) :
    Tk_BindObjCmd ops st clientData [cmd, arg1, pattern, script]
      = some ⟨if ops.Tk_CreateBinding table object pattern.bytes
              (if c = '+' then String.mk rest else script.bytes) (if c = '+' then 1 else 0) = 0
            then TclCode.TCL_ERROR else TclCode.TCL_OK, none,
          [BindCall.Tk_CreateBinding table object pattern.bytes
            (if c = '+' then String.mk rest else script.bytes) (if c = '+' then 1 else 0)]⟩ := by
  obtain ⟨winPtr, ht, hb⟩ := bindTarget_of_bindsTo h
  by_cases hc : c = '+'
  · by_cases hm : ops.Tk_CreateBinding table object pattern.bytes (String.mk rest) 1 = 0 <;>
      simp [Tk_BindObjCmd, ht, hb, hscript, hc, hm]
  · by_cases hm : ops.Tk_CreateBinding table object pattern.bytes script.bytes 0 = 0 <;>
      simp [Tk_BindObjCmd, ht, hb, hscript, hc, hm]

theorem bind_calls_of_result {ops : BindingOps} {st : TkState} {clientData : Option Nat}
    {objv : List Tcl_Obj} {out : BindOutcome}
    (h : Tk_BindObjCmd ops st clientData objv = some out) :
    out.calls.length ≤ 1 ∧
    ∀ call ∈ out.calls, call.objc = objv.length ∧
      ∃ (arg1 : Tcl_Obj) (winPtr : Option Nat), objv[1]? = some arg1 ∧
        bindTarget st clientData arg1.bytes = some (some (winPtr, call.object)) := by
  by_cases hlen : objv.length < 2 ∨ objv.length > 4
  · simp [Tk_BindObjCmd, hlen] at h
    subst h
    simp
  · match objv, hlen with
    | [], hlen => simp at hlen
    | [_], hlen => simp at hlen
    | _ :: _ :: _ :: _ :: _ :: _, hlen => simp at hlen
    | [cmd, arg1], _ =>
      cases ht : bindTarget st clientData arg1.bytes with
      | none => simp [Tk_BindObjCmd, ht] at h
      | some target =>
        cases target with
        | none => simp [Tk_BindObjCmd, ht] at h; subst h; simp
        | some pair =>
          obtain ⟨winPtr, object⟩ := pair
          cases hb : bindingTableOf st winPtr with
          | none => simp [Tk_BindObjCmd, ht, hb] at h
          | some table =>
            simp [Tk_BindObjCmd, ht, hb] at h
            subst h
            simp [BindCall.objc, BindCall.object, ht]
    | [cmd, arg1, pattern], _ =>
      cases ht : bindTarget st clientData arg1.bytes with
      | none => simp [Tk_BindObjCmd, ht] at h
      | some target =>
        cases target with
        | none => simp [Tk_BindObjCmd, ht] at h; subst h; simp
        | some pair =>
          obtain ⟨winPtr, object⟩ := pair
          cases hb : bindingTableOf st winPtr with
          | none => simp [Tk_BindObjCmd, ht, hb] at h
          | some table =>
            cases hg : ops.Tk_GetBinding table object pattern.bytes <;>
              · simp [Tk_BindObjCmd, ht, hb, hg] at h
                subst h
                simp [BindCall.objc, BindCall.object, ht]
    | [cmd, arg1, pattern, script], _ =>
      cases ht : bindTarget st clientData arg1.bytes with
      | none => simp [Tk_BindObjCmd, ht] at h
      | some target =>
        cases target with
        | none => simp [Tk_BindObjCmd, ht] at h; subst h; simp
        | some pair =>
          obtain ⟨winPtr, object⟩ := pair
          cases hb : bindingTableOf st winPtr with
          | none =>
            cases hs : script.bytes.data <;> simp [Tk_BindObjCmd, ht, hb, hs] at h
          | some table =>
            cases hs : script.bytes.data with
            | nil =>
              simp [Tk_BindObjCmd, ht, hb, hs] at h
              subst h
              simp [BindCall.objc, BindCall.object, ht]
            | cons c rest =>
              by_cases hc : c = '+'
              · by_cases hm : ops.Tk_CreateBinding table object pattern.bytes
                    (String.mk rest) 1 = 0 <;>
                  · simp [Tk_BindObjCmd, ht, hb, hs, hc, hm] at h
                    subst h
                    simp [BindCall.objc, BindCall.object, ht]
              · by_cases hm : ops.Tk_CreateBinding table object pattern.bytes
                    script.bytes 0 = 0 <;>
                  · simp [Tk_BindObjCmd, ht, hb, hs, hc, hm] at h
                    subst h
                    simp [BindCall.objc, BindCall.object, ht]

theorem bind_calls_once {ops : BindingOps} {st : TkState} {clientData : Option Nat}
    {objv : List Tcl_Obj} {arg1 : Tcl_Obj} {object : CStr} {table : Option Nat}
    (hlen : 2 ≤ objv.length ∧ objv.length ≤ 4) (harg : objv[1]? = some arg1)
    (h : BindsTo st clientData arg1.bytes object table) :
    ∃ (out : BindOutcome) (call : BindCall),
      Tk_BindObjCmd ops st clientData objv = some out ∧ out.calls = [call] ∧
      call.object = object ∧ call.objc = objv.length := by
  match objv, hlen, harg with
  | [], hlen, _ => simp at hlen
  | [_], hlen, _ => simp at hlen
  | _ :: _ :: _ :: _ :: _ :: _, hlen, _ => simp at hlen
  | [cmd, a], _, harg =>
    simp only [List.getElem?_cons_succ, List.getElem?_cons_zero, Option.some.injEq] at harg
    subst harg
    exact ⟨_, _, bind_all cmd h, rfl, rfl, rfl⟩
  | [cmd, a, pattern], _, harg =>
    simp only [List.getElem?_cons_succ, List.getElem?_cons_zero, Option.some.injEq] at harg
    subst harg
    exact ⟨_, _, bind_one cmd pattern h, rfl, rfl, rfl⟩
  | [cmd, a, pattern, script], _, harg =>
    simp only [List.getElem?_cons_succ, List.getElem?_cons_zero, Option.some.injEq] at harg
    subst harg
    cases hs : script.bytes.data with
    | nil => exact ⟨_, _, bind_delete cmd pattern h hs, rfl, rfl, rfl⟩
    | cons c rest => exact ⟨_, _, bind_create cmd pattern h hs, rfl, rfl, rfl⟩

/-- C14: for a `bind` call with an object, a pattern and a script, where the
first argument stands for `object` with the binding table `table`: if the
script is the empty string, the one binding-table call made is
`Tk_DeleteBinding` on `object` and the pattern, `Tk_CreateBinding` is not
called, and the command returns the status that `Tk_DeleteBinding` returns. -/
theorem bind_empty_script_deletes (ops : BindingOps) (st : TkState)
    (clientData : Option Nat) (cmd arg1 pattern script : Tcl_Obj) (object : CStr)
    (table : Option Nat) (hres : BindsTo st clientData arg1.bytes object table)
    (hempty : script.bytes = "") :
    ∃ out, Tk_BindObjCmd ops st clientData [cmd, arg1, pattern, script] = some out ∧
      out.calls = [BindCall.Tk_DeleteBinding table object pattern.bytes] ∧
      (∀ call ∈ out.calls, ∀ (t : Option Nat) (o : CStr) (e s : String) (a : Nat),
        call ≠ BindCall.Tk_CreateBinding t o e s a) ∧
      out.code = ops.Tk_DeleteBinding table object pattern.bytes := by
  have hs : script.bytes.data = [] := by rw [hempty]
  refine ⟨_, bind_delete cmd pattern hres hs, rfl, ?_, rfl⟩
  intro call hcall t o e s a
  simp only [List.mem_singleton] at hcall
  rw [hcall]
  exact fun h => BindCall.noConfusion h

/-- C14 (witness): `bind Button <Key> {}` deletes the binding of `<Key>` for
the uid `Button`. -/
theorem bind_empty_script_deletes_witness :
    BindsTo demoState (some 0) (strArg "Button").bytes (Tk_GetUid "Button") (some 7) ∧
    ∃ out, Tk_BindObjCmd demoOps demoState (some 0)
        [bindWord, strArg "Button", strArg "<Key>", strArg ""] = some out ∧
      out.calls = [BindCall.Tk_DeleteBinding (some 7) (Tk_GetUid "Button") (strArg "<Key>").bytes] ∧
      (∀ call ∈ out.calls, ∀ (t : Option Nat) (o : CStr) (e s : String) (a : Nat),
        call ≠ BindCall.Tk_CreateBinding t o e s a) ∧
      out.code = demoOps.Tk_DeleteBinding (some 7) (Tk_GetUid "Button") (strArg "<Key>").bytes :=
  have hres : BindsTo demoState (some 0) (strArg "Button").bytes (Tk_GetUid "Button") (some 7) :=
    BindsTo.tag 0 demoRoot 0 demoMain (by decide) rfl rfl rfl rfl
  ⟨hres, bind_empty_script_deletes demoOps demoState (some 0) bindWord (strArg "Button")
    (strArg "<Key>") (strArg "") (Tk_GetUid "Button") (some 7) hres rfl⟩

/-- C15: for a `bind` call with an object, a pattern and a non-empty script
`s`, where the first argument stands for `object` with the binding table
`table`: the one binding-table call made is `Tk_CreateBinding`; when `s`
starts with `+` it gets `s` without that first character and the append flag
1, otherwise it gets `s` and the append flag 0; and the command returns
`TCL_ERROR` exactly when `Tk_CreateBinding` returns the mask 0, else `TCL_OK`. -/
theorem bind_script_creates (ops : BindingOps) (st : TkState)
    (clientData : Option Nat) (cmd arg1 pattern script : Tcl_Obj) (object : CStr)
    (table : Option Nat) (hres : BindsTo st clientData arg1.bytes object table)
    (hne : script.bytes ≠ "") :
    ∃ (out : BindOutcome) (newScript : String) (append : Nat),
      Tk_BindObjCmd ops st clientData [cmd, arg1, pattern, script] = some out ∧
      out.calls = [BindCall.Tk_CreateBinding table object pattern.bytes newScript append] ∧
      (∀ rest, script.bytes.data = '+' :: rest → newScript.data = rest ∧ append = 1) ∧
      ((∀ rest, script.bytes.data ≠ '+' :: rest) → newScript = script.bytes ∧ append = 0) ∧
      (out.code = TclCode.TCL_ERROR ↔
        ops.Tk_CreateBinding table object pattern.bytes newScript append = 0) ∧
      (out.code = TclCode.TCL_OK ↔
        ops.Tk_CreateBinding table object pattern.bytes newScript append ≠ 0) := by
  cases hs : script.bytes.data with
  | nil => exact absurd (String.ext hs) hne
  | cons c rest =>
    refine ⟨_, _, _, bind_create cmd pattern hres hs, rfl, ?_, ?_, ?_, ?_⟩
    · intro rest2 h2
      simp only [List.cons.injEq] at h2
      obtain ⟨hc, hr⟩ := h2
      subst hc; subst hr
      simp
    · intro hno
      have hc : c ≠ '+' := fun hc => hno rest (by rw [hc])
      simp [hc]
    · by_cases hm : ops.Tk_CreateBinding table object pattern.bytes
          (if c = '+' then String.mk rest else script.bytes) (if c = '+' then 1 else 0) = 0 <;>
        simp [hm]
    · by_cases hm : ops.Tk_CreateBinding table object pattern.bytes
          (if c = '+' then String.mk rest else script.bytes) (if c = '+' then 1 else 0) = 0 <;>
        simp [hm]

/-- C15 (witness): `bind .top.btn <Key> {+puts more}` appends the script
`puts more` to the binding of `<Key>` for the path name of the button. -/
theorem bind_script_creates_witness :
    BindsTo demoState (some 0) (strArg ".top.btn").bytes demoBtn.pathName (some 7) ∧
    ∃ (out : BindOutcome) (newScript : String) (append : Nat),
      Tk_BindObjCmd demoOps demoState (some 0)
        [bindWord, strArg ".top.btn", strArg "<Key>", strArg "+puts more"] = some out ∧
      out.calls = [BindCall.Tk_CreateBinding (some 7) demoBtn.pathName (strArg "<Key>").bytes
        newScript append] ∧
      (∀ rest, (strArg "+puts more").bytes.data = '+' :: rest →
        newScript.data = rest ∧ append = 1) ∧
      ((∀ rest, (strArg "+puts more").bytes.data ≠ '+' :: rest) →
        newScript = (strArg "+puts more").bytes ∧ append = 0) ∧
      (out.code = TclCode.TCL_ERROR ↔
        demoOps.Tk_CreateBinding (some 7) demoBtn.pathName (strArg "<Key>").bytes
          newScript append = 0) ∧
      (out.code = TclCode.TCL_OK ↔
        demoOps.Tk_CreateBinding (some 7) demoBtn.pathName (strArg "<Key>").bytes
          newScript append ≠ 0) :=
  have hres : BindsTo demoState (some 0) (strArg ".top.btn").bytes demoBtn.pathName (some 7) :=
    BindsTo.window 2 demoBtn 0 demoMain (by decide) (by decide) rfl rfl rfl
  ⟨hres, bind_script_creates demoOps demoState (some 0) bindWord (strArg ".top.btn")
    (strArg "<Key>") (strArg "+puts more") demoBtn.pathName (some 7) hres (by decide)⟩

/-- C16: for a `bind` call with two to four words, the object of the
binding-table call is the path name of the window named when the first
argument starts with a dot and names a window, and the uid of the first
argument when that does not start with a dot; when it starts with a dot and
names no window, the command returns `TCL_ERROR` and makes no binding-table
call.  So two `bind` calls in one state with equal first arguments are about
the same object, and two calls with the same tag name are so in any two
states. -/
theorem bind_object_key (ops : BindingOps) (st : TkState) (clientData : Option Nat)
    (objv : List Tcl_Obj) (arg1 : Tcl_Obj)
    (hlen : 2 ≤ objv.length ∧ objv.length ≤ 4) (harg : objv[1]? = some arg1) :
    (∀ (w : Nat) (win : TkWindow) (mi : Nat) (main : TkMainInfo),
      startsWithDot arg1.bytes = true →
      Tk_NameToWindow st arg1.bytes clientData = some (some w) →
      st.windows[w]? = some win → win.mainPtr = some mi → st.mainInfos[mi]? = some main →
      ∃ (out : BindOutcome) (call : BindCall),
        Tk_BindObjCmd ops st clientData objv = some out ∧ out.calls = [call] ∧
        call.object = win.pathName) ∧
    (∀ (t : Nat) (win : TkWindow) (mi : Nat) (main : TkMainInfo),
      startsWithDot arg1.bytes = false → clientData = some t →
      st.windows[t]? = some win → win.mainPtr = some mi → st.mainInfos[mi]? = some main →
      ∃ (out : BindOutcome) (call : BindCall),
        Tk_BindObjCmd ops st clientData objv = some out ∧ out.calls = [call] ∧
        call.object = Tk_GetUid arg1.bytes) ∧
    (startsWithDot arg1.bytes = true →
      Tk_NameToWindow st arg1.bytes clientData = some none →
      Tk_BindObjCmd ops st clientData objv = some ⟨TclCode.TCL_ERROR, none, []⟩) ∧
    (∀ (ops2 : BindingOps) (objv2 : List Tcl_Obj) (arg2 : Tcl_Obj) (out out2 : BindOutcome),
      objv2[1]? = some arg2 → arg2.bytes = arg1.bytes →
      Tk_BindObjCmd ops st clientData objv = some out →
      Tk_BindObjCmd ops2 st clientData objv2 = some out2 →
      ∀ c ∈ out.calls, ∀ c2 ∈ out2.calls, c.object = c2.object) ∧
    (∀ (ops2 : BindingOps) (st2 : TkState) (clientData2 : Option Nat) (objv2 : List Tcl_Obj)
      (arg2 : Tcl_Obj) (out out2 : BindOutcome),
      objv2[1]? = some arg2 → arg2.bytes = arg1.bytes → startsWithDot arg1.bytes = false →
      Tk_BindObjCmd ops st clientData objv = some out →
      Tk_BindObjCmd ops2 st2 clientData2 objv2 = some out2 →
      ∀ c ∈ out.calls, ∀ c2 ∈ out2.calls, c.object = c2.object) := by
  refine ⟨?_, ?_, ?_, ?_, ?_⟩
  · intro w win mi main hdot hname hwin hmain hinfo
    obtain ⟨out, call, h1, h2, h3, _⟩ :=
      bind_calls_once hlen harg (BindsTo.window w win mi main hdot hname hwin hmain hinfo)
    exact ⟨out, call, h1, h2, h3⟩
  · intro t win mi main hdot hcd hwin hmain hinfo
    obtain ⟨out, call, h1, h2, h3, _⟩ :=
      bind_calls_once hlen harg (BindsTo.tag t win mi main hdot hcd hwin hmain hinfo)
    exact ⟨out, call, h1, h2, h3⟩
  · intro hdot hname
    have hl : ¬ (objv.length < 2 ∨ objv.length > 4) := by omega
    simp [Tk_BindObjCmd, hl, harg, bindTarget, hdot, hname]
  · intro ops2 objv2 arg2 out out2 harg2 hsame hout hout2 c hc c2 hc2
    obtain ⟨_, a, wp, ha, hta⟩ := (bind_calls_of_result hout).2 c hc
    obtain ⟨_, b, wp2, hb, htb⟩ := (bind_calls_of_result hout2).2 c2 hc2
    rw [harg] at ha; cases ha
    rw [harg2] at hb; cases hb
    rw [hsame, hta] at htb
    simp only [Option.some.injEq, Prod.mk.injEq] at htb
    exact htb.2
  · intro ops2 st2 clientData2 objv2 arg2 out out2 harg2 hsame hdot hout hout2 c hc c2 hc2
    obtain ⟨_, a, wp, ha, hta⟩ := (bind_calls_of_result hout).2 c hc
    obtain ⟨_, b, wp2, hb, htb⟩ := (bind_calls_of_result hout2).2 c2 hc2
    rw [harg] at ha; cases ha
    rw [harg2] at hb; cases hb
    rw [hsame] at htb
    simp only [bindTarget, hdot, Bool.false_eq_true, if_false, Option.some.injEq,
      Prod.mk.injEq] at hta htb
    rw [← hta.2, ← htb.2]

/-- C16 (witness): `bind .top.btn` and `bind .top.btn <Key>` are both about
the path name of the button. -/
theorem bind_object_key_witness :
    (2 ≤ [bindWord, strArg ".top.btn"].length ∧ [bindWord, strArg ".top.btn"].length ≤ 4) ∧
    ∃ (out out2 : BindOutcome),
      Tk_BindObjCmd demoOps demoState (some 0) [bindWord, strArg ".top.btn"] = some out ∧
      Tk_BindObjCmd demoOps demoState (some 0) [bindWord, strArg ".top.btn", strArg "<Key>"]
        = some out2 ∧
      out.calls.map BindCall.object = [demoBtn.pathName] ∧
      ∀ c ∈ out.calls, ∀ c2 ∈ out2.calls, c.object = c2.object := by
  have h := bind_object_key demoOps demoState (some 0) [bindWord, strArg ".top.btn"]
    (strArg ".top.btn") (by decide) rfl
  obtain ⟨out, call, h1, h2, h3⟩ :=
    h.1 2 demoBtn 0 demoMain (by decide) (by decide) rfl rfl rfl
  have h4 : Tk_BindObjCmd demoOps demoState (some 0)
      [bindWord, strArg ".top.btn", strArg "<Key>"]
      = some ⟨TclCode.TCL_OK, some "puts hi",
          [BindCall.Tk_GetBinding (some 7) demoBtn.pathName "<Key>"]⟩ := by decide
  exact ⟨by decide, out, _, h1, h4, by simp [h2, h3],
    h.2.2.2.1 demoOps [bindWord, strArg ".top.btn", strArg "<Key>"] (strArg ".top.btn")
      out _ rfl rfl h1 h4⟩

/-- C17: the binding-table call of `bind` is chosen by the number of
arguments.  Where the first argument stands for `object` with the binding
table `table`: with the object alone `Tk_GetAllBindings` is called; with
object and pattern `Tk_GetBinding` is called, the command succeeds, and its
result is the script found or empty when there is none; with object, pattern
and script `Tk_DeleteBinding` or `Tk_CreateBinding` is called.  With no
object or more than three arguments the command returns `TCL_ERROR` and calls
nothing.  No call of `bind` makes more than one binding-table call, and the
kind of a call made is the one that goes with the number of words. -/
theorem bind_operation_by_arg_count (ops : BindingOps) (st : TkState)
    (clientData : Option Nat) (cmd arg1 : Tcl_Obj) (object : CStr) (table : Option Nat)
    (hres : BindsTo st clientData arg1.bytes object table) :
    Tk_BindObjCmd ops st clientData [cmd, arg1]
      = some ⟨TclCode.TCL_OK, none, [BindCall.Tk_GetAllBindings table object]⟩ ∧
    (∀ pattern : Tcl_Obj, ∃ out,
      Tk_BindObjCmd ops st clientData [cmd, arg1, pattern] = some out ∧
      out.calls = [BindCall.Tk_GetBinding table object pattern.bytes] ∧
      out.code = TclCode.TCL_OK ∧
      (ops.Tk_GetBinding table object pattern.bytes = none → out.result = some "") ∧
      (∀ command, ops.Tk_GetBinding table object pattern.bytes = some command →
        out.result = some command)) ∧
    (∀ pattern script : Tcl_Obj, ∃ out,
      Tk_BindObjCmd ops st clientData [cmd, arg1, pattern, script] = some out ∧
      (out.calls = [BindCall.Tk_DeleteBinding table object pattern.bytes] ∨
        ∃ (s : String) (a : Nat),
          out.calls = [BindCall.Tk_CreateBinding table object pattern.bytes s a])) ∧
    (∀ objv : List Tcl_Obj, objv.length < 2 ∨ objv.length > 4 →
      Tk_BindObjCmd ops st clientData objv = some ⟨TclCode.TCL_ERROR, none, []⟩) ∧
    (∀ (objv : List Tcl_Obj) (out : BindOutcome),
      Tk_BindObjCmd ops st clientData objv = some out →
      out.calls.length ≤ 1 ∧ ∀ call ∈ out.calls, call.objc = objv.length) := by
  refine ⟨bind_all cmd hres, ?_, ?_, ?_, ?_⟩
  · intro pattern
    refine ⟨_, bind_one cmd pattern hres, rfl, rfl, ?_, ?_⟩
    · intro h; simp [h]
    · intro command h; simp [h]
  · intro pattern script
    cases hs : script.bytes.data with
    | nil => exact ⟨_, bind_delete cmd pattern hres hs, Or.inl rfl⟩
    | cons c rest => exact ⟨_, bind_create cmd pattern hres hs, Or.inr ⟨_, _, rfl⟩⟩
  · intro objv hbad
    simp [Tk_BindObjCmd, hbad]
  · intro objv out hout
    have h := bind_calls_of_result hout
    exact ⟨h.1, fun call hc => (h.2 call hc).1⟩

/-- C17 (witness): the tag `Button` of the examples, with the binding table
of the main window. -/
theorem bind_operation_by_arg_count_witness :
    BindsTo demoState (some 0) (strArg "Button").bytes (Tk_GetUid "Button") (some 7) ∧
    Tk_BindObjCmd demoOps demoState (some 0) [bindWord, strArg "Button"]
      = some ⟨TclCode.TCL_OK, none, [BindCall.Tk_GetAllBindings (some 7) (Tk_GetUid "Button")]⟩ ∧
    (∃ out, Tk_BindObjCmd demoOps demoState (some 0) [bindWord, strArg "Button", strArg "<Motion>"]
        = some out ∧
      out.calls = [BindCall.Tk_GetBinding (some 7) (Tk_GetUid "Button") "<Motion>"] ∧
      out.code = TclCode.TCL_OK ∧ out.result = some "") := by
  have hres : BindsTo demoState (some 0) (strArg "Button").bytes (Tk_GetUid "Button") (some 7) :=
    BindsTo.tag 0 demoRoot 0 demoMain (by decide) rfl rfl rfl rfl
  have h := bind_operation_by_arg_count demoOps demoState (some 0) bindWord (strArg "Button")
    (Tk_GetUid "Button") (some 7) hres
  obtain ⟨out, h1, h2, h3, h4, _⟩ := h.2.1 (strArg "<Motion>")
  exact ⟨hres, h.1, out, h1, h2, h3, h4 (by decide)⟩

/-! ## Claims about the display option -/

theorem strncmp_zero_iff (a : List Char) :
    ∀ b : List Char, strncmp a b a.length = 0 ↔ ∃ rest, b = a ++ rest := by
  induction a with
  | nil => intro b; simp [strncmp]
  | cons x as ih =>
    intro b
    cases b with
    | nil => simp [strncmp]
    | cons y bs =>
      by_cases hxy : x = y
      · subst hxy
        simp [strncmp, ih bs]
      · have hne : (if x < y then (-1 : Int) else 1) ≠ 0 := by split <;> decide
        simp only [List.length_cons, strncmp, hxy, if_false, hne, List.cons_append,
          List.cons.injEq, false_iff, not_exists, not_and]
        intro rest h
        exact absurd h.symm hxy

theorem displayof_test (s : String) :
    (s.length ≥ 2 ∧ strncmp s.data "-displayof".data s.length = 0) ↔ isDisplayofOption s := by
  unfold isDisplayofOption
  have h := strncmp_zero_iff s.data "-displayof".data
  rw [show s.data.length = s.length from rfl] at h
  rw [h]

/-- C19: `TkGetDisplayOf` returns 0 and leaves `*tkwinPtr` alone when there
are no arguments or the first one is not the option `-displayof` (a leading
part of that word, at least two characters long); it returns 2 and stores the
window in `*tkwinPtr` when the first argument is the option and the second
names a window; it returns `TCL_INDEX_NONE` when the first argument is the
option and the window name is missing or names no window.  Whenever it
returns 0, `*tkwinPtr` holds what it held before. -/
theorem getDisplayOf_returns (st : TkState) (objv : List Tcl_Obj) (tkwin : Option Nat) :
    (objv = [] → TkGetDisplayOf st objv tkwin = some (0, tkwin)) ∧
    (∀ (arg0 : Tcl_Obj) (rest : List Tcl_Obj), objv = arg0 :: rest →
      ¬ isDisplayofOption arg0.bytes → TkGetDisplayOf st objv tkwin = some (0, tkwin)) ∧
    (∀ (arg0 arg1 : Tcl_Obj) (rest : List Tcl_Obj) (w : Nat), objv = arg0 :: arg1 :: rest →
      isDisplayofOption arg0.bytes → Tk_NameToWindow st arg1.bytes tkwin = some (some w) →
      TkGetDisplayOf st objv tkwin = some (2, some w)) ∧
    (∀ arg0 : Tcl_Obj, objv = [arg0] → isDisplayofOption arg0.bytes →
      TkGetDisplayOf st objv tkwin = some (TCL_INDEX_NONE, tkwin)) ∧
    (∀ (arg0 arg1 : Tcl_Obj) (rest : List Tcl_Obj), objv = arg0 :: arg1 :: rest →
      isDisplayofOption arg0.bytes → Tk_NameToWindow st arg1.bytes tkwin = some none →
      TkGetDisplayOf st objv tkwin = some (TCL_INDEX_NONE, none)) ∧
    (∀ t : Option Nat, TkGetDisplayOf st objv tkwin = some (0, t) → t = tkwin) := by
  refine ⟨?_, ?_, ?_, ?_, ?_, ?_⟩
  · intro h; subst h; simp [TkGetDisplayOf]
  · intro arg0 rest h hno; subst h
    have hno2 := (displayof_test arg0.bytes).not.mpr hno
    simp only [TkGetDisplayOf, List.length_cons, List.getElem?_cons_zero]
    simp [hno2]
  · intro arg0 arg1 rest w h hopt hname; subst h
    have hyes := (displayof_test arg0.bytes).mpr hopt
    have hl1 : ¬ (rest.length + 1 + 1 + 1 < 2) := by omega
    have hl2 : ¬ (rest.length + 1 + 1 < 2) := by omega
    simp only [TkGetDisplayOf, List.length_cons, List.getElem?_cons_zero]
    simp [hyes, hname, hl1, hl2]
  · intro arg0 h hopt; subst h
    have hyes := (displayof_test arg0.bytes).mpr hopt
    simp only [TkGetDisplayOf, List.length_cons, List.getElem?_cons_zero]
    simp [hyes]
  · intro arg0 arg1 rest h hopt hname; subst h
    have hyes := (displayof_test arg0.bytes).mpr hopt
    have hl1 : ¬ (rest.length + 1 + 1 + 1 < 2) := by omega
    have hl2 : ¬ (rest.length + 1 + 1 < 2) := by omega
    simp only [TkGetDisplayOf, List.length_cons, List.getElem?_cons_zero]
    simp [hyes, hname, hl1, hl2]
  · intro t ht
    cases objv with
    | nil => simp [TkGetDisplayOf] at ht; exact ht.symm
    | cons arg0 rest =>
      by_cases hopt : arg0.bytes.length ≥ 2 ∧
          strncmp arg0.bytes.data "-displayof".data arg0.bytes.length = 0
      · cases rest with
        | nil => simp [TkGetDisplayOf, hopt, TCL_INDEX_NONE] at ht
        | cons arg1 rest =>
          have hl1 : ¬ (rest.length + 1 + 1 + 1 < 2) := by omega
          have hl2 : ¬ (rest.length + 1 + 1 < 2) := by omega
          cases hn : Tk_NameToWindow st arg1.bytes tkwin with
          | none => simp [TkGetDisplayOf, hopt, hn, hl1, hl2] at ht
          | some found =>
            cases found <;> simp [TkGetDisplayOf, hopt, hn, TCL_INDEX_NONE, hl1, hl2] at ht
      · simp only [TkGetDisplayOf, List.length_cons, List.getElem?_cons_zero] at ht
        simp [hopt] at ht
        exact ht.symm

/-- C19 (witness): `-disp .top` is the option with a window, `-d` alone lacks
the window name, and `-nice` is not the option. -/
theorem getDisplayOf_returns_witness :
    isDisplayofOption "-disp" ∧ isDisplayofOption "-d" ∧ ¬ isDisplayofOption "-nice" ∧
    TkGetDisplayOf demoState [strArg "-disp", strArg ".top"] (some 0) = some (2, some 1) ∧
    TkGetDisplayOf demoState [strArg "-d"] (some 0) = some (TCL_INDEX_NONE, some 0) ∧
    TkGetDisplayOf demoState [strArg "-nice", strArg ".top"] (some 0) = some (0, some 0) := by
  have h1 : isDisplayofOption "-disp" := ⟨by decide, "layof".data, by decide⟩
  have h2 : isDisplayofOption "-d" := ⟨by decide, "isplayof".data, by decide⟩
  have h3 : ¬ isDisplayofOption "-nice" := by
    rw [← displayof_test]; decide
  exact ⟨h1, h2, h3,
    (getDisplayOf_returns demoState [strArg "-disp", strArg ".top"] (some 0)).2.2.1
      (strArg "-disp") (strArg ".top") [] 1 rfl h1 (by decide),
    (getDisplayOf_returns demoState [strArg "-d"] (some 0)).2.2.2.1 (strArg "-d") rfl h2,
    (getDisplayOf_returns demoState [strArg "-nice", strArg ".top"] (some 0)).2.1
      (strArg "-nice") [strArg ".top"] rfl h3⟩

/-! ## Claims about the invariant of the tag store -/

theorem query_state {st : TkState} {clientData : Option Nat} {cmd name : Tcl_Obj}
    {out : CmdOutcome} (h : Tk_BindtagsObjCmd st clientData [cmd, name] = some out) :
    out.state = st := by
  cases hn : Tk_NameToWindow st name.bytes clientData with
  | none => simp [Tk_BindtagsObjCmd, hn] at h
  | some found =>
    cases found with
    | none => simp [Tk_BindtagsObjCmd, hn] at h; rw [← h]
    | some w =>
      cases hw : st.windows[w]? with
      | none => simp [Tk_BindtagsObjCmd, hn, hw] at h
      | some win =>
        by_cases hnum : win.numTags = 0
        · cases hl : winPtr2Loop st.windows st.windows.length (some w) with
          | none => simp [Tk_BindtagsObjCmd, hn, hw, hnum, hl] at h
          | some r =>
            cases r with
            | none => simp [Tk_BindtagsObjCmd, hn, hw, hnum, hl] at h; rw [← h]
            | some t =>
              by_cases hwt : w = t
              · subst hwt
                simp [Tk_BindtagsObjCmd, hn, hw, hnum, hl] at h
                rw [← h]
              · cases ht : st.windows[t]? with
                | none => simp [Tk_BindtagsObjCmd, hn, hw, hnum, hl, hwt, ht] at h
                | some tw => simp [Tk_BindtagsObjCmd, hn, hw, hnum, hl, hwt, ht] at h; rw [← h]
        · cases hf : forLoop win.numTags (appendTag win) [] with
          | none => simp [Tk_BindtagsObjCmd, hn, hw, hnum, hf] at h
          | some L => simp [Tk_BindtagsObjCmd, hn, hw, hnum, hf] at h; rw [← h]

theorem cleared_consistent (win : TkWindow) :
    TagsConsistent ({ win with numTags := 0, tagPtr := none } : TkWindow) := by
  simp [TagsConsistent]

theorem stored_consistent (win : TkWindow) (tags : List String) (next : Nat) (hne : tags ≠ []) :
    TagsConsistent ({ win with numTags := tags.length,
                               tagPtr := some ((storedTags tags next).1.map some) } : TkWindow) := by
  refine @consistent_of_holds _ (storedTags tags next).1 ⟨rfl, by simp [storedTags_length]⟩ ?_
  intro h
  have := storedTags_length tags next
  rw [h] at this
  exact hne (List.length_eq_zero.mp this.symm)

theorem tagUpdate_clear {st : TkState} {winPtr : Nat} {win : TkWindow}
    (hwin : st.windows[winPtr]? = some win) : TagUpdate st (clearTags st winPtr win) :=
  Or.inr ⟨winPtr, win, { win with numTags := 0, tagPtr := none }, hwin, rfl, rfl, rfl, rfl,
    rfl, rfl, rfl, cleared_consistent win⟩

theorem tagUpdate_install {st : TkState} {winPtr : Nat} {win : TkWindow}
    (hwin : st.windows[winPtr]? = some win) (tags : List String) (hne : tags ≠ []) :
    TagUpdate st (installTags (clearTags st winPtr win) winPtr
      { win with numTags := 0, tagPtr := none } tags) :=
  Or.inr ⟨winPtr, win, _, hwin,
    installTags_windows st winPtr win { win with numTags := 0, tagPtr := none } tags,
    rfl, rfl, rfl, rfl, rfl, rfl, stored_consistent _ tags st.nextBlock hne⟩

theorem bindtags_update {st : TkState} {clientData : Option Nat} {objv : List Tcl_Obj}
    {out : CmdOutcome} (hcons : AllConsistent st)
    (h : Tk_BindtagsObjCmd st clientData objv = some out) : TagUpdate st out.state := by
  by_cases hlen : objv.length < 2 ∨ objv.length > 3
  · simp [Tk_BindtagsObjCmd, hlen] at h
    rw [← h]; exact Or.inl rfl
  · match objv, hlen with
    | [], hlen => simp at hlen
    | [_], hlen => simp at hlen
    | _ :: _ :: _ :: _ :: _, hlen => simp at hlen
    | [cmd, name], _ => exact Or.inl (query_state h)
    | [cmd, name, arg], _ =>
      cases hn : Tk_NameToWindow st name.bytes clientData with
      | none => simp [Tk_BindtagsObjCmd, hn] at h
      | some found =>
        cases found with
        | none => simp [Tk_BindtagsObjCmd, hn] at h; rw [← h]; exact Or.inl rfl
        | some w =>
          cases hw : st.windows[w]? with
          | none => simp [Tk_BindtagsObjCmd, hn, hw] at h
          | some win =>
            have hc : TagsConsistent win := hcons win (List.getElem?_mem hw)
            cases ha : arg.elements with
            | none =>
              rw [replace_fails cmd hn hw hc ha] at h
              cases h
              exact tagUpdate_clear hw
            | some tags =>
              by_cases hne : tags = []
              · subst hne
                rw [replace_clears cmd hn hw hc ha] at h
                cases h
                exact tagUpdate_clear hw
              · rw [replace_stores cmd hn hw hc ha hne] at h
                cases h
                exact tagUpdate_install hw tags hne

theorem runOp_update {st st2 : TkState} {op : TagOp} (hcons : AllConsistent st)
    (h : runOp st op = some st2) : TagUpdate st st2 := by
  cases op with
  | bindtags clientData objv =>
    simp only [runOp, Option.map_eq_some'] at h
    obtain ⟨out, hout, hst⟩ := h
    rw [← hst]
    exact bindtags_update hcons hout
  | free winPtr =>
    simp only [runOp] at h
    cases hw : st.windows[winPtr]? with
    | none => simp [TkFreeBindingTags, hw] at h
    | some win =>
      have hc : TagsConsistent win := hcons win (List.getElem?_mem hw)
      rw [freeBindingTags_readable hw (readable_of_consistent hc)] at h
      cases h
      exact tagUpdate_clear hw

theorem allConsistent_update {st st2 : TkState} (hcons : AllConsistent st)
    (h : TagUpdate st st2) : AllConsistent st2 := by
  rcases h with h | ⟨w, win, win2, _, hws, _, _, _, _, _, _, hc2⟩
  · rw [h]; exact hcons
  · intro x hx
    rw [hws] at hx
    rcases List.mem_or_eq_of_mem_set hx with hx | hx
    · exact hcons x hx
    · rw [hx]; exact hc2

theorem runOps_consistent (ops : List TagOp) :
    ∀ (st st2 : TkState), AllConsistent st → runOps st ops = some st2 → AllConsistent st2 := by
  induction ops with
  | nil =>
    intro st st2 hcons h
    simp only [runOps, Option.some.injEq] at h
    rw [← h]; exact hcons
  | cons op ops ih =>
    intro st st2 hcons h
    cases hop : runOp st op with
    | none => simp [runOps, hop] at h
    | some st1 =>
      simp only [runOps, hop, Option.some_bind] at h
      exact ih st1 st2 (allConsistent_update hcons (runOp_update hcons hop)) h

theorem nameToWindow_defined {st : TkState} {clientData : Option Nat} {objv : List Tcl_Obj}
    (hsound : PointersSound st) (hop : (TagOp.bindtags clientData objv).defined st)
    (name : String) :
    Tk_NameToWindow st name clientData = some none ∨
    ∃ (w : Nat) (win : TkWindow), Tk_NameToWindow st name clientData = some (some w) ∧
      st.windows[w]? = some win := by
  rcases hop with hnone | ⟨t, win, mi, main, hcd, hwin, hmain, hinfo⟩
  · left; rw [hnone]; rfl
  · have hres : Tk_NameToWindow st name clientData = some (main.nameTable.lookup name) := by
      simp [Tk_NameToWindow, hcd, hwin, hmain, hinfo]
    cases hl : main.nameTable.lookup name with
    | none => left; rw [hres, hl]
    | some w =>
      right
      have hlt := lookup_valid (hsound.1 main (List.getElem?_mem hinfo)) hl
      exact ⟨w, st.windows.get ⟨w, hlt⟩, by rw [hres, hl], List.getElem?_eq_getElem hlt⟩

theorem bindtags_defined {st : TkState} {clientData : Option Nat} {objv : List Tcl_Obj}
    (hcons : AllConsistent st) (hsound : PointersSound st)
    (hop : (TagOp.bindtags clientData objv).defined st) :
    ∃ out, Tk_BindtagsObjCmd st clientData objv = some out := by
  by_cases hlen : objv.length < 2 ∨ objv.length > 3
  · exact ⟨⟨TclCode.TCL_ERROR, none, st⟩, by simp [Tk_BindtagsObjCmd, hlen]⟩
  · match objv, hlen, hop with
    | [], hlen, _ => simp at hlen
    | [_], hlen, _ => simp at hlen
    | _ :: _ :: _ :: _ :: _, hlen, _ => simp at hlen
    | [cmd, name], _, hop =>
      rcases nameToWindow_defined hsound hop name.bytes with hn | ⟨w, win, hn, hw⟩
      · exact ⟨⟨TclCode.TCL_ERROR, none, st⟩, by simp [Tk_BindtagsObjCmd, hn]⟩
      · have hc : TagsConsistent win := hcons win (List.getElem?_mem hw)
        rcases consistent_cases hc with ⟨_, hnum⟩ | ⟨cs, hne, hold⟩
        · obtain ⟨l, r, hchain⟩ := hsound.2 w (List.getElem?_eq_some.mp hw).1
          exact ⟨_, query_default cmd hn hw hnum hchain⟩
        · exact ⟨_, query_explicit cmd hn hw hold hne⟩
    | [cmd, name, arg], _, hop =>
      rcases nameToWindow_defined hsound hop name.bytes with hn | ⟨w, win, hn, hw⟩
      · exact ⟨⟨TclCode.TCL_ERROR, none, st⟩, by simp [Tk_BindtagsObjCmd, hn]⟩
      · have hc : TagsConsistent win := hcons win (List.getElem?_mem hw)
        cases ha : arg.elements with
        | none => exact ⟨_, replace_fails cmd hn hw hc ha⟩
        | some tags =>
          by_cases hne : tags = []
          · subst hne; exact ⟨_, replace_clears cmd hn hw hc ha⟩
          · exact ⟨_, replace_stores cmd hn hw hc ha hne⟩

theorem runOp_defined {st : TkState} {op : TagOp} (hcons : AllConsistent st)
    (hsound : PointersSound st) (hop : op.defined st) : ∃ st2, runOp st op = some st2 := by
  cases op with
  | bindtags clientData objv =>
    obtain ⟨out, hout⟩ := bindtags_defined hcons hsound hop
    exact ⟨out.state, by simp [runOp, hout]⟩
  | free winPtr =>
    have hlt : winPtr < st.windows.length := hop
    have hw : st.windows[winPtr]? = some (st.windows.get ⟨winPtr, hlt⟩) :=
      List.getElem?_eq_getElem hlt
    have hc := hcons _ (List.getElem?_mem hw)
    exact ⟨_, freeBindingTags_readable hw (readable_of_consistent hc)⟩

theorem pointersSound_update {st st2 : TkState} (hsound : PointersSound st)
    (h : TagUpdate st st2) : PointersSound st2 := by
  rcases h with h | ⟨w, win, win2, hwin, hws, hmi, _, _, hflags, hparent, _, _⟩
  · rw [h]; exact hsound
  · refine ⟨?_, ?_⟩
    · intro main hmain e he
      rw [hmi] at hmain
      have := hsound.1 main hmain e he
      rw [hws, List.length_set]
      exact this
    · intro v hv
      rw [hws, List.length_set] at hv
      obtain ⟨l, r, hchain⟩ := hsound.2 v hv
      rw [hws]
      exact ⟨l, r, topChain_set hwin hflags hparent hchain⟩

theorem defined_update {st st2 : TkState} {op : TagOp} (hop : op.defined st)
    (h : TagUpdate st st2) : op.defined st2 := by
  rcases h with h | ⟨w, win, win2, hwin, hws, hmi, _, _, _, _, hmain2, _⟩
  · rw [h]; exact hop
  · cases op with
    | bindtags clientData objv =>
      rcases hop with hnone | ⟨t, tw, mi, main, hcd, htw, hmain, hinfo⟩
      · exact Or.inl hnone
      · right
        have hlt := (List.getElem?_eq_some.mp hwin).1
        by_cases hwt : w = t
        · subst hwt
          rw [hwin] at htw; cases htw
          exact ⟨w, win2, mi, main, hcd, by simp [hws, List.getElem?_set, hlt],
            by rw [hmain2, hmain], by rw [hmi]; exact hinfo⟩
        · exact ⟨t, tw, mi, main, hcd, by simp [hws, List.getElem?_set, hwt, htw], hmain,
            by rw [hmi]; exact hinfo⟩
    | free winPtr =>
      show winPtr < st2.windows.length
      rw [hws, List.length_set]
      exact hop

theorem runOps_defined (ops : List TagOp) :
    ∀ st : TkState, AllConsistent st → PointersSound st → (∀ op ∈ ops, op.defined st) →
      ∃ st2, runOps st ops = some st2 := by
  induction ops with
  | nil => intro st _ _ _; exact ⟨st, rfl⟩
  | cons op ops ih =>
    intro st hcons hsound hops
    obtain ⟨st1, h1⟩ := runOp_defined hcons hsound (hops op (List.mem_cons_self _ _))
    have hup := runOp_update hcons h1
    obtain ⟨st2, h2⟩ := ih st1 (allConsistent_update hcons hup) (pointersSound_update hsound hup)
      (fun o ho => defined_update (hops o (List.mem_cons_of_mem _ ho)) hup)
    exact ⟨st2, by simp [runOps, h1, h2]⟩

theorem consistent_explicit {win : TkWindow} (h : TagsConsistent win) :
    win.numTags = (win.tagPtr.getD []).length ∧
    (∀ tags, win.tagPtr = some tags → ∀ p ∈ tags, p ≠ none) ∧
    (win.tagPtr = none ↔ win.numTags = 0) := by
  unfold TagsConsistent at h
  cases htp : win.tagPtr with
  | none =>
    rw [htp] at h
    refine ⟨by simp [h], ?_, ?_⟩
    · intro tags ht; cases ht
    · exact ⟨fun _ => h, fun _ => rfl⟩
  | some tags =>
    rw [htp] at h
    obtain ⟨hlen, hne, hall⟩ := h
    refine ⟨by simp [hlen], ?_, ?_⟩
    · intro tags2 ht
      cases ht
      exact hall
    · exact ⟨fun hn => (by cases hn), fun h0 => absurd h0 hne⟩

theorem demo_pointersSound : PointersSound demoState := by
  refine ⟨by decide, ?_⟩
  intro w hw
  have h3 : w = 0 ∨ w = 1 ∨ w = 2 := by
    have : w < 3 := hw
    omega
  rcases h3 with h | h | h <;> subst h
  · exact ⟨[0], some 0, TopChain.top 0 demoRoot rfl (by decide)⟩
  · exact ⟨[1], some 1, TopChain.top 1 demoTop rfl (by decide)⟩
  · exact ⟨[2, 1], some 1,
      TopChain.up 2 demoBtn [1] (some 1) rfl (by decide) (TopChain.top 1 demoTop rfl (by decide))⟩

theorem demoRun_defined : ∀ op ∈ demoRun, op.defined demoState := by
  intro op hop
  simp only [demoRun, List.mem_cons, List.mem_singleton, List.mem_nil_iff, or_false] at hop
  rcases hop with h | h | h | h | h <;> subst h
  · exact Or.inr ⟨0, demoRoot, 0, demoMain, rfl, rfl, rfl, rfl⟩
  · exact Or.inr ⟨0, demoRoot, 0, demoMain, rfl, rfl, rfl, rfl⟩
  · exact Or.inr ⟨0, demoRoot, 0, demoMain, rfl, rfl, rfl, rfl⟩
  · show 2 < demoState.windows.length
    decide
  · exact Or.inr ⟨0, demoRoot, 0, demoMain, rfl, rfl, rfl, rfl⟩

/-- C18: tag-count consistency is an invariant of the tag store.  From a
state in which every window has a consistent tag state (so from windows with
`numTags` 0 and `tagPtr` `NULL`), after any sequence of `bindtags` commands
(query, replacement by an empty, non-empty or malformed list, or a failing
call) and calls of `TkFreeBindingTags`, every window has `numTags` equal to
the number of entries of `tagPtr`, no entry is `NULL`, and `tagPtr` is `NULL`
exactly when `numTags` is 0.  And the sequence does run to its end when the
pointers of the state lead somewhere and each operation is called on
something that exists. -/
theorem tag_count_invariant (st : TkState) (ops : List TagOp) (hstart : AllConsistent st) :
    (∀ st2, runOps st ops = some st2 → ∀ win ∈ st2.windows,
      win.numTags = (win.tagPtr.getD []).length ∧
      (∀ tags, win.tagPtr = some tags → ∀ p ∈ tags, p ≠ none) ∧
      (win.tagPtr = none ↔ win.numTags = 0)) ∧
    (PointersSound st → (∀ op ∈ ops, op.defined st) → ∃ st2, runOps st ops = some st2) :=
  ⟨fun st2 hrun win hwin => consistent_explicit (runOps_consistent ops st st2 hstart hrun win hwin),
    fun hsound hops => runOps_defined ops st hstart hsound hops⟩

/-- C18 (witness): the run of the examples starts from windows without tags
and ends in a state in which every window is consistent. -/
theorem tag_count_invariant_witness :
    (∀ win ∈ demoState.windows, win.numTags = 0 ∧ win.tagPtr = none) ∧
    AllConsistent demoState ∧
    ∃ st2, runOps demoState demoRun = some st2 ∧ ∀ win ∈ st2.windows,
      win.numTags = (win.tagPtr.getD []).length ∧
      (∀ tags, win.tagPtr = some tags → ∀ p ∈ tags, p ≠ none) ∧
      (win.tagPtr = none ↔ win.numTags = 0) := by
  have hstart : AllConsistent demoState := by unfold AllConsistent; decide
  have h := tag_count_invariant demoState demoRun hstart
  obtain ⟨st2, hrun⟩ := h.2 demo_pointersSound demoRun_defined
  exact ⟨by decide, hstart, st2, hrun, h.1 st2 hrun⟩

/-! ## Claims about releasing what was allocated -/

theorem storedTags_cons_dot {p : String} (rest : List String) (next : Nat)
    (hd : startsWithDot p = true) :
    storedTags (p :: rest) next
      = (CStr.mem next p :: (storedTags rest (next + 1)).1, (storedTags rest (next + 1)).2) := by
  simp [storedTags, hd]

theorem storedTags_cons_tag {p : String} (rest : List String) (next : Nat)
    (hd : ¬ startsWithDot p = true) :
    storedTags (p :: rest) next
      = (Tk_GetUid p :: (storedTags rest next).1, (storedTags rest next).2) := by
  simp [storedTags, hd]

theorem storedTags_dot_iff (tags : List String) :
    ∀ (next : Nat), ∀ c ∈ (storedTags tags next).1,
      startsWithDot c.text = c.isCopy := by
  induction tags with
  | nil => intro next c hc; simp [storedTags] at hc
  | cons p rest ih =>
    intro next c hc
    by_cases hd : startsWithDot p = true
    · rw [storedTags_cons_dot rest next hd] at hc
      rcases List.mem_cons.mp hc with h | h
      · rw [h]; simp [CStr.text, CStr.isCopy, hd]
      · exact ih (next + 1) c h
    · rw [storedTags_cons_tag rest next hd] at hc
      rcases List.mem_cons.mp hc with h | h
      · rw [h]; simpa [CStr.text, CStr.isCopy, Tk_GetUid] using hd
      · exact ih next c h

theorem storedTags_copy_ge (tags : List String) :
    ∀ (next : Nat), ∀ c ∈ (storedTags tags next).1, ∀ (a : Nat) (s : String),
      c = CStr.mem a s → next ≤ a := by
  induction tags with
  | nil => intro next c hc; simp [storedTags] at hc
  | cons p rest ih =>
    intro next c hc a s hcs
    by_cases hd : startsWithDot p = true
    · rw [storedTags_cons_dot rest next hd] at hc
      rcases List.mem_cons.mp hc with h | h
      · rw [h] at hcs; cases hcs; exact Nat.le_refl _
      · exact Nat.le_of_succ_le (ih (next + 1) c h a s hcs)
    · rw [storedTags_cons_tag rest next hd] at hc
      rcases List.mem_cons.mp hc with h | h
      · rw [h] at hcs; simp [Tk_GetUid] at hcs
      · exact ih next c h a s hcs

theorem storedTags_copies_nodup (tags : List String) :
    ∀ (next : Nat), ((storedTags tags next).1.filter CStr.isCopy).Nodup := by
  induction tags with
  | nil => intro next; simp [storedTags]
  | cons p rest ih =>
    intro next
    by_cases hd : startsWithDot p = true
    · rw [storedTags_cons_dot rest next hd]
      show (List.filter CStr.isCopy (CStr.mem next p :: (storedTags rest (next + 1)).1)).Nodup
      rw [List.filter_cons_of_pos (by rfl)]
      refine List.nodup_cons.mpr ⟨?_, ih (next + 1)⟩
      intro hmem
      have hin := (List.mem_filter.mp hmem).1
      have := storedTags_copy_ge rest (next + 1) _ hin next p rfl
      omega
    · rw [storedTags_cons_tag rest next hd]
      show (List.filter CStr.isCopy (Tk_GetUid p :: (storedTags rest next).1)).Nodup
      rw [List.filter_cons_of_neg (by simp [Tk_GetUid, CStr.isCopy])]
      exact ih next

theorem filter_dot_eq_copies (tags : List String) (next : Nat) :
    (storedTags tags next).1.filter (fun c => startsWithDot c.text)
      = (storedTags tags next).1.filter CStr.isCopy := by
  apply List.filter_congr
  intro c hc
  exact storedTags_dot_iff tags next c hc

theorem replace_log {st : TkState} {clientData : Option Nat} (cmd : Tcl_Obj)
    {name : Tcl_Obj} (arg : Tcl_Obj) {winPtr : Nat} {win : TkWindow}
    (hname : Tk_NameToWindow st name.bytes clientData = some (some winPtr))
    (hwin : st.windows[winPtr]? = some win) (hcons : TagsConsistent win) :
    ∃ out, Tk_BindtagsObjCmd st clientData [cmd, name, arg] = some out ∧
      out.state.freeLog = (clearTags st winPtr win).freeLog := by
  cases ha : arg.elements with
  | none => exact ⟨_, replace_fails cmd hname hwin hcons ha, rfl⟩
  | some tags =>
    by_cases hne : tags = []
    · subst hne; exact ⟨_, replace_clears cmd hname hwin hcons ha, rfl⟩
    · exact ⟨_, replace_stores cmd hname hwin hcons ha hne, rfl⟩

/-- C20: release matches ownership.  After the replace form of `bindtags`
has stored a non-empty list, the stored tags whose text starts with a dot are
exactly the copies in blocks of their own (the test on the text at release
agrees with the test at assignment), no copy occurs twice, and
`TkFreeBindingTags`, called directly or by the next replacement whatever its
list is, gives exactly these copies to `ckfree`, each once, in slot order,
and no uid. -/
theorem release_matches_ownership (st : TkState) (clientData : Option Nat)
    (cmd name arg : Tcl_Obj) (winPtr : Nat) (win : TkWindow) (tags : List String)
    (hname : Tk_NameToWindow st name.bytes clientData = some (some winPtr))
    (hwin : st.windows[winPtr]? = some win) (hcons : TagsConsistent win)
    (harg : arg.elements = some tags) (hne : tags ≠ []) :
    ∃ (st2 : TkState) (stored : List CStr),
      Tk_BindtagsObjCmd st clientData [cmd, name, arg] = some ⟨TclCode.TCL_OK, none, st2⟩ ∧
      (∃ win2, st2.windows[winPtr]? = some win2 ∧ HoldsTags win2 stored) ∧
      stored.map CStr.text = tags ∧
      (∀ c ∈ stored, startsWithDot c.text = c.isCopy) ∧
      (stored.filter CStr.isCopy).Nodup ∧
      (∀ s : String, CStr.uid s ∉ stored.filter CStr.isCopy) ∧
      (∃ st3, TkFreeBindingTags st2 winPtr = some st3 ∧
        st3.freeLog = (stored.filter CStr.isCopy).reverse ++ st2.freeLog) ∧
      (∀ arg2 : Tcl_Obj, ∃ out,
        Tk_BindtagsObjCmd st2 clientData [cmd, name, arg2] = some out ∧
        out.state.freeLog = (stored.filter CStr.isCopy).reverse ++ st2.freeLog) := by
  have hstore := replace_stores cmd hname hwin hcons harg hne
  have hw2 := installTags_window { win with numTags := 0, tagPtr := none } hwin tags
  have hold2 : HoldsTags
      ({ ({ win with numTags := 0, tagPtr := none } : TkWindow) with
          numTags := tags.length
          tagPtr := some ((storedTags tags st.nextBlock).1.map some) } : TkWindow)
      (storedTags tags st.nextBlock).1 := ⟨rfl, by simp [storedTags_length]⟩
  have hcons2 := stored_consistent ({ win with numTags := 0, tagPtr := none } : TkWindow)
    tags st.nextBlock hne
  have hname2 : Tk_NameToWindow
      (installTags (clearTags st winPtr win) winPtr { win with numTags := 0, tagPtr := none } tags)
      name.bytes clientData = some (some winPtr) := by
    rw [← hname]
    exact @nameToWindow_set st
      (installTags (clearTags st winPtr win) winPtr { win with numTags := 0, tagPtr := none } tags)
      winPtr win _ hwin rfl
      (installTags_windows st winPtr win { win with numTags := 0, tagPtr := none } tags) rfl _ _
  have hlog : ∀ st2 : TkState,
      (clearTags st2 winPtr
        ({ ({ win with numTags := 0, tagPtr := none } : TkWindow) with
            numTags := tags.length
            tagPtr := some ((storedTags tags st.nextBlock).1.map some) } : TkWindow)).freeLog
        = ((storedTags tags st.nextBlock).1.filter CStr.isCopy).reverse ++ st2.freeLog := by
    intro st2
    simp only [clearTags, heldTags_of_holds hold2, filter_dot_eq_copies]
  refine ⟨_, (storedTags tags st.nextBlock).1, hstore, ⟨_, hw2, hold2⟩,
    storedTags_text tags st.nextBlock, storedTags_dot_iff tags st.nextBlock,
    storedTags_copies_nodup tags st.nextBlock, ?_, ?_, ?_⟩
  · intro s hmem
    have := (List.mem_filter.mp hmem).2
    simp [CStr.isCopy] at this
  · exact ⟨_, freeBindingTags_holds hw2 hold2, hlog _⟩
  · intro arg2
    obtain ⟨out, hout, hfree⟩ := replace_log cmd arg2 hname2 hw2 hcons2
    exact ⟨out, hout, by rw [hfree, hlog]⟩

/-- C20 (witness): after `bindtags .top.btn {Button .top .gone all}` the
copies of `.top` and `.gone` are released, each once, and the uids `Button`
and `all` are not. -/
theorem release_matches_ownership_witness :
    Tk_NameToWindow demoState (pathArg ".top.btn").bytes (some 0) = some (some 2) ∧
    TagsConsistent demoBtn ∧
    Tk_BindtagsObjCmd demoState (some 0) [bindtagsWord, pathArg ".top.btn",
        listArg "Button .top .gone all" ["Button", ".top", ".gone", "all"]]
      = some ⟨TclCode.TCL_OK, none, taggedState⟩ ∧
    demoTags.filter CStr.isCopy = [CStr.mem 1000 ".top", CStr.mem 1001 ".gone"] ∧
    (∃ st3, TkFreeBindingTags taggedState 2 = some st3 ∧
      st3.freeLog = [CStr.mem 1001 ".gone", CStr.mem 1000 ".top"]) := by
  obtain ⟨st2, stored, h1, ⟨win2, hw2, hold2⟩, _, _, _, _, ⟨st3, h3, hlog⟩, _⟩ :=
    release_matches_ownership demoState (some 0) bindtagsWord (pathArg ".top.btn")
      (listArg "Button .top .gone all" ["Button", ".top", ".gone", "all"]) 2 demoBtn
      ["Button", ".top", ".gone", "all"] (by decide) rfl (by decide) rfl (by decide)
  have h2 : Tk_BindtagsObjCmd demoState (some 0) [bindtagsWord, pathArg ".top.btn",
        listArg "Button .top .gone all" ["Button", ".top", ".gone", "all"]]
      = some ⟨TclCode.TCL_OK, none, taggedState⟩ := by decide
  rw [h2] at h1
  simp only [Option.some.injEq, CmdOutcome.mk.injEq, true_and] at h1
  subst h1
  have hst : stored = demoTags := by
    have hwin : taggedState.windows[2]?
        = some { demoBtn with numTags := 4, tagPtr := some (demoTags.map some) } := rfl
    rw [hwin] at hw2
    cases hw2
    have := hold2.1
    simp only [Option.some.injEq] at this
    exact (List.map_injective_iff.mpr (Option.some_injective _) this).symm
  subst hst
  exact ⟨by decide, by decide, h2, by decide, st3, h3, by rw [hlog]; decide⟩

/-! ## Claims about the ancestor walk and the loops -/

theorem topHierarchyLoop_eq_winPtr2Loop (ws : List TkWindow) :
    ∀ (k : Nat) (p : Option Nat), topHierarchyLoop ws k p = winPtr2Loop ws k p := by
  intro k
  induction k with
  | zero => intro p; cases p <;> rfl
  | succ k ih =>
    intro p
    cases p with
    | none => rfl
    | some t =>
      simp only [topHierarchyLoop, winPtr2Loop, Tk_TopWinHierarchy]
      cases ws[t]? with
      | none => rfl
      | some tw => simp only [Option.bind_eq_bind, Option.some_bind, ih]

theorem winPtr2Loop_short {ws : List TkWindow} {p : Option Nat} {l : List Nat}
    {r : Option Nat} (h : TopChain ws p l r) :
    ∀ k, k < l.length → winPtr2Loop ws k p = none := by
  induction h with
  | null => intro k hk; simp at hk
  | top t tw hw hf =>
    intro k hk
    have : k = 0 := by simpa using hk
    subst this
    rfl
  | up t tw l r hw hf hc ih =>
    intro k hk
    cases k with
    | zero => rfl
    | succ k =>
      simp only [List.length_cons, Nat.add_lt_add_iff_right] at hk
      simp [winPtr2Loop, hw, hf, ih k hk]

theorem parentChain_top {ws : List TkWindow} {p : Option Nat} {chain : List Nat}
    (h : ParentChain ws p chain) :
    ∃ (l : List Nat) (r : Option Nat), TopChain ws p l r ∧ l.length ≤ chain.length ∧
      (∀ t : Nat, r = some t ↔ ∃ k : Nat, chain[k]? = some t ∧ flaggedAt ws t = true ∧
        ∀ j : Nat, j < k → ∀ u : Nat, chain[j]? = some u → flaggedAt ws u = false) ∧
      (r = none ↔ ∀ t ∈ chain, flaggedAt ws t = false) := by
  induction h with
  | null =>
    refine ⟨[], none, TopChain.null, Nat.le_refl _, ?_, ?_⟩
    · intro t; simp
    · simp
  | step t tw chain hw _ ih =>
    by_cases hf : Tk_TopWinHierarchy tw = true
    · have hft : flaggedAt ws t = true := by simp [flaggedAt, hw, hf]
      refine ⟨[t], some t, TopChain.top t tw hw hf, by simp, ?_, ?_⟩
      · intro u
        constructor
        · intro hu
          cases hu
          exact ⟨0, by simp, hft, fun j hj => absurd hj (Nat.not_lt_zero j)⟩
        · rintro ⟨k, hk, _, hbefore⟩
          cases k with
          | zero => simp at hk; rw [hk]
          | succ k =>
            have := hbefore 0 (Nat.succ_pos k) t (by simp)
            rw [hft] at this; cases this
      · constructor
        · intro hn; cases hn
        · intro hall
          have := hall t (List.mem_cons_self _ _)
          rw [hft] at this; cases this
    · have hf2 : Tk_TopWinHierarchy tw = false := by simpa using hf
      have hft : flaggedAt ws t = false := by simp [flaggedAt, hw, hf2]
      obtain ⟨l, r, hchain, hlen, hsome, hnone⟩ := ih
      refine ⟨t :: l, r, TopChain.up t tw l r hw hf2 hchain, by simpa using hlen, ?_, ?_⟩
      · intro u
        constructor
        · intro hu
          obtain ⟨k, hk, hfu, hbefore⟩ := (hsome u).mp hu
          refine ⟨k + 1, by simpa using hk, hfu, ?_⟩
          intro j hj v hv
          cases j with
          | zero => simp at hv; rw [← hv]; exact hft
          | succ j => exact hbefore j (by omega) v (by simpa using hv)
        · rintro ⟨k, hk, hfu, hbefore⟩
          cases k with
          | zero => simp at hk; rw [← hk, hft] at hfu; cases hfu
          | succ k =>
            refine (hsome u).mpr ⟨k, by simpa using hk, hfu, ?_⟩
            intro j hj v hv
            exact hbefore (j + 1) (by omega) v (by simpa using hv)
      · rw [hnone]
        constructor
        · intro hall u hu
          rcases List.mem_cons.mp hu with h | h
          · rw [h]; exact hft
          · exact hall u h
        · intro hall u hu
          exact hall u (List.mem_cons_of_mem _ hu)

theorem forFrom_counted {σ : Type} (body : Nat → σ → Option σ) :
    ∀ (k i : Nat) (s : σ) (c : Nat),
      forFrom (counted body) k i (s, c) = (forFrom body k i s).map (fun x => (x, c + k)) := by
  intro k
  induction k with
  | zero => intro i s c; simp [forFrom]
  | succ k ih =>
    intro i s c
    cases hb : body i s with
    | none => simp [forFrom, counted, hb]
    | some s2 =>
      simp only [forFrom, counted, hb, Option.map_some', Option.some_bind, ih]
      congr 1
      funext x
      congr 1
      omega

theorem forLoop_counted {σ : Type} (n : Nat) (body : Nat → σ → Option σ) (s : σ) :
    forLoop n (counted body) (s, 0) = (forLoop n body s).map (fun x => (x, n)) := by
  simp [forLoop, forFrom_counted]

theorem parentChain_head {ws : List TkWindow} {w : Nat} {chain : List Nat}
    (h : ParentChain ws (some w) chain) : chain[0]? = some w := by
  cases h with
  | step _ tw l hw hc => simp

/-- C23: for a window whose parent chain is finite, `GetTopHierarchy` returns
the first window of the chain (the window, its parent, its grandparent, ...)
that is flagged as hierarchy root: the window itself when it is flagged, and
`NULL` exactly when no window of the chain is flagged.  The ancestor loops of
`TkBindEventProc` and of the `bindtags` query stop with the same result, and
it is this window that the default tags of both are made from. -/
theorem getTopHierarchy_first_flagged (st : TkState) (w : Nat) (chain : List Nat)
    (hchain : ParentChain st.windows (some w) chain) :
    ∃ r : Option Nat, GetTopHierarchy st (some w) = some r ∧
      (∀ t : Nat, r = some t ↔ ∃ k : Nat, chain[k]? = some t ∧
        flaggedAt st.windows t = true ∧
        ∀ j : Nat, j < k → ∀ u : Nat, chain[j]? = some u → flaggedAt st.windows u = false) ∧
      (flaggedAt st.windows w = true → r = some w) ∧
      (r = none ↔ ∀ t ∈ chain, flaggedAt st.windows t = false) ∧
      topLevLoop st.windows st.windows.length (some w) = some r ∧
      winPtr2Loop st.windows st.windows.length (some w) = some r ∧
      (∀ (clientData : Option Nat) (cmd name : Tcl_Obj) (win : TkWindow),
        Tk_NameToWindow st name.bytes clientData = some (some w) →
        st.windows[w]? = some win → win.numTags = 0 →
        Tk_BindtagsObjCmd st clientData [cmd, name]
          = some ⟨TclCode.TCL_OK, some (defaultTexts win (otherTop st.windows w r)), st⟩) ∧
      (∀ (eventPtr mi table : Nat) (win : TkWindow) (main : TkMainInfo),
        st.windows[w]? = some win → win.mainPtr = some mi → st.mainInfos[mi]? = some main →
        main.bindingTable = some table → win.numTags = 0 →
        TkBindEventProc st w eventPtr
          = some ⟨[⟨table, eventPtr, w, (defaultObjects win (otherTop st.windows w r)).length,
              defaultObjects win (otherTop st.windows w r)⟩], none, false⟩) := by
  obtain ⟨l, r, htop, _, hsome, hnone⟩ := parentChain_top hchain
  have hloop := winPtr2Loop_of_chain htop _ (topChain_length_le htop)
  refine ⟨r, ?_, hsome, ?_, hnone, ?_, hloop, ?_, ?_⟩
  · rw [GetTopHierarchy, topHierarchyLoop_eq_winPtr2Loop]; exact hloop
  · intro hf
    exact (hsome w).mpr ⟨0, parentChain_head hchain, hf,
      fun j hj => absurd hj (Nat.not_lt_zero j)⟩
  · rw [topLevLoop_eq_winPtr2Loop]; exact hloop
  · intro clientData cmd name win hname hwin hnum
    exact query_default cmd hname hwin hnum htop
  · intro eventPtr mi table win main hwin hmain hinfo htable hnum
    exact dispatch_default eventPtr hwin hmain hinfo htable hnum htop

/-- C23 (witness): from the button `.top.btn` the chain is the button, `.top`
and the main window, and `GetTopHierarchy` returns `.top`. -/
theorem getTopHierarchy_first_flagged_witness :
    ParentChain demoState.windows (some 2) [2, 1, 0] ∧
    GetTopHierarchy demoState (some 2) = some (some 1) ∧
    ∃ r : Option Nat, GetTopHierarchy demoState (some 2) = some r ∧
      (r = none ↔ ∀ t ∈ [2, 1, 0], flaggedAt demoState.windows t = false) ∧
      topLevLoop demoState.windows demoState.windows.length (some 2) = some r ∧
      winPtr2Loop demoState.windows demoState.windows.length (some 2) = some r := by
  have hchain : ParentChain demoState.windows (some 2) [2, 1, 0] :=
    ParentChain.step 2 demoBtn [1, 0] rfl
      (ParentChain.step 1 demoTop [0] rfl
        (ParentChain.step 0 demoRoot [] rfl ParentChain.null))
  obtain ⟨r, h1, _, _, h4, h5, h6, _⟩ := getTopHierarchy_first_flagged demoState 2 [2, 1, 0] hchain
  exact ⟨hchain, by decide, r, h1, h4, h5, h6⟩

/-- C24: bounded construction.  For a window whose parent chain is finite and
has `d + 1` windows (the window and `d` ancestors), each of the three
ancestor walks (of `TkBindEventProc`, of the `bindtags` query, of
`GetTopHierarchy`) stops after visiting some number `m ≤ d + 1` of windows:
with at least `m` steps allowed it returns its result, with fewer it has not
stopped yet.  And for a window that holds `n` tags the loops of the query, of
the release and of the dispatch run their body exactly `n` times, as does the
store loop of an assignment of `n` texts. -/
theorem bounded_construction (st : TkState) (w d : Nat) (chain : List Nat)
    (win : TkWindow) (cs : List CStr)
    (hchain : ParentChain st.windows (some w) chain) (hd : chain.length = d + 1)
    (hold : HoldsTags win cs) :
    (∃ (r : Option Nat) (m : Nat), m ≤ d + 1 ∧ m ≤ st.windows.length ∧
      (∀ k, m ≤ k → topLevLoop st.windows k (some w) = some r ∧
        winPtr2Loop st.windows k (some w) = some r ∧
        topHierarchyLoop st.windows k (some w) = some r) ∧
      (∀ k, k < m → topLevLoop st.windows k (some w) = none ∧
        winPtr2Loop st.windows k (some w) = none ∧
        topHierarchyLoop st.windows k (some w) = none)) ∧
    forLoop win.numTags (counted (appendTag win)) ([], 0)
      = some (cs.map CStr.text, cs.length) ∧
    (∀ log : List CStr, forLoop win.numTags (counted (freeTag win)) (log, 0)
      = some ((cs.filter (fun c => startsWithDot c.text)).reverse ++ log, cs.length)) ∧
    (∀ (main : TkMainInfo) (qs : List (Option CStr)) (extra : Nat),
      cs.map (resolveTag st main) = qs.map some →
      forLoop win.numTags (counted (copyTag st main win))
          (List.replicate (cs.length + extra) none, 0)
        = some (qs ++ List.replicate extra none, cs.length)) ∧
    (∀ (tags : List String) (next : Nat),
      forLoop tags.length (counted (storeTag tags)) ((List.replicate tags.length none, next), 0)
        = some (((storedTags tags next).1.map some, (storedTags tags next).2), tags.length)) := by
  obtain ⟨l, r, htop, hlen, _, _⟩ := parentChain_top hchain
  refine ⟨⟨r, l.length, by omega, topChain_length_le htop, ?_, ?_⟩, ?_, ?_, ?_, ?_⟩
  · intro k hk
    have := winPtr2Loop_of_chain htop k hk
    exact ⟨by rw [topLevLoop_eq_winPtr2Loop]; exact this, this,
      by rw [topHierarchyLoop_eq_winPtr2Loop]; exact this⟩
  · intro k hk
    have := winPtr2Loop_short htop k hk
    exact ⟨by rw [topLevLoop_eq_winPtr2Loop]; exact this, this,
      by rw [topHierarchyLoop_eq_winPtr2Loop]; exact this⟩
  · have hloop := appendTag_loop hold.1 cs [] [] rfl
    simp only [List.length_nil, List.nil_append] at hloop
    rw [forLoop_counted, hold.2, forLoop, hloop]
    rfl
  · intro log
    have hloop := freeTag_loop hold.1 cs [] log rfl
    simp only [List.length_nil] at hloop
    rw [forLoop_counted, hold.2, forLoop, hloop]
    rfl
  · intro main qs extra hres
    have hloop := copyTag_loop st main hold.1 extra cs [] qs [] rfl rfl hres
    simp only [List.length_nil, List.nil_append] at hloop
    rw [forLoop_counted, hold.2, forLoop, hloop]
    rfl
  · intro tags next
    have hloop := storeTag_loop tags tags [] [] next rfl rfl
    simp only [List.length_nil, List.nil_append] at hloop
    rw [forLoop_counted, forLoop, hloop]
    rfl

/-- C24 (witness): the button `.top.btn` has two ancestors and holds four
tags. -/
theorem bounded_construction_witness :
    ParentChain taggedState.windows (some 2) [2, 1, 0] ∧
    (∃ (r : Option Nat) (m : Nat), m ≤ 2 + 1 ∧ m ≤ taggedState.windows.length ∧
      (∀ k, m ≤ k → topLevLoop taggedState.windows k (some 2) = some r ∧
        winPtr2Loop taggedState.windows k (some 2) = some r ∧
        topHierarchyLoop taggedState.windows k (some 2) = some r) ∧
      (∀ k, k < m → topLevLoop taggedState.windows k (some 2) = none ∧
        winPtr2Loop taggedState.windows k (some 2) = none ∧
        topHierarchyLoop taggedState.windows k (some 2) = none)) ∧
    forLoop 4 (counted (appendTag { demoBtn with
        numTags := 4, tagPtr := some (demoTags.map some) })) ([], 0)
      = some (["Button", ".top", ".gone", "all"], 4) := by
  have hchain : ParentChain taggedState.windows (some 2) [2, 1, 0] :=
    ParentChain.step 2 _ [1, 0] rfl
      (ParentChain.step 1 demoTop [0] rfl
        (ParentChain.step 0 demoRoot [] rfl ParentChain.null))
  have h := bounded_construction taggedState 2 2 [2, 1, 0]
    { demoBtn with numTags := 4, tagPtr := some (demoTags.map some) } demoTags
    hchain rfl ⟨rfl, rfl⟩
  exact ⟨hchain, h.1, h.2.1⟩

/-! ## Claims about the dispatch buffer and the call of Tk_BindEvent -/

theorem writeSlot_in_bounds (buf : List (Option CStr)) (i : Nat) (p : Option CStr)
    (h : i < buf.length) :
    ∃ buf2, writeSlot buf i p = some buf2 ∧ buf2.length = buf.length :=
  ⟨buf.set i p, by simp [writeSlot, h], by simp⟩

theorem writeSlot_checked (buf buf2 : List (Option CStr)) (i : Nat) (p : Option CStr)
    (h : writeSlot buf i p = some buf2) : i < buf.length := by
  by_cases hi : i < buf.length
  · exact hi
  · simp [writeSlot, hi] at h

theorem dispatch_consistent {st : TkState} {winPtr : Nat} (eventPtr : Nat) {mi table : Nat}
    {win : TkWindow} {main : TkMainInfo}
    (hwin : st.windows[winPtr]? = some win) (hmain : win.mainPtr = some mi)
    (hinfo : st.mainInfos[mi]? = some main) (htable : main.bindingTable = some table)
    (hcons : TagsConsistent win) (hvalid : NameTableValid st main)
    (hchain : win.numTags = 0 → ∃ l r, TopChain st.windows (some winPtr) l r) :
    ∃ (count : Nat) (objs : List (Option CStr)),
      TkBindEventProc st winPtr eventPtr
        = some ⟨[⟨table, eventPtr, winPtr, count, objs⟩],
            if win.numTags > MAX_OBJS then some win.numTags else none,
            decide (win.numTags > MAX_OBJS)⟩ ∧
      objs.length = count ∧
      (win.numTags = 0 → count = 3 ∨ count = 4) ∧ (win.numTags ≠ 0 → count = win.numTags) := by
  rcases consistent_cases hcons with ⟨_, hnum⟩ | ⟨cs, hne, hold⟩
  · obtain ⟨l, r, hc⟩ := hchain hnum
    have hd := dispatch_default eventPtr hwin hmain hinfo htable hnum hc
    have hsmall : ¬ win.numTags > MAX_OBJS := by rw [hnum]; decide
    refine ⟨(defaultObjects win (otherTop st.windows winPtr r)).length,
      defaultObjects win (otherTop st.windows winPtr r), by rw [hd]; simp [hsmall], rfl, ?_,
      fun h => absurd hnum h⟩
    intro _
    cases otherTop st.windows winPtr r <;> simp [defaultObjects]
  · obtain ⟨qs, hres⟩ := resolveTag_total hvalid cs
    have hd := dispatch_explicit eventPtr hwin hmain hinfo htable hold hne hres
    have hqlen : qs.length = cs.length := by
      have := congrArg List.length hres
      simpa using this.symm
    have hnz : win.numTags ≠ 0 := by
      rw [hold.2]; exact fun h => hne (List.length_eq_zero.mp h)
    refine ⟨cs.length, qs, by rw [hd, hold.2], hqlen, fun h => absurd h hnz, fun _ => hold.2.symm⟩

/-- C21: dispatch-buffer bounds.  For a window with a main info and a binding
table (and a consistent tag state), `TkBindEventProc` hands `Tk_BindEvent` a
count that is at most the capacity of the buffer in use: the inline buffer of
20 slots exactly when `numTags ≤ 20` (the default case counts at most 4), a
heap buffer of exactly `numTags` slots exactly when `numTags > 20`.  Every
index below the count (the indices written) can be stored at in a buffer of
that capacity, and the function, whose stores are all checked against the
capacity, returns.  A buffer is released after the call exactly when one was
allocated. -/
theorem dispatch_buffer_bounds (st : TkState) (winPtr eventPtr mi table : Nat)
    (win : TkWindow) (main : TkMainInfo)
    (hwin : st.windows[winPtr]? = some win) (hmain : win.mainPtr = some mi)
    (hinfo : st.mainInfos[mi]? = some main) (htable : main.bindingTable = some table)
    (hcons : TagsConsistent win) (hvalid : NameTableValid st main)
    (hchain : win.numTags = 0 → ∃ l r, TopChain st.windows (some winPtr) l r) :
    ∃ (call : BindEventCall) (heap : Option Nat) (freed : Bool) (capacity : Nat),
      TkBindEventProc st winPtr eventPtr = some ⟨[call], heap, freed⟩ ∧
      capacity = (if win.numTags > 20 then win.numTags else 20) ∧
      call.numObjects ≤ capacity ∧ call.objectPtr.length = call.numObjects ∧
      (win.numTags = 0 → call.numObjects ≤ 4) ∧
      (win.numTags ≠ 0 → call.numObjects = win.numTags) ∧
      (heap = none ↔ win.numTags ≤ 20) ∧
      (heap = some win.numTags ↔ win.numTags > 20) ∧
      (∀ k, heap = some k → k = win.numTags) ∧
      (freed = true ↔ heap ≠ none) ∧
      (∀ (i : Nat) (buf : List (Option CStr)) (p : Option CStr), buf.length = capacity →
        i < call.numObjects → ∃ buf2, writeSlot buf i p = some buf2 ∧ buf2.length = capacity) := by
  obtain ⟨count, objs, hcall, hlen, h0, hn⟩ :=
    dispatch_consistent eventPtr hwin hmain hinfo htable hcons hvalid hchain
  have hcap : count ≤ (if win.numTags > 20 then win.numTags else 20) := by
    by_cases hz : win.numTags = 0
    · have := h0 hz
      rw [hz]
      simp
      omega
    · rw [hn hz]
      split <;> omega
  refine ⟨_, _, _, _, hcall, rfl, hcap, hlen, ?_, hn, ?_, ?_, ?_, ?_, ?_⟩
  · intro hz
    have := h0 hz
    show count ≤ 4
    omega
  · by_cases hbig : win.numTags > MAX_OBJS
    · have h20 : win.numTags > 20 := hbig
      simp [hbig]; omega
    · have h20 : ¬ win.numTags > 20 := hbig
      simp [hbig]; omega
  · by_cases hbig : win.numTags > MAX_OBJS
    · have h20 : win.numTags > 20 := hbig
      simp [hbig, h20]
    · have h20 : ¬ win.numTags > 20 := hbig
      simp [hbig, h20]
  · intro k hk
    by_cases hbig : win.numTags > MAX_OBJS
    · simp [hbig] at hk; exact hk.symm
    · simp [hbig] at hk
  · by_cases hbig : win.numTags > MAX_OBJS <;> simp [hbig]
  · intro i buf p hbuf hi
    have hi2 : i < buf.length := by
      rw [hbuf]
      exact Nat.lt_of_lt_of_le hi hcap
    obtain ⟨buf2, h1, h2⟩ := writeSlot_in_bounds buf i p hi2
    exact ⟨buf2, h1, by rw [h2, hbuf]⟩

/-- C21 (witness): the button with 25 tags is dispatched from a heap buffer
of 25 slots, which is released. -/
theorem dispatch_buffer_bounds_witness :
    TagsConsistent manyBtn ∧ NameTableValid manyState demoMain ∧
    ∃ (call : BindEventCall) (capacity : Nat),
      TkBindEventProc manyState 2 5 = some ⟨[call], some 25, true⟩ ∧
      capacity = 25 ∧ call.numObjects ≤ capacity := by
  obtain ⟨call, heap, freed, capacity, h1, h2, h3, _, _, _, _, h8, _, h10, _⟩ :=
    dispatch_buffer_bounds manyState 2 5 0 7 manyBtn demoMain rfl rfl rfl rfl
      (by decide) (by decide) (fun h => absurd h (by decide))
  have hheap : heap = some 25 := h8.mpr (by decide)
  have hfreed : freed = true := h10.mpr (by rw [hheap]; exact Option.some_ne_none _)
  subst hheap; subst hfreed
  exact ⟨by decide, by decide, call, capacity, h1, h2, h3⟩

/-- C26: `TkBindEventProc` returns without a call of `Tk_BindEvent`, and
without a buffer, when `mainPtr` of the window is `NULL` or the binding table
of the main info is `NULL`; when both are there (and the tag state of the
window is consistent) it calls `Tk_BindEvent` exactly once, for this binding
table, event and window. -/
theorem bind_event_called_once (st : TkState) (winPtr eventPtr : Nat) (win : TkWindow)
    (hwin : st.windows[winPtr]? = some win) :
    (win.mainPtr = none → TkBindEventProc st winPtr eventPtr = some ⟨[], none, false⟩) ∧
    (∀ (mi : Nat) (main : TkMainInfo), win.mainPtr = some mi → st.mainInfos[mi]? = some main →
      main.bindingTable = none → TkBindEventProc st winPtr eventPtr = some ⟨[], none, false⟩) ∧
    (∀ (mi table : Nat) (main : TkMainInfo), win.mainPtr = some mi →
      st.mainInfos[mi]? = some main → main.bindingTable = some table →
      TagsConsistent win → NameTableValid st main →
      (win.numTags = 0 → ∃ l r, TopChain st.windows (some winPtr) l r) →
      ∃ (count : Nat) (objs : List (Option CStr)) (heap : Option Nat) (freed : Bool),
        TkBindEventProc st winPtr eventPtr
          = some ⟨[⟨table, eventPtr, winPtr, count, objs⟩], heap, freed⟩) := by
  refine ⟨?_, ?_, ?_⟩
  · intro hmain
    simp [TkBindEventProc, hwin, hmain]
  · intro mi main hmain hinfo htable
    simp [TkBindEventProc, hwin, hmain, hinfo, htable]
  · intro mi table main hmain hinfo htable hcons hvalid hchain
    obtain ⟨count, objs, hcall, _⟩ :=
      dispatch_consistent eventPtr hwin hmain hinfo htable hcons hvalid hchain
    exact ⟨count, objs, _, _, hcall⟩

/-- C26 (witness): the button of the example state is dispatched with one
call, for the binding table 7. -/
theorem bind_event_called_once_witness :
    demoState.windows[2]? = some demoBtn ∧
    ∃ (count : Nat) (objs : List (Option CStr)) (heap : Option Nat) (freed : Bool),
      TkBindEventProc demoState 2 5 = some ⟨[⟨7, 5, 2, count, objs⟩], heap, freed⟩ :=
  ⟨rfl, (bind_event_called_once demoState 2 5 demoBtn rfl).2.2 0 7 demoMain rfl rfl rfl
    (by decide) (by decide)
    (fun _ => ⟨[2, 1], some 1,
      TopChain.up 2 demoBtn [1] (some 1) rfl (by decide)
        (TopChain.top 1 demoTop rfl (by decide))⟩)⟩

/-! ## Claims about ownership and the texts of the dispatch list -/

theorem replace_windows {st : TkState} {clientData : Option Nat} (cmd : Tcl_Obj)
    {name : Tcl_Obj} (arg : Tcl_Obj) {winPtr : Nat} {win : TkWindow}
    (hname : Tk_NameToWindow st name.bytes clientData = some (some winPtr))
    (hwin : st.windows[winPtr]? = some win) (hcons : TagsConsistent win) :
    ∃ (out : CmdOutcome) (win2 : TkWindow),
      Tk_BindtagsObjCmd st clientData [cmd, name, arg] = some out ∧
      out.state.windows = st.windows.set winPtr win2 ∧
      out.state.freeLog = (clearTags st winPtr win).freeLog := by
  cases ha : arg.elements with
  | none => exact ⟨_, _, replace_fails cmd hname hwin hcons ha, rfl, rfl⟩
  | some tags =>
    by_cases hne : tags = []
    · subst hne; exact ⟨_, _, replace_clears cmd hname hwin hcons ha, rfl, rfl⟩
    · exact ⟨_, _, replace_stores cmd hname hwin hcons ha hne,
        installTags_windows st winPtr win _ tags, rfl⟩

theorem clearTags_log {st : TkState} {winPtr : Nat} {win : TkWindow} {c : CStr}
    (h : c ∈ (clearTags st winPtr win).freeLog) : c ∈ st.freeLog ∨ c ∈ heldTags win := by
  simp only [clearTags, List.mem_append, List.mem_reverse, List.mem_filter] at h
  rcases h with h | h
  · exact Or.inr h.1
  · exact Or.inl h

/-- C22: per-window ownership.  For distinct windows `W` and `V`, a replace
form of `bindtags` on `W`, whatever its list argument, and a call of
`TkFreeBindingTags` on `W` both return and leave the record of `V`, so its
`numTags` and every stored tag, as it was; and whatever they give to `ckfree`
was a tag held by `W`. -/
theorem tag_lists_are_per_window (st : TkState) (clientData : Option Nat)
    (cmd name arg : Tcl_Obj) (W V : Nat) (win : TkWindow)
    (hname : Tk_NameToWindow st name.bytes clientData = some (some W))
    (hwin : st.windows[W]? = some win) (hcons : TagsConsistent win) (hne : V ≠ W) :
    (∃ out, Tk_BindtagsObjCmd st clientData [cmd, name, arg] = some out ∧
      out.state.windows[V]? = st.windows[V]? ∧
      (∀ vwin, st.windows[V]? = some vwin →
        ∃ vwin2, out.state.windows[V]? = some vwin2 ∧ vwin2.numTags = vwin.numTags ∧
          vwin2.tagPtr = vwin.tagPtr) ∧
      (∀ c ∈ out.state.freeLog, c ∈ st.freeLog ∨ c ∈ heldTags win)) ∧
    (∃ st2, TkFreeBindingTags st W = some st2 ∧
      st2.windows[V]? = st.windows[V]? ∧
      (∀ vwin, st.windows[V]? = some vwin →
        ∃ vwin2, st2.windows[V]? = some vwin2 ∧ vwin2.numTags = vwin.numTags ∧
          vwin2.tagPtr = vwin.tagPtr) ∧
      (∀ c ∈ st2.freeLog, c ∈ st.freeLog ∨ c ∈ heldTags win)) := by
  have hne2 : W ≠ V := fun h => hne h.symm
  constructor
  · obtain ⟨out, win2, hout, hwins, hlog⟩ := replace_windows cmd arg hname hwin hcons
    have hV : out.state.windows[V]? = st.windows[V]? := by
      rw [hwins]; simp [List.getElem?_set, hne2]
    refine ⟨out, hout, hV, fun vwin hv => ⟨vwin, by rw [hV, hv], rfl, rfl⟩, ?_⟩
    intro c hc
    rw [hlog] at hc
    exact clearTags_log hc
  · have hfree := freeBindingTags_readable hwin (readable_of_consistent hcons)
    have hV : (clearTags st W win).windows[V]? = st.windows[V]? := by
      simp [clearTags, List.getElem?_set, hne2]
    exact ⟨_, hfree, hV, fun vwin hv => ⟨vwin, by rw [hV, hv], rfl, rfl⟩,
      fun c hc => clearTags_log hc⟩

/-- C22 (witness): replacing or releasing the tags of the button leaves the
toplevel `.top` as it was. -/
theorem tag_lists_are_per_window_witness :
    (∃ out, Tk_BindtagsObjCmd taggedState (some 0)
        [bindtagsWord, pathArg ".top.btn", listArg "a .b" ["a", ".b"]] = some out ∧
      out.state.windows[1]? = some demoTop) ∧
    (∃ st2, TkFreeBindingTags taggedState 2 = some st2 ∧ st2.windows[1]? = some demoTop) := by
  obtain ⟨⟨out, h1, h2, _⟩, ⟨st2, h3, h4, _⟩⟩ :=
    tag_lists_are_per_window taggedState (some 0) bindtagsWord (pathArg ".top.btn")
      (listArg "a .b" ["a", ".b"]) 2 1 _ (by decide) rfl (by decide) (by decide)
  exact ⟨⟨out, h1, h2⟩, ⟨st2, h3, h4⟩⟩

theorem lookup_entry {table : List (String × Nat)} {s : String} {v : Nat}
    (h : table.lookup s = some v) : (s, v) ∈ table := by
  induction table with
  | nil => simp [List.lookup] at h
  | cons e table ih =>
    obtain ⟨k, u⟩ := e
    by_cases hk : s = k
    · subst hk
      simp [List.lookup] at h
      subst h
      exact List.mem_cons_self _ _
    · have hb : (s == k) = false := by simpa using hk
      simp only [List.lookup, hb] at h
      exact List.mem_cons_of_mem _ (ih h)

theorem named_valid {st : TkState} {main : TkMainInfo} (h : NameTableNamed st main) :
    NameTableValid st main := by
  intro e he
  have := h e he
  cases hw : st.windows[e.2]? with
  | none => rw [hw] at this; cases this
  | some tw => exact (List.getElem?_eq_some.mp hw).1

theorem resolveTag_text {st : TkState} {main : TkMainInfo} (hnamed : NameTableNamed st main)
    {c q : CStr} (h : resolveTag st main c = some (some q)) : q.text = c.text := by
  unfold resolveTag at h
  by_cases hdot : startsWithDot c.text = true
  · cases hl : main.nameTable.lookup c.text with
    | none => simp [hdot, hl] at h
    | some v =>
      have hent := hnamed _ (lookup_entry hl)
      cases hw : st.windows[v]? with
      | none => simp [hdot, hl, hw] at h
      | some tw =>
        simp [hdot, hl, hw] at h
        simp only [hw, Option.map_some', Option.some.injEq] at hent
        rw [← h]; exact hent
  · simp [hdot] at h
    rw [h]

/-- C27: when every entry of the name table maps a path text to a window
whose path name has that text, every tag of a window with explicit tags that
starts with a dot and resolves at dispatch is replaced by an identity with
the same text as the stored tag; so the text of every non-null entry of the
list handed to `Tk_BindEvent` is the element at the same position of the list
the `bindtags` query returns. -/
theorem dispatch_texts_match_query (st : TkState) (clientData : Option Nat)
    (cmd name : Tcl_Obj) (winPtr eventPtr mi table : Nat) (win : TkWindow) (main : TkMainInfo)
    (cs : List CStr)
    (hname : Tk_NameToWindow st name.bytes clientData = some (some winPtr))
    (hwin : st.windows[winPtr]? = some win) (hmain : win.mainPtr = some mi)
    (hinfo : st.mainInfos[mi]? = some main) (htable : main.bindingTable = some table)
    (hold : HoldsTags win cs) (hne : cs ≠ []) (hnamed : NameTableNamed st main) :
    ∃ (qs : List (Option CStr)) (heap : Option Nat) (freed : Bool),
      TkBindEventProc st winPtr eventPtr
        = some ⟨[⟨table, eventPtr, winPtr, cs.length, qs⟩], heap, freed⟩ ∧
      Tk_BindtagsObjCmd st clientData [cmd, name]
        = some ⟨TclCode.TCL_OK, some (cs.map CStr.text), st⟩ ∧
      qs.length = cs.length ∧
      (∀ (i : Nat) (c q : CStr), cs[i]? = some c → startsWithDot c.text = true →
        qs[i]? = some (some q) → q.text = c.text) ∧
      (∀ (i : Nat) (q : CStr), qs[i]? = some (some q) →
        (cs.map CStr.text)[i]? = some q.text) := by
  obtain ⟨qs, heap, freed, hcall, hlen, hslots⟩ :=
    dispatch_slots eventPtr hwin hmain hinfo htable hold hne (named_valid hnamed)
  refine ⟨qs, heap, freed, hcall, query_explicit cmd hname hwin hold hne, hlen, ?_, ?_⟩
  · intro i c q hc _ hq
    obtain ⟨q2, hq2, hres⟩ := hslots i c hc
    rw [hq] at hq2
    cases hq2
    exact resolveTag_text hnamed hres
  · intro i q hq
    have hi : i < cs.length := by
      rw [← hlen]; exact (List.getElem?_eq_some.mp hq).1
    have hc : cs[i]? = some (cs.get ⟨i, hi⟩) := List.getElem?_eq_getElem hi
    obtain ⟨q2, hq2, hres⟩ := hslots i _ hc
    rw [hq] at hq2
    cases hq2
    simp only [List.getElem?_map, hc, Option.map_some', Option.some.injEq]
    exact (resolveTag_text hnamed hres).symm

/-- C27 (witness): for the button with the tags `Button .top .gone all` the
dispatch list has the path name of `.top` in slot 1 and `NULL` in slot 2,
and the texts of its other entries are the elements of the query. -/
theorem dispatch_texts_match_query_witness :
    NameTableNamed taggedState demoMain ∧
    ∃ (qs : List (Option CStr)) (heap : Option Nat) (freed : Bool),
      TkBindEventProc taggedState 2 5 = some ⟨[⟨7, 5, 2, 4, qs⟩], heap, freed⟩ ∧
      Tk_BindtagsObjCmd taggedState (some 0) [bindtagsWord, pathArg ".top.btn"]
        = some ⟨TclCode.TCL_OK, some ["Button", ".top", ".gone", "all"], taggedState⟩ ∧
      (∀ (i : Nat) (q : CStr), qs[i]? = some (some q) →
        ["Button", ".top", ".gone", "all"][i]? = some q.text) := by
  obtain ⟨qs, heap, freed, h1, h2, _, _, h5⟩ :=
    dispatch_texts_match_query taggedState (some 0) bindtagsWord (pathArg ".top.btn") 2 5 0 7
      _ demoMain demoTags (by decide) rfl rfl rfl rfl ⟨rfl, rfl⟩ (by decide) (by decide)
  exact ⟨by decide, qs, heap, freed, h1, h2, h5⟩

/-! ## Claims about the append marker -/

theorem bytes_empty_iff (s : String) : s.data = [] ↔ s = "" := by
  constructor
  · intro h; exact String.ext h
  · intro h; rw [h]

/-- C28: for the script `+` the `bind` command does not delete: the test for
an empty script sees the one character, the marker is stripped afterwards,
and the one call made is `Tk_CreateBinding` with the empty script and
`append = 1`.  With the same first argument and pattern, `Tk_DeleteBinding`
is called exactly when the script argument is the empty string. -/
theorem bind_plus_script_appends_empty (ops : BindingOps) (st : TkState)
    (clientData : Option Nat) (cmd arg1 pattern script : Tcl_Obj) (object : CStr)
    (table : Option Nat)
    (hres : BindsTo st clientData arg1.bytes object table) (hplus : script.bytes = "+") :
    Tk_BindObjCmd ops st clientData [cmd, arg1, pattern, script]
      = some ⟨if ops.Tk_CreateBinding table object pattern.bytes "" 1 = 0
            then TclCode.TCL_ERROR else TclCode.TCL_OK, none,
          [BindCall.Tk_CreateBinding table object pattern.bytes "" 1]⟩ ∧
    (∀ (script2 : Tcl_Obj), ∃ out2,
      Tk_BindObjCmd ops st clientData [cmd, arg1, pattern, script2] = some out2 ∧
      out2.calls.length = 1 ∧
      ((∃ (t : Option Nat) (o : CStr) (e : String),
          BindCall.Tk_DeleteBinding t o e ∈ out2.calls) ↔ script2.bytes = "")) := by
  constructor
  · have hdata : script.bytes.data = '+' :: [] := by rw [hplus]
    have h := @bind_create ops st clientData cmd arg1 pattern script object table '+' [] hres hdata
    simpa using h
  · intro script2
    cases hs : script2.bytes.data with
    | nil =>
      refine ⟨_, bind_delete cmd pattern hres hs, rfl, ?_⟩
      exact ⟨fun _ => (bytes_empty_iff _).mp hs, fun _ => ⟨_, _, _, List.mem_singleton.mpr rfl⟩⟩
    | cons c rest =>
      refine ⟨_, bind_create cmd pattern hres hs, rfl, ?_⟩
      constructor
      · rintro ⟨t, o, e, hmem⟩
        simp at hmem
      · intro h
        rw [(bytes_empty_iff _).mpr h] at hs
        cases hs

/-- C28 (witness): `bind .top <Key> +` calls `Tk_CreateBinding` with the
empty script and `append = 1`. -/
theorem bind_plus_script_appends_empty_witness :
    BindsTo demoState (some 0) ".top" demoTop.pathName (some 7) ∧
    (Tk_BindObjCmd demoOps demoState (some 0)
        [bindWord, strArg ".top", strArg "<Key>", strArg "+"]).map BindOutcome.calls
      = some [BindCall.Tk_CreateBinding (some 7) demoTop.pathName "<Key>" "" 1] := by
  have hb : BindsTo demoState (some 0) ".top" demoTop.pathName (some 7) :=
    BindsTo.window 1 demoTop 0 demoMain (by decide) (by decide) rfl rfl rfl
  refine ⟨hb, ?_⟩
  rw [(bind_plus_script_appends_empty demoOps demoState (some 0) bindWord (strArg ".top")
    (strArg "<Key>") (strArg "+") demoTop.pathName (some 7) hb rfl).1]
  rfl

/-! ## Claims about the reading operations -/

theorem storeSlot_eq (i : Nat) (p : Option CStr) (st : TkState) (buf : List (Option CStr)) :
    storeSlot i p ⟨st, buf⟩ = (writeSlot buf i p).map (fun b => (⟨st, b⟩ : DispatchMem)) := by
  unfold storeSlot
  cases writeSlot buf i p <;> rfl

theorem copyTagIn_eq {st : TkState} {winPtr mi : Nat} {win : TkWindow} {main : TkMainInfo}
    (hwin : st.windows[winPtr]? = some win) (hmain : win.mainPtr = some mi)
    (hinfo : st.mainInfos[mi]? = some main) (i : Nat) (buf : List (Option CStr)) :
    copyTagIn winPtr i ⟨st, buf⟩
      = (copyTag st main win i buf).map (fun b => (⟨st, b⟩ : DispatchMem)) := by
  unfold copyTagIn copyTag
  cases hp : readTag win i with
  | none => simp [hwin, hp]
  | some p =>
    by_cases hdot : startsWithDot p.text = true
    · cases hq : resolveTag st main p with
      | none => simp [hwin, hp, hdot, hmain, hinfo, hq]
      | some q => simp [hwin, hp, hdot, hmain, hinfo, hq, storeSlot_eq]
    · have hq : resolveTag st main p = some (some p) := by simp [resolveTag, hdot]
      simp [hwin, hp, hdot, hq, storeSlot_eq]

theorem tagLoopIn_eq {st : TkState} {winPtr mi : Nat} {win : TkWindow} {main : TkMainInfo}
    (hwin : st.windows[winPtr]? = some win) (hmain : win.mainPtr = some mi)
    (hinfo : st.mainInfos[mi]? = some main) :
    ∀ (k i : Nat) (buf : List (Option CStr)), i ≤ win.numTags → win.numTags - i < k →
      tagLoopIn winPtr k i ⟨st, buf⟩
        = (forFrom (copyTag st main win) (win.numTags - i) i buf).map
            (fun b => (⟨st, b⟩ : DispatchMem)) := by
  intro k
  induction k with
  | zero => intro i buf _ h; omega
  | succ k ih =>
    intro i buf hi hk
    by_cases hlt : i < win.numTags
    · have hsub : win.numTags - i = (win.numTags - (i + 1)) + 1 := by omega
      rw [hsub]
      simp only [tagLoopIn, hwin, hlt, if_true, forFrom, copyTagIn_eq hwin hmain hinfo]
      cases hc : copyTag st main win i buf with
      | none => rfl
      | some b =>
        simp only [Option.map_some', Option.some_bind]
        exact ih (i + 1) b hlt (by omega)
    · have hsub : win.numTags - i = 0 := by omega
      rw [hsub]
      simp [tagLoopIn, hwin, hlt, forFrom]

theorem callBindEvent_eq {st : TkState} {winPtr mi table : Nat} {win : TkWindow}
    {main : TkMainInfo} (T : BindEventFn)
    (hwin : st.windows[winPtr]? = some win) (hmain : win.mainPtr = some mi)
    (hinfo : st.mainInfos[mi]? = some main) (htable : main.bindingTable = some table)
    (eventPtr count : Nat) (buf : List (Option CStr)) :
    callBindEvent T winPtr eventPtr count ⟨st, buf⟩
      = (readSlots buf count).bind (fun objs =>
          (T st ⟨table, eventPtr, winPtr, count, objs⟩).map
            (fun st2 => ((⟨table, eventPtr, winPtr, count, objs⟩ : BindEventCall), st2))) := by
  unfold callBindEvent
  cases hr : readSlots buf count with
  | none => simp [hwin, hmain, hinfo, htable]
  | some objs =>
    cases ht : T st ⟨table, eventPtr, winPtr, count, objs⟩ <;>
      simp [hwin, hmain, hinfo, htable, ht]

theorem defaultTail_eq {st : TkState} {winPtr mi table : Nat} {win : TkWindow}
    {main : TkMainInfo} (T : BindEventFn)
    (hwin : st.windows[winPtr]? = some win) (hmain : win.mainPtr = some mi)
    (hinfo : st.mainInfos[mi]? = some main) (htable : main.bindingTable = some table)
    (eventPtr count : Nat) (buf : List (Option CStr)) :
    ((storeSlot (count - 1) (some (Tk_GetUid "all")) ⟨st, buf⟩).bind (fun m =>
      (callBindEvent T winPtr eventPtr count m).bind (fun r =>
        some ((⟨[r.1], none, false⟩ : BindEventOutcome), r.2))))
    = ((writeSlot buf (count - 1) (some (Tk_GetUid "all"))).bind (fun objPtr =>
        (readSlots objPtr count).bind (fun objs =>
          some (⟨[⟨table, eventPtr, winPtr, count, objs⟩], none, false⟩ :
            BindEventOutcome)))).bind (afterCalls T st) := by
  have hcall := callBindEvent_eq T hwin hmain hinfo htable eventPtr
  cases hw : writeSlot buf (count - 1) (some (Tk_GetUid "all")) with
  | none => simp [storeSlot_eq, hw]
  | some b =>
    cases hr : readSlots b count with
    | none => simp [storeSlot_eq, hw, hcall, hr]
    | some objs =>
      cases ht : T st ⟨table, eventPtr, winPtr, count, objs⟩ <;>
        simp [storeSlot_eq, hw, hcall, hr, ht, afterCalls]

theorem tagBody_eq {st : TkState} {winPtr mi table : Nat} {win : TkWindow}
    {main : TkMainInfo} (T : BindEventFn)
    (hwin : st.windows[winPtr]? = some win) (hmain : win.mainPtr = some mi)
    (hinfo : st.mainInfos[mi]? = some main) (htable : main.bindingTable = some table)
    (eventPtr : Nat) (buf : List (Option CStr)) (heap : Option Nat) (freed : Bool) :
    ((tagLoopIn winPtr (win.numTags + 1) 0 ⟨st, buf⟩).bind (fun m =>
      (m.st.windows[winPtr]?).bind (fun win2 =>
        (callBindEvent T winPtr eventPtr win2.numTags m).bind (fun r =>
          some ((⟨[r.1], heap, freed⟩ : BindEventOutcome), r.2)))))
    = ((forLoop win.numTags (copyTag st main win) buf).bind (fun objPtr =>
        (readSlots objPtr win.numTags).bind (fun objs =>
          some (⟨[⟨table, eventPtr, winPtr, win.numTags, objs⟩], heap, freed⟩ :
            BindEventOutcome)))).bind (afterCalls T st) := by
  have hcall := callBindEvent_eq T hwin hmain hinfo htable eventPtr
  have hloop : tagLoopIn winPtr (win.numTags + 1) 0 ⟨st, buf⟩
      = (forLoop win.numTags (copyTag st main win) buf).map
          (fun b => (⟨st, b⟩ : DispatchMem)) := by
    have := tagLoopIn_eq hwin hmain hinfo (win.numTags + 1) 0 buf (Nat.zero_le _) (by omega)
    simpa [forLoop] using this
  rw [hloop]
  cases hf : forLoop win.numTags (copyTag st main win) buf with
  | none => simp
  | some b =>
    cases hr : readSlots b win.numTags with
    | none => simp [hwin, hcall, hr]
    | some objs =>
      cases ht : T st ⟨table, eventPtr, winPtr, win.numTags, objs⟩ <;>
        simp [hwin, hcall, hr, ht, afterCalls]

theorem defaultBody_eq {st : TkState} {winPtr mi table : Nat} {win : TkWindow}
    {main : TkMainInfo} (T : BindEventFn)
    (hwin : st.windows[winPtr]? = some win) (hmain : win.mainPtr = some mi)
    (hinfo : st.mainInfos[mi]? = some main) (htable : main.bindingTable = some table)
    (eventPtr : Nat) (objects : List (Option CStr)) :
    ((storeSlot 0 (some win.pathName) ⟨st, objects⟩).bind fun m =>
      m.st.windows[winPtr]?.bind fun win1 =>
        (storeSlot 1 (some win1.classUid) m).bind fun m =>
          (topLevLoop m.st.windows m.st.windows.length (some winPtr)).bind fun topLevPtr =>
            (match topLevPtr with
                | some t =>
                  if winPtr ≠ t then
                    m.st.windows[t]?.bind fun tw =>
                      (storeSlot 2 (some tw.pathName) m).bind fun m2 => some (4, m2)
                  else some (3, m)
                | none => some (3, m)).bind
              fun r =>
              (storeSlot (r.1 - 1) (some (Tk_GetUid "all")) r.2).bind fun m =>
                (callBindEvent T winPtr eventPtr r.1 m).bind fun c =>
                  some ((⟨[c.1], none, false⟩ : BindEventOutcome), c.2)) =
    ((writeSlot objects 0 (some win.pathName)).bind fun objPtr =>
          (writeSlot objPtr 1 (some win.classUid)).bind fun objPtr =>
            (topLevLoop st.windows st.windows.length (some winPtr)).bind fun topLevPtr =>
              (match topLevPtr with
                  | some t =>
                    if winPtr ≠ t then
                      st.windows[t]?.bind fun tw =>
                        (writeSlot objPtr 2 (some tw.pathName)).bind fun buf => some (4, buf)
                    else some (3, objPtr)
                  | none => some (3, objPtr)).bind
                fun r =>
                (writeSlot r.2 (r.1 - 1) (some (Tk_GetUid "all"))).bind fun objPtr =>
                  (readSlots objPtr r.1).bind fun objs =>
                    some (⟨[⟨table, eventPtr, winPtr, r.1, objs⟩], none, false⟩ :
                      BindEventOutcome)).bind
      (afterCalls T st) := by
  have tail := defaultTail_eq T hwin hmain hinfo htable eventPtr
  cases h0 : writeSlot objects 0 (some win.pathName) with
  | none => simp only [storeSlot_eq, h0, Option.map_none', Option.none_bind]
  | some b0 =>
    simp only [storeSlot_eq, h0, Option.map_some', Option.some_bind, hwin]
    cases h1 : writeSlot b0 1 (some win.classUid) with
    | none => simp only [Option.map_none', Option.none_bind]
    | some b1 =>
      simp only [Option.map_some', Option.some_bind]
      cases htop : topLevLoop st.windows st.windows.length (some winPtr) with
      | none => simp only [Option.none_bind]
      | some r =>
        simp only [Option.some_bind]
        cases r with
        | none => exact tail 3 b1
        | some t =>
          by_cases ht : winPtr = t
          · simp only [ht, ne_eq, not_true_eq_false, if_false, Option.some_bind]
            rw [← ht]
            exact tail 3 b1
          · simp only [ne_eq, ht, not_false_eq_true, if_true]
            cases htw : st.windows[t]? with
            | none => simp only [Option.none_bind]
            | some tw =>
              simp only [Option.some_bind]
              cases h2 : writeSlot b1 2 (some tw.pathName) with
              | none => simp only [storeSlot_eq, h2, Option.map_none', Option.none_bind]
              | some b2 =>
                have h4 := tail 4 b2
                simp only [storeSlot_eq] at h4
                simp only [storeSlot_eq, h2, Option.map_some', Option.some_bind]
                exact h4

theorem bindEventProcIn_eq (T : BindEventFn) (st : TkState) (winPtr eventPtr : Nat) :
    TkBindEventProcIn T st winPtr eventPtr
      = (TkBindEventProc st winPtr eventPtr).bind (afterCalls T st) := by
  cases hwin : st.windows[winPtr]? with
  | none => simp [TkBindEventProcIn, TkBindEventProc, hwin]
  | some win =>
    cases hmain : win.mainPtr with
    | none => simp [TkBindEventProcIn, TkBindEventProc, hwin, hmain, afterCalls]
    | some mi =>
      cases hinfo : st.mainInfos[mi]? with
      | none => simp [TkBindEventProcIn, TkBindEventProc, hwin, hmain, hinfo]
      | some main =>
        cases htable : main.bindingTable with
        | none => simp [TkBindEventProcIn, TkBindEventProc, hwin, hmain, hinfo, htable, afterCalls]
        | some table =>
          simp only [TkBindEventProcIn, TkBindEventProc, hwin, hmain, hinfo, htable,
            Option.bind_eq_bind, Option.some_bind]
          by_cases hnum : win.numTags = 0
          · have hz : ¬ (win.numTags ≠ 0) := not_not.mpr hnum
            rw [if_neg hz, if_neg hz]
            exact defaultBody_eq T hwin hmain hinfo htable eventPtr _
          · have hz : win.numTags ≠ 0 := hnum
            rw [if_pos hz, if_pos hz]
            exact tagBody_eq T hwin hmain hinfo htable eventPtr _ _ _

theorem dispatch_calls {st : TkState} {winPtr eventPtr : Nat} {out : BindEventOutcome}
    (h : TkBindEventProc st winPtr eventPtr = some out) :
    out.calls = [] ∨ ∃ call, out.calls = [call] := by
  unfold TkBindEventProc at h
  simp only [Option.bind_eq_bind, Option.bind_eq_some] at h
  obtain ⟨win, _, h⟩ := h
  split at h
  · cases h; exact Or.inl rfl
  · simp only [Option.bind_eq_some] at h
    obtain ⟨main, _, h⟩ := h
    split at h
    · cases h; exact Or.inl rfl
    · split at h
      · simp only [Option.bind_eq_some] at h
        obtain ⟨_, _, _, _, h⟩ := h
        cases h; exact Or.inr ⟨_, rfl⟩
      · simp only [Option.bind_eq_some] at h
        obtain ⟨_, _, _, _, _, _, _, _, _, _, _, _, h⟩ := h
        cases h; exact Or.inr ⟨_, rfl⟩

theorem nameToWindow_congr {st st2 : TkState} (hw : st2.windows = st.windows)
    (hm : st2.mainInfos = st.mainInfos) (pathName : String) (tkwin : Option Nat) :
    Tk_NameToWindow st2 pathName tkwin = Tk_NameToWindow st pathName tkwin := by
  unfold Tk_NameToWindow
  rw [hw, hm]

theorem bindEventProcIn_frame {T : BindEventFn} {st st2 : TkState} {winPtr eventPtr : Nat}
    {out : BindEventOutcome} (h : TkBindEventProcIn T st winPtr eventPtr = some (out, st2)) :
    TkBindEventProc st winPtr eventPtr = some out ∧
    ((out.calls = [] ∧ st2 = st) ∨ ∃ call, out.calls = [call] ∧ T st call = some st2) := by
  rw [bindEventProcIn_eq, Option.bind_eq_some] at h
  obtain ⟨out2, hout, hafter⟩ := h
  rcases dispatch_calls hout with hnil | ⟨call, hcall⟩
  · simp only [afterCalls, hnil, Option.some.injEq, Prod.mk.injEq] at hafter
    obtain ⟨h1, h2⟩ := hafter
    subst h1
    exact ⟨hout, Or.inl ⟨hnil, h2.symm⟩⟩
  · simp only [afterCalls, hcall, Option.map_eq_some', Prod.mk.injEq] at hafter
    obtain ⟨s, hs, h1, h2⟩ := hafter
    subst h1; subst h2
    exact ⟨hout, Or.inr ⟨call, hcall, hs⟩⟩

theorem runReads_windows {T : BindEventFn} (hT : LeavesWindows T) :
    ∀ (ops : List ReadOp) (st st2 : TkState), runReads T st ops = some st2 →
      st2.windows = st.windows ∧ st2.mainInfos = st.mainInfos := by
  intro ops
  induction ops with
  | nil =>
    intro st st2 h
    simp only [runReads, Option.some.injEq] at h
    subst h
    exact ⟨rfl, rfl⟩
  | cons op ops ih =>
    intro st st2 h
    simp only [runReads, Option.bind_eq_some] at h
    obtain ⟨st1, h1, h2⟩ := h
    have hst1 : st1.windows = st.windows ∧ st1.mainInfos = st.mainInfos := by
      cases op with
      | query clientData cmd name =>
        simp only [runRead, Option.map_eq_some'] at h1
        obtain ⟨out, hout, hst⟩ := h1
        rw [← hst, query_state hout]
        exact ⟨rfl, rfl⟩
      | dispatch winPtr eventPtr =>
        simp only [runRead, Option.map_eq_some'] at h1
        obtain ⟨⟨out, s⟩, hrun, hst⟩ := h1
        have hst2 : s = st1 := hst
        rw [← hst2]
        rcases (bindEventProcIn_frame hrun).2 with ⟨_, hs⟩ | ⟨call, _, hs⟩
        · rw [hs]; exact ⟨rfl, rfl⟩
        · exact hT st call s hs
    obtain ⟨h3, h4⟩ := ih st1 st2 h2
    exact ⟨h3.trans hst1.1, h4.trans hst1.2⟩

/-- C25 (counterexample): the button holds the four tags `Button .top .gone
all` and the script bound to the event is `bindtags .top.btn {}`.  One
dispatch by `TkBindEventProc` leaves the button without tags, so its tag list
is not what it was, and the query that follows returns the default tags and
not the texts assigned. -/
theorem dispatch_binding_changes_tags :
    Tk_BindtagsObjCmd taggedState (some 0) [bindtagsWord, pathArg ".top.btn"]
      = some ⟨TclCode.TCL_OK, some ["Button", ".top", ".gone", "all"], taggedState⟩ ∧
    taggedState.windows[2]?.map TkWindow.numTags = some 4 ∧
    (TkBindEventProcIn clearingBinding taggedState 2 5).map Prod.snd
      = some ⟨demoWindows, [demoMain], 1002, [CStr.mem 1001 ".gone", CStr.mem 1000 ".top"]⟩ ∧
    demoWindows[2]?.map TkWindow.numTags = some 0 ∧
    demoWindows[2]?.map TkWindow.tagPtr = some none ∧
    demoWindows[2]? ≠ taggedState.windows[2]? ∧
    Tk_BindtagsObjCmd
        ⟨demoWindows, [demoMain], 1002, [CStr.mem 1001 ".gone", CStr.mem 1000 ".top"]⟩
        (some 0) [bindtagsWord, pathArg ".top.btn"]
      = some ⟨TclCode.TCL_OK, some [".top.btn", "Button", ".top", "all"],
          ⟨demoWindows, [demoMain], 1002, [CStr.mem 1001 ".gone", CStr.mem 1000 ".top"]⟩⟩ :=
  ⟨by decide, by decide, by decide, by decide, by decide, by decide, by decide⟩

/-- C25 (amended): the reading operations store into no tag list.  The query
form of `bindtags` returns in the state it was called in.  `TkBindEventProc`
builds its list in its buffer only: it calls `Tk_BindEvent`, at most once, in
the very state it was entered in, with the list the state gives, and returns
in the state `Tk_BindEvent` leaves, and it returns whenever `Tk_BindEvent`
does.  So a tag list changes across a dispatch only by what the bindings
invoked do; when `Tk_BindEvent` leaves the windows and the name tables as
they are, every sequence of queries and dispatches leaves them as they are,
and a query afterwards returns the texts assigned. -/
theorem reads_store_no_tags (T : BindEventFn) (st : TkState) :
    (∀ (clientData : Option Nat) (cmd name : Tcl_Obj) (out : CmdOutcome),
      Tk_BindtagsObjCmd st clientData [cmd, name] = some out → out.state = st) ∧
    (∀ (winPtr eventPtr : Nat) (out : BindEventOutcome) (st2 : TkState),
      TkBindEventProcIn T st winPtr eventPtr = some (out, st2) →
      TkBindEventProc st winPtr eventPtr = some out ∧
      ((out.calls = [] ∧ st2 = st) ∨ ∃ call, out.calls = [call] ∧ T st call = some st2)) ∧
    (∀ (winPtr eventPtr : Nat) (out : BindEventOutcome),
      TkBindEventProc st winPtr eventPtr = some out →
      (out.calls = [] → TkBindEventProcIn T st winPtr eventPtr = some (out, st)) ∧
      (∀ call, out.calls = [call] →
        TkBindEventProcIn T st winPtr eventPtr = (T st call).map (fun st2 => (out, st2)))) ∧
    (LeavesWindows T → ∀ (ops : List ReadOp) (st2 : TkState), runReads T st ops = some st2 →
      st2.windows = st.windows ∧ st2.mainInfos = st.mainInfos ∧
      ∀ (clientData : Option Nat) (cmd name : Tcl_Obj) (winPtr : Nat) (win : TkWindow)
        (cs : List CStr),
        Tk_NameToWindow st name.bytes clientData = some (some winPtr) →
        st.windows[winPtr]? = some win → HoldsTags win cs → cs ≠ [] →
        Tk_BindtagsObjCmd st2 clientData [cmd, name]
          = some ⟨TclCode.TCL_OK, some (cs.map CStr.text), st2⟩) := by
  refine ⟨fun _ _ _ _ h => query_state h, fun _ _ _ _ h => bindEventProcIn_frame h, ?_, ?_⟩
  · intro winPtr eventPtr out hout
    constructor
    · intro hnil
      rw [bindEventProcIn_eq, hout]
      simp [afterCalls, hnil]
    · intro call hcall
      rw [bindEventProcIn_eq, hout]
      simp [afterCalls, hcall]
  · intro hT ops st2 hrun
    obtain ⟨hw, hm⟩ := runReads_windows hT ops st st2 hrun
    refine ⟨hw, hm, ?_⟩
    intro clientData cmd name winPtr win cs hname hwin hold hne
    have hname2 : Tk_NameToWindow st2 name.bytes clientData = some (some winPtr) := by
      rw [nameToWindow_congr hw hm]; exact hname
    have hwin2 : st2.windows[winPtr]? = some win := by rw [hw]; exact hwin
    exact query_explicit cmd hname2 hwin2 hold hne

/-- C25 (witness): with bindings that touch no window, three dispatches and
a query on the button with the tags `Button .top .gone all` leave the windows
as they are, and a query afterwards returns these four texts. -/
theorem reads_store_no_tags_witness :
    LeavesWindows quietBinding ∧
    ∃ st2, runReads quietBinding taggedState
        [ReadOp.dispatch 2 5, ReadOp.dispatch 2 6,
          ReadOp.query (some 0) bindtagsWord (pathArg ".top.btn"), ReadOp.dispatch 2 7]
        = some st2 ∧
      st2.nextBlock = 1005 ∧ st2.windows = taggedState.windows ∧
      Tk_BindtagsObjCmd st2 (some 0) [bindtagsWord, pathArg ".top.btn"]
        = some ⟨TclCode.TCL_OK, some ["Button", ".top", ".gone", "all"], st2⟩ := by
  have hquiet : LeavesWindows quietBinding := by
    intro s call s2 h
    simp only [quietBinding, Option.some.injEq] at h
    subst h
    exact ⟨rfl, rfl⟩
  have hrun : runReads quietBinding taggedState
      [ReadOp.dispatch 2 5, ReadOp.dispatch 2 6,
        ReadOp.query (some 0) bindtagsWord (pathArg ".top.btn"), ReadOp.dispatch 2 7]
      = some { taggedState with nextBlock := 1005 } := by decide
  obtain ⟨hw, _, hq⟩ := (reads_store_no_tags quietBinding taggedState).2.2.2 hquiet _ _ hrun
  exact ⟨hquiet, _, hrun, rfl, hw,
    hq (some 0) bindtagsWord (pathArg ".top.btn") 2 _ demoTags (by decide) rfl ⟨rfl, rfl⟩
      (by decide)⟩

end TkCmds
